import Mathlib

/-!
# esh job control: a shallow embedding of `src/esh.c`

The shell process is modelled as a pure state machine.  Everything the kernel
decides (results of `waitpid`, `fork`, `kill`, `tcsetpgrp`, the terminal
attributes read by `esh_sys_tty_save`) is supplied by oracle lists carried in
`World`; every observable action of the shell is appended to `World.trace`.

Modelling conventions:

* C `int` / `pid_t` values are `Int`; the job counter `jobNum` and the result
  of `atoi` are kept in the range of a 32-bit `int` by `wrap_int`.
* The intrusive lists of `list.h` are Lean lists; a C loop over a list is a
  left-to-right traversal that threads the `World`.
* `list_remove` followed by `esh_pipeline_free` drops the job from the table;
  a loop that keeps walking after it continues with the following elements.
* `exit`, a fatal error, a segmentation fault, and a blocking `waitpid` that
  never returns are all `none`: the shell reaches no further state.
* `SIGCHLD` is blocked from the moment a line has been read until the next
  prompt; the handler runs, any number of times, while the shell waits at the
  prompt (`handler_runs`).
-/

namespace Esh

/-! ## Data model (`esh.h` is not part of the sources; fields are the ones `esh.c` uses) -/

/-- Modelled from the spec: `enum job_status` of `esh.h`, the four job states
`{Foreground, Background, Stopped, NeedsTerminal}` that `esh.c` switches on. -/
inductive job_status where
  | FOREGROUND
  | BACKGROUND
  | STOPPED
  | NEEDSTERMINAL
deriving DecidableEq

/-- Modelled from the spec: `struct esh_command` of `esh.h`, with the fields
`esh.c` reads and writes (`argv`, `pid`, `complete`, `stop`, `status`). -/
structure esh_command where
  argv : List String
  pid : Int
  complete : Bool
  stop : Bool
  status : Int
deriving DecidableEq

/-- Modelled from the spec: `struct esh_pipeline` of `esh.h`, with the fields
`esh.c` reads and writes.  `struct termios` is an uninterpreted number. -/
structure esh_pipeline where
  commands : List esh_command
  bg_job : Bool
  jid : Int
  pgrp : Int
  status : job_status
  saved_tty_state : Nat
  notified : Bool
deriving DecidableEq

/-- The signals `esh.c` sends with `kill`. -/
inductive Signal where
  | SIGCONT
  | SIGTSTP
  | SIGKILL
deriving DecidableEq

/-- Observable actions of the shell process, in the order they happen. -/
inductive Event where
  | print (s : String)
  | perror (s : String)
  | command_line_print (first : esh_pipeline)
  | tcsetpgrp (pgrp : Int)
  | tty_restore (state : Nat)
  | tty_save (state : Nat)
  | kill (pid : Int) (sig : Signal)
  | waitpid (nohang : Bool) (pid : Int) (status : Int)
  | fork (pid : Int)
  | setpgid (pid : Int) (pgrp : Int)
deriving DecidableEq

/-- The environment: the trace so far and what the kernel will answer.
`waits` are the results of the blocking `waitpid` calls, `polls` those of the
`WNOHANG` calls, each in call order. -/
structure World where
  trace : List Event
  waits : List (Int × Int)
  polls : List (Int × Int)
  forks : List Int
  kills : List Int
  tcsets : List Int
  ttys : List Nat
deriving DecidableEq

/-- The macro `WIFSTOPPED` of `<sys/wait.h>`: `(status & 0xff) == 0x7f`. -/
def WIFSTOPPED (status : Int) : Bool := status % 256 == 127

/-! ## `mark_process_status`, `job_is_stopped`, `job_is_complete` -/

/-- What `mark_process_status` writes into the command whose pid matched. -/
def mark_command (status : Int) (command : esh_command) : esh_command :=
  if WIFSTOPPED status then
    { command with status := status, stop := true }
  else
    { command with status := status, complete := true }

/-- The `for` loop of `mark_process_status`: `none` when it falls through
(no child matches pid), otherwise the commands after the first match was marked. -/
def mark_commands (pid status : Int) : List esh_command → Option (List esh_command)
  | [] => none
  | command :: rest =>
    if command.pid = pid then
      some (mark_command status command :: rest)
    else
      match mark_commands pid status rest with
      | some rest' => some (command :: rest')
      | none => none

/-- `mark_process_status(pid, status, pipe)`: the return value and the job afterwards. -/
def mark_process_status (pid status : Int) (pipe : esh_pipeline) : Int × esh_pipeline :=
  if pid > 0 then
    match mark_commands pid status pipe.commands with
    | some commands => (0, { pipe with commands := commands })
    | none => (-1, pipe)
  else if pid = 0 then
    (-1, pipe)
  else
    (-1, pipe)

/-- `job_is_stopped`: no command has both `stop` and `complete` clear. -/
def job_is_stopped (pipe : esh_pipeline) : Bool :=
  pipe.commands.all (fun command => !(!command.stop && !command.complete))

/-- `job_is_complete`: every command has `complete` set. -/
def job_is_complete (pipe : esh_pipeline) : Bool :=
  pipe.commands.all (fun command => command.complete)

/-! ## System calls: each takes its answer from the oracle and logs itself -/

/-- Append an event to the trace. -/
def emit (e : Event) (w : World) : World :=
  { w with trace := w.trace ++ [e] }

/-- One `printf` call with the formatted text `s`. -/
def printf (s : String) (w : World) : World := emit (Event.print s) w

/-- The text written to stdout by a trace: the `printf` texts in order. -/
def stdout : List Event → String
  | [] => ""
  | Event.print s :: rest => s ++ stdout rest
  | _ :: rest => stdout rest

/-- A call `kill(pid, sig)` that the shell survives: it is logged and its return
value comes from `kills` (`0` once the list is used up). -/
def kill_call (pid : Int) (sig : Signal) (w : World) : Int × World :=
  match w.kills with
  | [] => (0, emit (Event.kill pid sig) w)
  | rc :: rest => (rc, emit (Event.kill pid sig) { w with kills := rest })

/-- The call `kill(pid, sig)`.  With `pid = 0` the signal goes to the process
group of the shell itself, and `SIGKILL` then ends the shell (`none`).
`SIGTSTP` sent that way suspends the shell; the call is the point where it
goes on once it is continued. -/
def sys_kill (pid : Int) (sig : Signal) (w : World) : Option (Int × World) :=
  if pid = 0 ∧ sig = Signal.SIGKILL then none
  else some (kill_call pid sig w)

/-- The call `fork()` as seen by the shell: the return value comes from `forks`
(`-1` once the list is used up). -/
def sys_fork (w : World) : Int × World :=
  match w.forks with
  | [] => (-1, emit (Event.fork (-1)) w)
  | pid :: rest => (pid, emit (Event.fork pid) { w with forks := rest })

/-- The call `esh_sys_tty_save(&state)`: the attributes read come from `ttys`. -/
def esh_sys_tty_save (w : World) : Nat × World :=
  match w.ttys with
  | [] => (0, emit (Event.tty_save 0) w)
  | st :: rest => (st, emit (Event.tty_save st) { w with ttys := rest })

/-- `give_terminal_to(pgrp, pg_tty_state)`: `tcsetpgrp`, fatal when it returns `-1`,
then the terminal state is restored when one is given. -/
def give_terminal_to (pgrp : Int) (pg_tty_state : Option Nat) (w : World) : Option World :=
  let rc : Int := match w.tcsets with
    | [] => 0
    | r :: _ => r
  let w1 := emit (Event.tcsetpgrp pgrp) { w with tcsets := w.tcsets.tail }
  if rc = -1 then none
  else
    match pg_tty_state with
    | some st => some (emit (Event.tty_restore st) w1)
    | none => some w1

/-! ## Printing a job -/

/-- The `while(cmd->argv[i])` loop of `print_job_name`: every string followed by a space. -/
def print_argv : List String → String
  | [] => ""
  | arg :: rest => arg ++ " " ++ print_argv rest

/-- The `for` loop of `print_job_name` over the commands, with `" | "` between them. -/
def print_commands : List esh_command → String
  | [] => ""
  | [command] => print_argv command.argv
  | command :: rest => print_argv command.argv ++ " | " ++ print_commands rest

/-- The text `print_job_name(job)` writes. -/
def print_job_name (job : esh_pipeline) : String :=
  print_commands job.commands ++ "\n"

/-! ## Waiting -/

/-- The `do ... while` loop of `wait_for_job` over the results of the blocking
`waitpid`: the events, the unused results and the job when the loop exits;
`none` when the results run out, i.e. `waitpid` never returns. -/
def wait_for_job_loop :
    List (Int × Int) → esh_pipeline → Option (List Event × List (Int × Int) × esh_pipeline)
  | [], _ => none
  | (pid, status) :: rest, pipe =>
    let r := mark_process_status pid status pipe
    if r.1 = 0 && !job_is_stopped r.2 && !job_is_complete r.2 then
      match wait_for_job_loop rest r.2 with
      | some (evs, rest', pipe') => some (Event.waitpid false pid status :: evs, rest', pipe')
      | none => none
    else
      some ([Event.waitpid false pid status], rest, r.2)

/-- `wait_for_job(pipe)`. -/
def wait_for_job (w : World) (pipe : esh_pipeline) : Option (World × esh_pipeline) :=
  match wait_for_job_loop w.waits pipe with
  | some (evs, rest, pipe') => some ({ w with trace := w.trace ++ evs, waits := rest }, pipe')
  | none => none

/-- The `do ... while` loop of `update_status` for one job, over the results of
the `WNOHANG` `waitpid`.  When no result is left `waitpid` returns `0`, which
`mark_process_status` rejects without looking at `status`. -/
def poll_loop :
    List (Int × Int) → esh_pipeline → List Event × List (Int × Int) × esh_pipeline
  | [], pipe => ([Event.waitpid true 0 0], [], (mark_process_status 0 0 pipe).2)
  | (pid, status) :: rest, pipe =>
    let r := mark_process_status pid status pipe
    if r.1 = 0 then
      match poll_loop rest r.2 with
      | (evs, rest', pipe') => (Event.waitpid true pid status :: evs, rest', pipe')
    else
      ([Event.waitpid true pid status], rest, r.2)

/-- The body of the `for` loop of `update_status` for one job. -/
def update_status_job (w : World) (job : esh_pipeline) : World × esh_pipeline :=
  match poll_loop w.polls job with
  | (evs, rest, job1) =>
    let w1 : World := { w with trace := w.trace ++ evs, polls := rest }
    if job_is_stopped job1 && !job_is_complete job1 then
      let w2 := printf ("[" ++ toString job1.jid ++ "] Stopped") w1
      let w3 := printf (print_job_name job1) w2
      (printf "\n" w3, { job1 with status := job_status.STOPPED })
    else
      (w1, job1)

/-- `update_status(jobList)`. -/
def update_status : World → List esh_pipeline → World × List esh_pipeline
  | w, [] => (w, [])
  | w, job :: rest =>
    match update_status_job w job with
    | (w1, job1) =>
      match update_status w1 rest with
      | (w2, rest') => (w2, job1 :: rest')

/-- The `for` loop of `do_job_notification` after the sweep. -/
def notify_loop : World → List esh_pipeline → World × List esh_pipeline
  | w, [] => (w, [])
  | w, job :: rest =>
    if job_is_complete job then
      let w1 := printf ("[" ++ toString job.jid ++ "]  DONE          ") w
      let w2 := printf (print_job_name job) w1
      notify_loop (printf "\n" w2) rest
    else if job_is_stopped job && !job.notified then
      match notify_loop w rest with
      | (w1, rest') => (w1, { job with notified := true } :: rest')
    else
      match notify_loop w rest with
      | (w1, rest') => (w1, job :: rest')

/-- `do_job_notification` on the jobs table. -/
def do_job_notification (w : World) (jobsList : List esh_pipeline) : World × List esh_pipeline :=
  match update_status w jobsList with
  | (w1, jobs1) => notify_loop w1 jobs1

/-! ## Foreground and background -/

/-- The `if(cont)` block of `put_job_in_foreground`: the saved terminal state
is restored and `SIGCONT` is sent to the process group, with a diagnostic when
`kill` fails. -/
def send_continue (pipe : esh_pipeline) (w : World) : Option World :=
  match sys_kill (-pipe.pgrp) Signal.SIGCONT (emit (Event.tty_restore pipe.saved_tty_state) w) with
  | none => none
  | some (rc, w1) => some (if rc < 0 then emit (Event.perror "kill (SIGCONT)") w1 else w1)

/-- `put_job_in_foreground(pipe, cont, shellGroup, shellState)`.  The result is
the job afterwards and whether it was removed from the jobs table and freed. -/
def put_job_in_foreground (pipe : esh_pipeline) (cont : Bool) (shellGroup : Int)
    (shellState : Option Nat) (w : World) : Option (World × esh_pipeline × Bool) :=
  let w1 := printf (print_job_name pipe) w
  match give_terminal_to pipe.pgrp (some pipe.saved_tty_state) w1 with
  | none => none
  | some w2 =>
    let pipe1 : esh_pipeline := { pipe with status := job_status.FOREGROUND, bg_job := false }
    match (if cont then send_continue pipe1 w2 else some w2) with
    | none => none
    | some w3 =>
      match wait_for_job w3 pipe1 with
      | none => none
      | some (w4, pipe2) =>
        if !job_is_complete pipe2 then
          match esh_sys_tty_save w4 with
          | (st, w5) =>
            match give_terminal_to shellGroup shellState w5 with
            | some w6 =>
              some (w6, { pipe2 with status := job_status.STOPPED, saved_tty_state := st }, false)
            | none => none
        else
          match give_terminal_to shellGroup shellState w4 with
          | some w6 => some (w6, pipe2, true)
          | none => none

/-- `mark_job_as_running(pipe)`: clears `stop` on every command. -/
def mark_job_as_running (pipe : esh_pipeline) : esh_pipeline :=
  { pipe with commands := pipe.commands.map (fun command => { command with stop := false }) }

/-- `put_job_in_background(pipe, cont)`. -/
def put_job_in_background (pipe : esh_pipeline) (cont : Bool) (w : World) :
    Option (World × esh_pipeline) :=
  let pipe1 : esh_pipeline := { pipe with bg_job := true }
  if cont then
    match sys_kill (-pipe1.pgrp) Signal.SIGCONT w with
    | none => none
    | some (rc, w1) =>
      if rc < 0 then
        some (emit (Event.perror "kill (SIGCONT)") w1, pipe1)
      else
        some (w1, { mark_job_as_running pipe1 with status := job_status.BACKGROUND })
  else
    some (w, pipe1)

/-- `continue_job(pipe, bg, shell_group, shell_state)`. -/
def continue_job (pipe : esh_pipeline) (bg : Bool) (shell_group : Int)
    (shell_state : Option Nat) (w : World) : Option (World × esh_pipeline × Bool) :=
  let pipe1 := mark_job_as_running pipe
  if !bg then
    put_job_in_foreground pipe1 true shell_group shell_state w
  else
    match put_job_in_background pipe1 true w with
    | none => none
    | some (w1, pipe2) => some (w1, pipe2, false)

/-- A `for` loop over the jobs table whose body `f` may change the current job
or remove it (`none`), and may end the shell (outer `none`). -/
def for_each_job (f : World → esh_pipeline → Option (World × Option esh_pipeline)) :
    World → List esh_pipeline → Option (World × List esh_pipeline)
  | w, [] => some (w, [])
  | w, job :: rest =>
    match f w job with
    | none => none
    | some (w1, r) =>
      match for_each_job f w1 rest with
      | none => none
      | some (w2, rest') =>
        match r with
        | some job' => some (w2, job' :: rest')
        | none => some (w2, rest')

/-- Turns the result of an operation on a job into the body result of `for_each_job`. -/
def keep_unless_removed :
    Option (World × esh_pipeline × Bool) → Option (World × Option esh_pipeline)
  | none => none
  | some (w, job, removed) => some (w, if removed then none else some job)

/-- The body of the `for` loop of `foreground`. -/
def foreground_job (jid : Int) (shell_group : Int) (shell_state : Option Nat)
    (w : World) (job : esh_pipeline) : Option (World × Option esh_pipeline) :=
  if job.jid = jid then
    match job.status with
    | job_status.FOREGROUND => some (w, some job)
    | job_status.BACKGROUND =>
      keep_unless_removed (put_job_in_foreground job false shell_group shell_state w)
    | job_status.STOPPED =>
      keep_unless_removed (continue_job job false shell_group shell_state w)
    | job_status.NEEDSTERMINAL =>
      keep_unless_removed (continue_job job false shell_group shell_state w)
  else
    some (w, some job)

/-- `foreground(jid, jobList, shell_group, shell_state)`. -/
def foreground (jid : Int) (jobList : List esh_pipeline) (shell_group : Int)
    (shell_state : Option Nat) (w : World) : Option (World × List esh_pipeline) :=
  match for_each_job (foreground_job jid shell_group shell_state) w jobList with
  | none => none
  | some (w1, jobs1) =>
    if jobList.any (fun job => job.jid == jid) then
      some (w1, jobs1)
    else
      some (printf "No job mathcing that ID\n" w1, jobs1)

/-! ## Launching -/

/-- Applies `f` to the command at position `i`. -/
def set_command (f : esh_command → esh_command) : Nat → List esh_command → List esh_command
  | _, [] => []
  | 0, command :: rest => f command :: rest
  | i + 1, command :: rest => command :: set_command f i rest

/-- The `for` loop of `launch_job` in the shell process, for the commands at
positions `i, i+1, ..., i+n-1`.  A `fork` that returns `0` is the child, which
goes on to `execvp` and is no longer the shell; a negative one calls `exit`.
The flag tells whether the job has been removed from the table and freed. -/
def launch_job_loop (bg : Bool) (shell_is_interactive : Bool) (shell_pgrp : Int)
    (shell_state : Option Nat) :
    Nat → Nat → World → esh_pipeline → Bool → Option (World × esh_pipeline × Bool)
  | 0, _, w, job, removed => some (w, job, removed)
  | n + 1, i, w, job, removed =>
    let job1 : esh_pipeline :=
      { job with commands :=
          set_command (fun cmd => { cmd with complete := false, stop := false }) i job.commands }
    match sys_fork w with
    | (pid, w1) =>
      if pid = 0 then none
      else if pid < 0 then none
      else
        let job2 : esh_pipeline :=
          { job1 with commands := set_command (fun cmd => { cmd with pid := pid }) i job1.commands }
        let job3 : esh_pipeline :=
          if shell_is_interactive then
            if job2.pgrp = 0 then { job2 with pgrp := pid } else job2
          else job2
        let w2 : World :=
          if shell_is_interactive then emit (Event.setpgid pid job3.pgrp) w1 else w1
        let w3 := printf ("[" ++ toString job3.jid ++ "] " ++ toString job3.pgrp ++ " \n") w2
        if !shell_is_interactive then
          match wait_for_job w3 job3 with
          | none => none
          | some (w4, job4) =>
            launch_job_loop bg shell_is_interactive shell_pgrp shell_state n (i + 1) w4 job4 removed
        else if !bg then
          match put_job_in_foreground job3 false shell_pgrp shell_state w3 with
          | none => none
          | some (w4, job4, removed') =>
            launch_job_loop bg shell_is_interactive shell_pgrp shell_state n (i + 1) w4 job4
              (removed || removed')
        else
          match put_job_in_background job3 false w3 with
          | none => none
          | some (w4, job4) =>
            launch_job_loop bg shell_is_interactive shell_pgrp shell_state n (i + 1) w4 job4 removed

/-- `launch_job(job, bg, shell_is_interactive, shell_pgrp, shell_state)`. -/
def launch_job (job : esh_pipeline) (bg : Bool) (shell_is_interactive : Bool) (shell_pgrp : Int)
    (shell_state : Option Nat) (w : World) : Option (World × esh_pipeline × Bool) :=
  launch_job_loop bg shell_is_interactive shell_pgrp shell_state job.commands.length 0 w
    { job with pgrp := 0 } false

/-! ## Built-ins and the read/eval loop of `main` -/

/-- The digits part of `atoi`. -/
def atoi_digits : List Char → Int → Int
  | [], acc => acc
  | c :: cs, acc =>
    if c.isDigit then atoi_digits cs (acc * 10 + ((c.toNat : Int) - 48)) else acc

/-- The sign part of `atoi`. -/
def atoi_signed : List Char → Int
  | '-' :: cs => - atoi_digits cs 0
  | '+' :: cs => atoi_digits cs 0
  | cs => atoi_digits cs 0

/-- The C library predicate `isspace` in the C locale: space and the
characters `\t`, `\n`, `\v`, `\f`, `\r` (codes 9 to 13). -/
def isspace (c : Char) : Bool :=
  c.toNat == 32 || (9 ≤ c.toNat && c.toNat ≤ 13)

/-- The leading white space part of `atoi`. -/
def atoi_skip : List Char → Int
  | [] => 0
  | c :: cs => if isspace c then atoi_skip cs else atoi_signed (c :: cs)

/-- What `strtol` returns for the value `n` of the digits: `n` itself, or
`LONG_MAX` or `LONG_MIN` when `n` is out of the range of a 64-bit `long`. -/
def clamp_long (n : Int) : Int :=
  max (-9223372036854775808) (min n 9223372036854775807)

/-- The value of a 32-bit `int` after a conversion or an increment that leaves
its range: the representative of `n` modulo `2^32` between `INT_MIN` and `INT_MAX`. -/
def wrap_int (n : Int) : Int :=
  (n + 2147483648) % 4294967296 - 2147483648

/-- The C library function `atoi`, which is `(int) strtol(s, NULL, 10)`. -/
def atoi (s : String) : Int := wrap_int (clamp_long (atoi_skip s.data))

/-- `is_builtin_command` on the program name of the first command. -/
def is_builtin_command (cmd : String) : Bool :=
  if cmd = "jobs" then true
  else if cmd = "fg" then true
  else if cmd = "bg" then true
  else if cmd = "stop" then true
  else if cmd = "kill" then true
  else if cmd = "quit_shell" then true
  else false

/-- The status text of the `jobs` built-in. -/
def jobs_status_text : job_status → String
  | job_status.FOREGROUND => "Running     "
  | job_status.BACKGROUND => "Running     "
  | job_status.STOPPED => "Stopped        "
  | job_status.NEEDSTERMINAL => "Stopped  "

/-- The body of the `for` loop of the `jobs` built-in: six `printf` calls. -/
def builtin_jobs_job (w : World) (job : esh_pipeline) : World :=
  let w1 := printf ("[" ++ toString job.jid ++ "] ") w
  let w2 := printf (jobs_status_text job.status) w1
  let w3 := printf "(" w2
  let w4 := printf (print_job_name job) w3
  let w5 := printf ")" w4
  printf "\n" w5

/-- The `jobs` built-in. -/
def builtin_jobs : World → List esh_pipeline → World
  | w, [] => w
  | w, job :: rest => builtin_jobs (builtin_jobs_job w job) rest

/-- The body of the `for` loop of the `bg` built-in. -/
def builtin_bg_job (jid : Int) (shell_pgrp : Int) (shell_state : Option Nat)
    (w : World) (job : esh_pipeline) : Option (World × Option esh_pipeline) :=
  if job.jid = jid then
    keep_unless_removed (continue_job job true shell_pgrp shell_state w)
  else
    some (w, some job)

/-- The `bg` built-in. -/
def builtin_bg (jid : Int) (shell_pgrp : Int) (shell_state : Option Nat)
    (w : World) (jobsList : List esh_pipeline) : Option (World × List esh_pipeline) :=
  match for_each_job (builtin_bg_job jid shell_pgrp shell_state) w jobsList with
  | none => none
  | some (w1, jobs1) =>
    if jobsList.any (fun job => job.jid == jid) then some (w1, jobs1)
    else some (printf "No job with matching ID \n" w1, jobs1)

/-- The body of the `for` loop of the `kill` built-in. -/
def builtin_kill_job (jid : Int) (w : World) (job : esh_pipeline) :
    Option (World × Option esh_pipeline) :=
  if job.jid = jid then
    match sys_kill (-job.pgrp) Signal.SIGKILL w with
    | none => none
    | some (_, w1) => some (w1, none)
  else
    some (w, some job)

/-- The `kill` built-in. -/
def builtin_kill (jid : Int) (w : World) (jobsList : List esh_pipeline) :
    Option (World × List esh_pipeline) :=
  match for_each_job (builtin_kill_job jid) w jobsList with
  | none => none
  | some (w1, jobs1) =>
    if jobsList.any (fun job => job.jid == jid) then some (w1, jobs1)
    else some (printf "No job with matching ID \n" w1, jobs1)

/-- The body of the `for` loop of the `stop` built-in. -/
def builtin_stop_job (jid : Int) (w : World) (job : esh_pipeline) :
    Option (World × Option esh_pipeline) :=
  if job.jid = jid then
    match esh_sys_tty_save w with
    | (st, w1) =>
      match sys_kill (-job.pgrp) Signal.SIGTSTP w1 with
      | none => none
      | some (_, w2) =>
        some (w2, some { job with saved_tty_state := st, status := job_status.STOPPED })
  else
    some (w, some job)

/-- The `stop` built-in. -/
def builtin_stop (jid : Int) (w : World) (jobsList : List esh_pipeline) :
    Option (World × List esh_pipeline) :=
  match for_each_job (builtin_stop_job jid) w jobsList with
  | none => none
  | some (w1, jobs1) =>
    if jobsList.any (fun job => job.jid == jid) then some (w1, jobs1)
    else some (printf "No job with matching ID\n" w1, jobs1)

/-- What `readline` and the parser hand to one iteration of the loop: end of
input, a parse error, an empty line, or a command line whose first pipeline is
`first`. -/
inductive Line where
  | eof
  | parse_error
  | empty
  | command (first : esh_pipeline)
deriving DecidableEq

/-- The values `main` computes once at startup. -/
structure Ctx where
  shell_is_interactive : Bool
  shell_pgrp : Int
  shell_state : Option Nat
deriving DecidableEq

/-- The state of the shell: the environment, `jobsList` and `jobNum`. -/
structure Shell where
  world : World
  jobsList : List esh_pipeline
  jobNum : Int
deriving DecidableEq

/-- The jid `main` gives to the job it launches next: `jobNum++; jid = jobNum`,
on the 32-bit `static int jobNum`. -/
def next_jid (s : Shell) : Int := wrap_int (s.jobNum + 1)

/-- The top of a loop iteration of `main`, up to the prompt: the terminal is
taken back, `do_job_notification` runs, and `jobNum` is reset when the table is empty. -/
def main_top (ctx : Ctx) (s : Shell) : Option Shell :=
  match give_terminal_to ctx.shell_pgrp ctx.shell_state s.world with
  | none => none
  | some w1 =>
    match do_job_notification w1 s.jobsList with
    | (w2, jobs2) =>
      some { world := w2, jobsList := jobs2, jobNum := if jobs2 = [] then 0 else s.jobNum }

/-- The launch path of `main` for a pipeline that is not a built-in. -/
def main_launch (ctx : Ctx) (pipe : esh_pipeline) (s : Shell) : Option Shell :=
  let w1 := emit (Event.command_line_print pipe) s.world
  let jobNum := next_jid s
  let pipeline : esh_pipeline :=
    { pipe with
      jid := jobNum
      status := if pipe.bg_job then job_status.BACKGROUND else job_status.FOREGROUND }
  match launch_job pipeline pipeline.bg_job ctx.shell_is_interactive ctx.shell_pgrp
      ctx.shell_state w1 with
  | none => none
  | some (w2, job, removed) =>
    some { world := w2
           jobsList := if removed then s.jobsList else s.jobsList ++ [job]
           jobNum := jobNum }

/-- The value of `atoi(command->argv[1])` in the loops of `bg`, `kill` and
`stop`.  It is evaluated once per job of the table: without `argv[1]` it faults
when the table has a job, and is never evaluated when the table is empty. -/
def loop_jid (command : esh_command) (jobsList : List esh_pipeline) : Option Int :=
  match command.argv.tail.head? with
  | some arg => some (atoi arg)
  | none => if jobsList.isEmpty then some 0 else none

/-- The built-in path of `main`; `command` is the first command of the line and
`cmd` its `argv[0]`.  For `fg`, `atoi(command->argv[1])` faults when there is no `argv[1]`. -/
def main_builtin (ctx : Ctx) (cmd : String) (command : esh_command) (s : Shell) : Option Shell :=
  if cmd = "jobs" then
    some { s with world := builtin_jobs s.world s.jobsList }
  else if cmd = "fg" then
    match command.argv.tail.head? with
    | none => none
    | some arg =>
      match foreground (atoi arg) s.jobsList ctx.shell_pgrp ctx.shell_state s.world with
      | none => none
      | some (w1, jobs1) => some { s with world := w1, jobsList := jobs1 }
  else if cmd = "bg" then
    match loop_jid command s.jobsList with
    | none => none
    | some jid =>
      match builtin_bg jid ctx.shell_pgrp ctx.shell_state s.world s.jobsList with
      | none => none
      | some (w1, jobs1) => some { s with world := w1, jobsList := jobs1 }
  else if cmd = "kill" then
    match loop_jid command s.jobsList with
    | none => none
    | some jid =>
      match builtin_kill jid s.world s.jobsList with
      | none => none
      | some (w1, jobs1) => some { s with world := w1, jobsList := jobs1 }
  else if cmd = "stop" then
    match loop_jid command s.jobsList with
    | none => none
    | some jid =>
      match builtin_stop jid s.world s.jobsList with
      | none => none
      | some (w1, jobs1) => some { s with world := w1, jobsList := jobs1 }
  else if cmd = "quit_shell" then
    none
  else
    some s

/-- The rest of a loop iteration of `main` once the line has been read and parsed. -/
def main_dispatch (ctx : Ctx) (line : Line) (s : Shell) : Option Shell :=
  match line with
  | Line.eof => none
  | Line.parse_error => some s
  | Line.empty => some s
  | Line.command pipe =>
    match pipe.commands.head? with
    | none => none
    | some command =>
      match command.argv.head? with
      | none => none
      | some cmd =>
        if !is_builtin_command cmd then main_launch ctx pipe s
        else main_builtin ctx cmd command s

/-- The signal number of `SIGINT`. -/
def SIGINT : Int := 2

/-- The signal number of `SIGTSTP`. -/
def SIGTSTP : Int := 20

/-- The two inner `for` loops of `handler` for one job: a job with a command of
process id `pid` is removed and freed when `status` is `9` or `SIGINT`, and
set to `STOPPED` when `status` is `SIGTSTP`. -/
def handler_job (pid status : Int) (job : esh_pipeline) : Option esh_pipeline :=
  if job.commands.any (fun cmd => cmd.pid == pid) then
    if status = 9 ∨ status = SIGINT then none
    else if status = SIGTSTP then some { job with status := job_status.STOPPED }
    else some job
  else some job

/-- The `while` loop of `handler`, which ends when the `WNOHANG` `waitpid`
returns no pid.  Every turn uses up a result of `polls`, so `fuel` turns are
enough when `fuel` exceeds their number. -/
def handler_loop : Nat → World → List esh_pipeline → World × List esh_pipeline
  | 0, w, jobs => (w, jobs)
  | fuel + 1, w, jobs =>
    match w.polls with
    | [] => (emit (Event.waitpid true 0 0) w, jobs)
    | (pid, status) :: rest =>
      let w1 := emit (Event.waitpid true pid status) { w with polls := rest }
      if pid > 0 then
        match update_status w1 jobs with
        | (w2, jobs2) => handler_loop fuel w2 (jobs2.filterMap (handler_job pid status))
      else (w1, jobs)

/-- `handler(sig)`, the `SIGCHLD` handler. -/
def handler (ctx : Ctx) (s : Shell) : Option Shell :=
  let w1 := printf "DErp" s.world
  match handler_loop (w1.polls.length + 1) w1 s.jobsList with
  | (w2, jobs2) =>
    match give_terminal_to ctx.shell_pgrp ctx.shell_state w2 with
    | none => none
    | some w3 => some { world := w3, jobsList := jobs2, jobNum := s.jobNum }

/-- The handler run `n` times in a row. -/
def handler_runs (ctx : Ctx) : Nat → Shell → Option Shell
  | 0, s => some s
  | n + 1, s =>
    match handler ctx s with
    | none => none
    | some s1 => handler_runs ctx n s1

/-- One iteration of the `for (;;)` loop of `main`: the top of the loop, the
prompt, during which `SIGCHLD` is unblocked and the handler runs `sigchld`
times, and the dispatch of the line that was read. -/
def main_iter (ctx : Ctx) (sigchld : Nat) (line : Line) (s : Shell) : Option Shell :=
  match main_top ctx s with
  | none => none
  | some s1 =>
    match handler_runs ctx sigchld s1 with
    | none => none
    | some s2 => main_dispatch ctx line s2

/-- The loop of `main` on a sequence of prompts, each with the number of
handler runs and the line read; `none` when the shell has ended or hangs before
the sequence is used up. -/
def main_loop (ctx : Ctx) : List (Nat × Line) → Shell → Option Shell
  | [], s => some s
  | (sigchld, line) :: rest, s =>
    match main_iter ctx sigchld line s with
    | none => none
    | some s1 => main_loop ctx rest s1

/-- The state in which `main` enters its loop: empty table, `jobNum = 0`. -/
def initial (w : World) : Shell :=
  { world := w, jobsList := [], jobNum := 0 }

/-- The states at the top of a loop iteration that `main` can reach. -/
inductive Reachable (ctx : Ctx) : Shell → Prop where
  | start (w : World) : Reachable ctx (initial w)
  | iter (sigchld : Nat) (line : Line) (s s1 : Shell) :
      Reachable ctx s → main_iter ctx sigchld line s = some s1 → Reachable ctx s1

/-- The largest value of an `int`. -/
def INT_MAX : Int := 2147483647

/-- The states at the top of a loop iteration that `main` reaches through
iterations that each start with `jobNum` below `INT_MAX`, so that `jobNum++`
stays in range. -/
inductive BoundedReachable (ctx : Ctx) : Shell → Prop where
  | start (w : World) : BoundedReachable ctx (initial w)
  | iter (sigchld : Nat) (line : Line) (s s1 : Shell) :
      BoundedReachable ctx s → s.jobNum < INT_MAX → main_iter ctx sigchld line s = some s1 →
      BoundedReachable ctx s1

/-- The loop of `main` on a sequence of prompts, cut off when an iteration
would start with `jobNum` at `INT_MAX`. -/
def bounded_loop (ctx : Ctx) : List (Nat × Line) → Shell → Option Shell
  | [], s => some s
  | (sigchld, line) :: rest, s =>
    if s.jobNum < INT_MAX then
      match main_iter ctx sigchld line s with
      | none => none
      | some s1 => bounded_loop ctx rest s1
    else none

/-- The number of jobs whose status is `FOREGROUND`. -/
def count_foreground (jobs : List esh_pipeline) : Nat :=
  (jobs.filter (fun job => job.status == job_status.FOREGROUND)).length

/-- The greatest jid of the jobs in the table, `0` for the empty table. -/
def max_jid : List esh_pipeline → Int
  | [] => 0
  | job :: rest => max job.jid (max_jid rest)

/-! ## The relation between the jobs table before and after an operation -/

/-- The job `job1` is a later state of `job`: same jid, same process group, and
not in the foreground unless `job` was. -/
def Tracks (job job1 : esh_pipeline) : Prop :=
  job1.jid = job.jid ∧ job1.pgrp = job.pgrp ∧
    (job1.status = job_status.FOREGROUND → job.status = job_status.FOREGROUND)

/-- The table `after` comes from the table `before` by removing some jobs and
letting the others evolve, order kept. -/
inductive Upd : List esh_pipeline → List esh_pipeline → Prop where
  | nil : Upd [] []
  | keep (job job1 : esh_pipeline) (before after : List esh_pipeline) :
      Tracks job job1 → Upd before after → Upd (job :: before) (job1 :: after)
  | drop (job : esh_pipeline) (before after : List esh_pipeline) :
      Upd before after → Upd (job :: before) after

/-- The invariant of the loop of `main` on jids: every jid in the table lies
between 1 and `jobNum`, and no jid occurs twice. -/
def JidInv (jobNum : Int) (jobs : List esh_pipeline) : Prop :=
  0 ≤ jobNum ∧ (∀ job ∈ jobs, 1 ≤ job.jid ∧ job.jid ≤ jobNum) ∧
    (jobs.map (fun job => job.jid)).Nodup

/-- Every job of the table that is marked `FOREGROUND` has all its commands
completed or stopped, as a `wait_for_job` that ran to its end leaves it. -/
def settled (jobs : List esh_pipeline) : Bool :=
  jobs.all (fun job => !(job.status == job_status.FOREGROUND) || job_is_stopped job)

/-- The states at the top of a loop iteration that `main` reaches through
iterations that each start from a settled table. -/
inductive SettledReachable (ctx : Ctx) : Shell → Prop where
  | start (w : World) : SettledReachable ctx (initial w)
  | iter (sigchld : Nat) (line : Line) (s s1 : Shell) :
      SettledReachable ctx s → settled s.jobsList = true →
      main_iter ctx sigchld line s = some s1 → SettledReachable ctx s1

/-- The loop of `main` on a sequence of prompts, cut off when an iteration would
start from a table that is not settled. -/
def settled_loop (ctx : Ctx) : List (Nat × Line) → Shell → Option Shell
  | [], s => some s
  | (sigchld, line) :: rest, s =>
    if settled s.jobsList then
      match main_iter ctx sigchld line s with
      | none => none
      | some s1 => settled_loop ctx rest s1
    else none

/-! ## Concrete inputs used by the examples -/

/-- A world with an empty trace in which every oracle list is used up. -/
def quiet : World :=
  { trace := [], waits := [], polls := [], forks := [], kills := [], tcsets := [], ttys := [] }

/-- A running command `argv` with process id `pid`. -/
def running (argv : List String) (pid : Int) : esh_command :=
  { argv := argv, pid := pid, complete := false, stop := false, status := 0 }

/-- A job with the single running command `argv`, process id and group `pid`. -/
def single (jid : Int) (argv : List String) (pid : Int) (status : job_status) : esh_pipeline :=
  { commands := [running argv pid], bg_job := false, jid := jid, pgrp := pid, status := status,
    saved_tty_state := 0, notified := false }

/-- The job `cat` with jid 1 and pid 5, stopped by a signal. -/
def stopped_cat (notified : Bool) : esh_pipeline :=
  { commands := [{ argv := ["cat"], pid := 5, complete := false, stop := true, status := 4991 }],
    bg_job := false, jid := 1, pgrp := 5, status := job_status.STOPPED, saved_tty_state := 0,
    notified := notified }

/-- An interactive shell with process group 1. -/
def interactive : Ctx := { shell_is_interactive := true, shell_pgrp := 1, shell_state := some 0 }

/-- A shell whose standard input is not a terminal. -/
def batch : Ctx := { shell_is_interactive := false, shell_pgrp := 1, shell_state := some 0 }

/-- The pipeline of the single command `argv`, as the parser hands it over. -/
def command_line (argv : List String) (bg : Bool) : esh_pipeline :=
  { commands := [{ argv := argv, pid := 0, complete := false, stop := false, status := 0 }],
    bg_job := bg, jid := 0, pgrp := 0, status := job_status.FOREGROUND, saved_tty_state := 0,
    notified := false }

/-- A command line with the single command `argv`. -/
def parsed (argv : List String) (bg : Bool) : Line :=
  Line.command (command_line argv bg)

/-- A run in batch mode: two foreground commands, and both blocking waits
return the error `-1`. -/
def batch_run : Option Shell :=
  main_loop batch [(0, parsed ["sleep", "100"] false), (0, parsed ["sleep", "200"] false)]
    (initial { quiet with forks := [100, 101], waits := [(-1, 0), (-1, 0)] })

/-- An interactive run: `sleep 100 &`, then `cat`, which is stopped by a signal. -/
def stop_run : Option Shell :=
  main_loop interactive [(0, parsed ["sleep", "100"] true), (0, parsed ["cat"] false)]
    (initial { quiet with forks := [100, 101], waits := [(101, 4991)] })

/-- An interactive run: `sleep 100 &`, `sleep 200 &`, `kill 2`. -/
def kill_run : Option Shell :=
  main_loop interactive
    [(0, parsed ["sleep", "100"] true), (0, parsed ["sleep", "200"] true),
     (0, parsed ["kill", "2"] false)]
    (initial { quiet with forks := [100, 101] })

/-- A run in batch mode: `sleep 100` runs to its end, then `cat` is stopped. -/
def settled_run : Option Shell :=
  settled_loop batch [(0, parsed ["sleep", "100"] false), (0, parsed ["cat"] false)]
    (initial { quiet with forks := [100, 101], waits := [(100, 0), (101, 4991)] })

/-- The jid and status of every job of the table. -/
def summary (s : Shell) : List (Int × job_status) :=
  s.jobsList.map (fun job => (job.jid, job.status))

/-- The world in which `fg 1` is run in the example: the next blocking wait
reports that pid 5 has exited. -/
def fg_before : World := { quiet with waits := [(5, 0)] }

/-- The world after `fg 1` in the example. -/
def fg_after : World :=
  { quiet with
    trace := [Event.print "cat \n", Event.tcsetpgrp 5, Event.tty_restore 0, Event.tty_restore 0,
              Event.kill (-5) Signal.SIGCONT, Event.waitpid false 5 0, Event.tcsetpgrp 1,
              Event.tty_restore 0] }

/-- A table with the jobs 1 (`sleep`, pid 10), 2 (`cat`, pid 20) and 3 (`wc`, pid 30). -/
def three_jobs : List esh_pipeline :=
  [single 1 ["sleep"] 10 job_status.BACKGROUND] ++
    single 2 ["cat"] 20 job_status.STOPPED :: [single 3 ["wc"] 30 job_status.BACKGROUND]

/-- The job left in the table by the interactive launch of `sleep &` with
process id 100 as the first job. -/
def anchor : esh_pipeline :=
  { commands := [{ argv := ["sleep"], pid := 100, complete := false, stop := false, status := 0 }],
    bg_job := true, jid := 1, pgrp := 100, status := job_status.BACKGROUND,
    saved_tty_state := 0, notified := false }

/-- A world with trace `t` in which the next `m` calls of `fork` return 200 and
the next `m` blocking waits report that process 200 has exited. -/
def busy (t : List Event) (m : Nat) : World :=
  { trace := t, waits := List.replicate m (200, 0), polls := [],
    forks := List.replicate m 200, kills := [], tcsets := [], ttys := [] }

/-- The world of a long run: the first `fork` returns 100, then the world is `busy`. -/
def long_start (m : Nat) : World :=
  { trace := [], waits := List.replicate m (200, 0), polls := [],
    forks := 100 :: List.replicate m 200, kills := [], tcsets := [], ttys := [] }

/-- An interactive run within the range of `jobNum`: `sleep 100 &`,
`sleep 200 &`, `sleep 300 &`. -/
def bounded_run : Option Shell :=
  bounded_loop interactive
    [(0, parsed ["sleep", "100"] true), (0, parsed ["sleep", "200"] true),
     (0, parsed ["sleep", "300"] true)]
    (initial { quiet with forks := [100, 101, 102] })

/-- The job `cat | wc` with running commands of process ids `pid1` and `pid2`. -/
def pipeline2 (jid pid1 pid2 : Int) : esh_pipeline :=
  { commands := [running ["cat"] pid1, running ["wc"] pid2], bg_job := false, jid := jid,
    pgrp := pid1, status := job_status.FOREGROUND, saved_tty_state := 0, notified := false }

end Esh

namespace Esh

/-! ## C1: `mark_process_status` -/

theorem mark_commands_none (pid status : Int) (cs : List esh_command)
    (h : ∀ c ∈ cs, c.pid ≠ pid) : mark_commands pid status cs = none := by
  induction cs with
  | nil => rfl
  | cons c cs ih =>
    have hc : c.pid ≠ pid := h c (List.mem_cons_self _ _)
    have hcs : ∀ d ∈ cs, d.pid ≠ pid := fun d hd => h d (List.mem_cons_of_mem _ hd)
    simp [mark_commands, hc, ih hcs]

theorem mark_commands_some (pid status : Int) (cs : List esh_command)
    (h : ∃ c ∈ cs, c.pid = pid) :
    ∃ pre c post, cs = pre ++ c :: post ∧ (∀ d ∈ pre, d.pid ≠ pid) ∧ c.pid = pid ∧
      mark_commands pid status cs = some (pre ++ mark_command status c :: post) := by
  induction cs with
  | nil => obtain ⟨c, hc, _⟩ := h; cases hc
  | cons c cs ih =>
    by_cases hc : c.pid = pid
    · exact ⟨[], c, cs, rfl, by simp, hc, by simp [mark_commands, hc]⟩
    · have h1 : ∃ d ∈ cs, d.pid = pid := by
        obtain ⟨d, hd, hdp⟩ := h
        rcases List.mem_cons.mp hd with rfl | hd
        · exact absurd hdp hc
        · exact ⟨d, hd, hdp⟩
      obtain ⟨pre, d, post, hsplit, hpre, hd, hmark⟩ := ih h1
      refine ⟨c :: pre, d, post, by simp [hsplit], ?_, hd, ?_⟩
      · intro e he
        rcases List.mem_cons.mp he with rfl | he
        · exact hc
        · exact hpre e he
      · simp [mark_commands, hc, hmark]

/-- C1: `mark_process_status(pid, status, job)`.  When `pid > 0` and some command
of the job has that pid, the first such command gets `status`, and its `stop`
flag is set when `WIFSTOPPED(status)` and its `complete` flag otherwise; every
other command and every other field of the job is unchanged and the result is
`0`.  When `pid <= 0` or no command has that pid, the result is `-1` and the
job is unchanged. -/
theorem mark_process_status_spec (pid status : Int) (job : esh_pipeline) :
    ((0 < pid ∧ ∃ c ∈ job.commands, c.pid = pid) →
      ∃ pre c post, job.commands = pre ++ c :: post ∧ (∀ d ∈ pre, d.pid ≠ pid) ∧ c.pid = pid ∧
        mark_process_status pid status job =
          (0, { job with commands := pre ++
                  { argv := c.argv, pid := c.pid, status := status,
                    stop := if WIFSTOPPED status then true else c.stop,
                    complete := if WIFSTOPPED status then c.complete else true } :: post })) ∧
    ((pid ≤ 0 ∨ ∀ c ∈ job.commands, c.pid ≠ pid) →
      mark_process_status pid status job = (-1, job)) := by
  constructor
  · rintro ⟨hpid, hex⟩
    obtain ⟨pre, c, post, hsplit, hpre, hc, hmark⟩ := mark_commands_some pid status _ hex
    refine ⟨pre, c, post, hsplit, hpre, hc, ?_⟩
    have hgt : pid > 0 := hpid
    simp only [mark_process_status, hgt, if_true, hmark]
    cases hs : WIFSTOPPED status <;> simp [mark_command, hs]
  · rintro (hpid | hno)
    · have hgt : ¬ pid > 0 := not_lt.mpr hpid
      simp only [mark_process_status, hgt, if_false]
      split <;> rfl
    · by_cases hgt : pid > 0
      · simp only [mark_process_status, hgt, if_true, mark_commands_none pid status _ hno]
      · simp only [mark_process_status, hgt, if_false]
        split <;> rfl

/-- Instance of C1: a stop status (`0x137f`) for pid 8 in the job `cat | wc`
with pids 7 and 8, and pid 9, which no command of the job `cat` has. -/
theorem mark_process_status_spec_witness :
    (∃ pre c post, (pipeline2 1 7 8).commands = pre ++ c :: post ∧ (∀ d ∈ pre, d.pid ≠ 8) ∧
      c.pid = 8 ∧
      mark_process_status 8 4991 (pipeline2 1 7 8) =
        (0, { pipeline2 1 7 8 with commands := pre ++
                { argv := c.argv, pid := c.pid, status := 4991,
                  stop := if WIFSTOPPED 4991 then true else c.stop,
                  complete := if WIFSTOPPED 4991 then c.complete else true } :: post })) ∧
    mark_process_status 9 0 (single 1 ["cat"] 7 job_status.FOREGROUND) =
      (-1, single 1 ["cat"] 7 job_status.FOREGROUND) :=
  ⟨(mark_process_status_spec 8 4991 (pipeline2 1 7 8)).1 ⟨by decide, by decide⟩,
   (mark_process_status_spec 9 0 (single 1 ["cat"] 7 job_status.FOREGROUND)).2
     (Or.inr (by decide))⟩

/-! ## C2: `wait_for_job` -/

theorem mark_commands_pids (pid status : Int) (cs cs1 : List esh_command)
    (h : mark_commands pid status cs = some cs1) :
    cs1.map (fun c => c.pid) = cs.map (fun c => c.pid) := by
  induction cs generalizing cs1 with
  | nil => simp [mark_commands] at h
  | cons c cs ih =>
    by_cases hc : c.pid = pid
    · simp only [mark_commands, hc, if_true, Option.some.injEq] at h
      subst h
      cases hs : WIFSTOPPED status <;> simp [mark_command, hs]
    · simp only [mark_commands, hc, if_false] at h
      cases hm : mark_commands pid status cs with
      | none => simp [hm] at h
      | some rest =>
        simp only [hm, Option.some.injEq] at h
        subst h
        simp [ih rest hm]

theorem mark_process_status_pids (pid status : Int) (job : esh_pipeline) :
    (mark_process_status pid status job).2.commands.map (fun c => c.pid) =
      job.commands.map (fun c => c.pid) := by
  unfold mark_process_status
  split
  · cases hm : mark_commands pid status job.commands with
    | none => rfl
    | some cs => exact mark_commands_pids pid status _ cs hm
  · split <;> rfl

theorem mark_process_status_accepts (pid status : Int) (job : esh_pipeline)
    (hpid : 0 < pid) (hex : ∃ c ∈ job.commands, c.pid = pid) :
    (mark_process_status pid status job).1 = 0 := by
  obtain ⟨pre, c, post, _, _, _, hmark⟩ := mark_commands_some pid status _ hex
  have hgt : pid > 0 := hpid
  simp [mark_process_status, hgt, hmark]

theorem has_pid_iff (pid : Int) (cs : List esh_command) :
    (∃ c ∈ cs, c.pid = pid) ↔ pid ∈ cs.map (fun c => c.pid) := by
  simp [List.mem_map]

theorem wait_for_job_loop_length (ws : List (Int × Int)) :
    ∀ (job : esh_pipeline) (evs : List Event) (rest : List (Int × Int)) (job1 : esh_pipeline),
      wait_for_job_loop ws job = some (evs, rest, job1) → rest.length < ws.length := by
  induction ws with
  | nil => intro job evs rest job1 h; simp [wait_for_job_loop] at h
  | cons r ws ih =>
    intro job evs rest job1 h
    obtain ⟨pid, status⟩ := r
    simp only [wait_for_job_loop] at h
    split at h
    · cases hrec : wait_for_job_loop ws (mark_process_status pid status job).2 with
      | none => simp [hrec] at h
      | some t =>
        obtain ⟨evs1, rest1, job2⟩ := t
        simp only [hrec, Option.some.injEq, Prod.mk.injEq] at h
        obtain ⟨_, hrest, _⟩ := h
        subst hrest
        have := ih _ _ _ _ hrec
        simp only [List.length_cons]
        omega
    · simp only [Option.some.injEq, Prod.mk.injEq] at h
      obtain ⟨_, hrest, _⟩ := h
      simp [← hrest]

theorem job_is_stopped_iff (job : esh_pipeline) :
    job_is_stopped job = true ↔ ∀ c ∈ job.commands, c.complete = true ∨ c.stop = true := by
  unfold job_is_stopped
  rw [List.all_eq_true]
  constructor
  · intro h c hc
    have := h c hc
    cases hcomp : c.complete <;> cases hstop : c.stop <;> simp_all
  · intro h c hc
    rcases h c hc with h1 | h1 <;> simp [h1]

theorem job_is_complete_stopped (job : esh_pipeline) (h : job_is_complete job = true) :
    job_is_stopped job = true := by
  rw [job_is_stopped_iff]
  unfold job_is_complete at h
  rw [List.all_eq_true] at h
  exact fun c hc => Or.inl (h c hc)

theorem wait_for_job_loop_terminal (consumed : List (Int × Int)) :
    ∀ (rest : List (Int × Int)) (job : esh_pipeline) (evs : List Event) (job1 : esh_pipeline),
      wait_for_job_loop (consumed ++ rest) job = some (evs, rest, job1) →
      (∀ r ∈ consumed, 0 < r.1 ∧ ∃ c ∈ job.commands, c.pid = r.1) →
      job_is_stopped job1 = true := by
  induction consumed with
  | nil =>
    intro rest job evs job1 h _
    have := wait_for_job_loop_length _ _ _ _ _ h
    simp at this
  | cons r cs ih =>
    intro rest job evs job1 h hc
    obtain ⟨pid, status⟩ := r
    have hr := hc (pid, status) (List.mem_cons_self _ _)
    have hacc := mark_process_status_accepts pid status job hr.1 hr.2
    simp only [List.cons_append, wait_for_job_loop, List.append_eq] at h
    split at h
    · cases hrec : wait_for_job_loop (cs ++ rest) (mark_process_status pid status job).2 with
      | none => simp [hrec] at h
      | some t =>
        obtain ⟨evs1, rest1, job2⟩ := t
        simp only [hrec, Option.some.injEq, Prod.mk.injEq] at h
        obtain ⟨_, hrest, hjob⟩ := h
        subst hrest hjob
        refine ih _ _ _ _ hrec ?_
        intro r1 hr1
        have := hc r1 (List.mem_cons_of_mem _ hr1)
        refine ⟨this.1, ?_⟩
        rw [has_pid_iff, mark_process_status_pids, ← has_pid_iff]
        exact this.2
    · rename_i hcond
      simp only [Option.some.injEq, Prod.mk.injEq] at h
      obtain ⟨_, _, hjob⟩ := h
      subst hjob
      cases hst : job_is_stopped (mark_process_status pid status job).2 with
      | true => rfl
      | false =>
        cases hco : job_is_complete (mark_process_status pid status job).2 with
        | true => rw [job_is_complete_stopped _ hco] at hst; exact hst.symm
        | false => simp [hacc, hst, hco] at hcond

theorem mark_process_status_rejects (pid status : Int) (job : esh_pipeline) (hpid : pid ≤ 0) :
    mark_process_status pid status job = (-1, job) := by
  have hgt : ¬ pid > 0 := not_lt.mpr hpid
  simp only [mark_process_status, hgt, if_false]
  split <;> rfl

/-- C2, as the code has it: when `wait_for_job` returns and every wait result
it used up was a positive pid of a command of the job, every command of the job
has its `complete` flag or its `stop` flag set; and an error return of the wait
(`pid <= 0`) ends `wait_for_job` at once with the job as it was. -/
theorem wait_for_job_terminal (w : World) (job : esh_pipeline) :
    (∀ (w1 : World) (job1 : esh_pipeline) (consumed : List (Int × Int)),
      w.waits = consumed ++ w1.waits →
      (∀ r ∈ consumed, 0 < r.1 ∧ ∃ c ∈ job.commands, c.pid = r.1) →
      wait_for_job w job = some (w1, job1) →
      ∀ c ∈ job1.commands, c.complete = true ∨ c.stop = true) ∧
    (∀ (pid status : Int) (rest : List (Int × Int)),
      w.waits = (pid, status) :: rest → pid ≤ 0 →
      wait_for_job w job =
        some ({ w with trace := w.trace ++ [Event.waitpid false pid status], waits := rest },
              job)) := by
  constructor
  · intro w1 job1 consumed hw hc h
    rw [← job_is_stopped_iff]
    unfold wait_for_job at h
    cases hloop : wait_for_job_loop w.waits job with
    | none => simp [hloop] at h
    | some t =>
      obtain ⟨evs, rest, job2⟩ := t
      simp only [hloop, Option.some.injEq, Prod.mk.injEq] at h
      obtain ⟨hw1, hjob⟩ := h
      subst hjob
      have hrest : w1.waits = rest := by rw [← hw1]
      rw [hw, hrest] at hloop
      exact wait_for_job_loop_terminal consumed rest job evs _ hloop hc
  · intro pid status rest hw hpid
    unfold wait_for_job
    rw [hw]
    simp [wait_for_job_loop, mark_process_status_rejects pid status job hpid]

/-- Instance of C2: the job `cat | wc` with pids 7 and 8; pid 8 exits, then pid 7
stops, and `wait_for_job` returns with a third result left unused.  With the
error `-1` as first result it returns at once. -/
theorem wait_for_job_terminal_witness :
    wait_for_job { quiet with waits := [(8, 0), (7, 4991), (9, 0)] } (pipeline2 1 7 8) =
      some ({ quiet with
              trace := [Event.waitpid false 8 0, Event.waitpid false 7 4991],
              waits := [(9, 0)] },
            { pipeline2 1 7 8 with
              commands := [{ running ["cat"] 7 with status := 4991, stop := true },
                           { running ["wc"] 8 with complete := true }] }) ∧
    (∀ c ∈ [{ running ["cat"] 7 with status := 4991, stop := true },
            { running ["wc"] 8 with complete := true }],
      c.complete = true ∨ c.stop = true) ∧
    wait_for_job { quiet with waits := [(-1, 0), (8, 0)] } (pipeline2 1 7 8) =
      some ({ quiet with trace := quiet.trace ++ [Event.waitpid false (-1) 0], waits := [(8, 0)] },
            pipeline2 1 7 8) :=
  ⟨by decide,
   (wait_for_job_terminal { quiet with waits := [(8, 0), (7, 4991), (9, 0)] }
      (pipeline2 1 7 8)).1
     { quiet with
       trace := [Event.waitpid false 8 0, Event.waitpid false 7 4991], waits := [(9, 0)] }
     { pipeline2 1 7 8 with
       commands := [{ running ["cat"] 7 with status := 4991, stop := true },
                    { running ["wc"] 8 with complete := true }] }
     [(8, 0), (7, 4991)] (by decide) (by decide) (by decide),
   (wait_for_job_terminal { quiet with waits := [(-1, 0), (8, 0)] } (pipeline2 1 7 8)).2
     (-1) 0 [(8, 0)] rfl (by decide)⟩

/-- C2 fails as stated: the blocking wait returns the error `-1`, and
`wait_for_job` returns with the only command of the job neither completed nor
stopped. -/
theorem wait_for_job_error_return :
    wait_for_job { quiet with waits := [(-1, 0)] } (single 1 ["cat"] 7 job_status.FOREGROUND) =
      some ({ quiet with trace := [Event.waitpid false (-1) 0] },
            single 1 ["cat"] 7 job_status.FOREGROUND) ∧
    ¬ ∀ c ∈ (single 1 ["cat"] 7 job_status.FOREGROUND).commands,
        c.complete = true ∨ c.stop = true := by
  constructor
  · decide
  · decide

/-! ## C3: the sweep `update_status` -/

/-- C3 fails on the code: with the jobs `sleep` (pid 10) and `cat` (pid 20) in
the table, in this order, and the single wait result `(20, 0)` handed out
during the sweep, the result is used up against the first job and dropped; the
command with pid 20 is not marked after the sweep.  With `cat` first in the
table the same result is recorded. -/
theorem update_status_drops_result :
    update_status { quiet with polls := [(20, 0)] }
        [single 1 ["sleep"] 10 job_status.BACKGROUND, single 2 ["cat"] 20 job_status.BACKGROUND] =
      ({ quiet with trace := [Event.waitpid true 20 0, Event.waitpid true 0 0] },
       [single 1 ["sleep"] 10 job_status.BACKGROUND, single 2 ["cat"] 20 job_status.BACKGROUND]) ∧
    update_status { quiet with polls := [(20, 0)] }
        [single 2 ["cat"] 20 job_status.BACKGROUND, single 1 ["sleep"] 10 job_status.BACKGROUND] =
      ({ quiet with
         trace := [Event.waitpid true 20 0, Event.waitpid true 0 0, Event.waitpid true 0 0] },
       [{ single 2 ["cat"] 20 job_status.BACKGROUND with
          commands := [{ running ["cat"] 20 with complete := true }] },
        single 1 ["sleep"] 10 job_status.BACKGROUND]) := by
  constructor
  · decide
  · decide

/-! ## C8: the stop notice -/

/-- C8 fails on the code: a stopped job `cat` gets its `[1] Stopped` notice in
a first notification pass, which sets `notified`; a second pass with no new
wait result prints the same notice again. -/
theorem stop_notice_repeats :
    do_job_notification quiet [stopped_cat false] =
      ({ quiet with
         trace := [Event.waitpid true 0 0, Event.print "[1] Stopped", Event.print "cat \n",
                   Event.print "\n"] },
       [stopped_cat true]) ∧
    do_job_notification quiet [stopped_cat true] =
      ({ quiet with
         trace := [Event.waitpid true 0 0, Event.print "[1] Stopped", Event.print "cat \n",
                   Event.print "\n"] },
       [stopped_cat true]) ∧
    stdout (do_job_notification quiet [stopped_cat true]).1.trace = "[1] Stoppedcat \n\n" := by
  refine ⟨?_, ?_, ?_⟩
  · decide
  · decide
  · decide

/-! ## C9: the `jobs` listing -/

theorem stdout_append (l1 l2 : List Event) : stdout (l1 ++ l2) = stdout l1 ++ stdout l2 := by
  induction l1 with
  | nil => simp [stdout]
  | cons e l1 ih =>
    cases e <;> simp [stdout, ih, String.append_assoc]

theorem print_argv_data (argv : List String) :
    (print_argv argv).data = argv.flatMap (fun a => a.data ++ [' ']) := by
  induction argv with
  | nil => rfl
  | cons a rest ih =>
    simp only [print_argv, String.data_append, ih, List.flatMap_cons]

theorem split_at_first {α : Type} (x : α) (p : List α) :
    ∀ (q r t : List α), x ∉ p → x ∉ q → p ++ x :: r = q ++ x :: t → p = q ∧ r = t := by
  induction p with
  | nil =>
    intro q r t _ hq h
    cases q with
    | nil => simpa using h
    | cons b q =>
      simp only [List.nil_append, List.cons_append, List.cons.injEq] at h
      exact absurd (List.mem_cons.mpr (Or.inl h.1)) hq
  | cons a p ih =>
    intro q r t hp hq h
    cases q with
    | nil =>
      simp only [List.nil_append, List.cons_append, List.cons.injEq] at h
      exact absurd (List.mem_cons.mpr (Or.inl h.1.symm)) hp
    | cons b q =>
      simp only [List.cons_append, List.cons.injEq] at h
      have hp1 : x ∉ p := fun hx => hp (List.mem_cons_of_mem _ hx)
      have hq1 : x ∉ q := fun hx => hq (List.mem_cons_of_mem _ hx)
      obtain ⟨h1, h2⟩ := ih q r t hp1 hq1 h.2
      exact ⟨by rw [h.1, h1], h2⟩

theorem argv_data_injective (a1 : List String) :
    ∀ a2 : List String, (∀ a ∈ a1, ' ' ∉ a.data) → (∀ a ∈ a2, ' ' ∉ a.data) →
      a1.flatMap (fun a => a.data ++ [' ']) = a2.flatMap (fun a => a.data ++ [' ']) →
      a1 = a2 := by
  induction a1 with
  | nil =>
    intro a2 _ _ h
    cases a2 with
    | nil => rfl
    | cons b a2 => simp at h
  | cons a a1 ih =>
    intro a2 h1 h2 h
    cases a2 with
    | nil => simp at h
    | cons b a2 =>
      simp only [List.flatMap_cons, List.append_assoc, List.singleton_append] at h
      obtain ⟨hab, hrest⟩ := split_at_first ' ' a.data b.data _ _
        (h1 a (List.mem_cons_self _ _)) (h2 b (List.mem_cons_self _ _)) h
      have := ih a2 (fun c hc => h1 c (List.mem_cons_of_mem _ hc))
        (fun c hc => h2 c (List.mem_cons_of_mem _ hc)) hrest
      rw [String.ext hab, this]

theorem digitChar_ne_paren (n : Nat) (h : n < 10) : Nat.digitChar n ≠ '(' := by
  interval_cases n <;> decide

theorem toDigitsCore_no_paren (fuel : Nat) :
    ∀ (n : Nat) (ds : List Char), '(' ∉ ds → '(' ∉ Nat.toDigitsCore 10 fuel n ds := by
  induction fuel with
  | zero => intro n ds h; simpa [Nat.toDigitsCore] using h
  | succ fuel ih =>
    intro n ds h
    have hd : '(' ∉ Nat.digitChar (n % 10) :: ds := by
      intro hmem
      rcases List.mem_cons.mp hmem with h1 | h1
      · exact digitChar_ne_paren (n % 10) (Nat.mod_lt _ (by decide)) h1.symm
      · exact h h1
    simp only [Nat.toDigitsCore]
    split
    · exact hd
    · exact ih _ _ hd

theorem nat_repr_no_paren (n : Nat) : '(' ∉ (Nat.repr n).data := by
  simp only [Nat.repr, List.asString]
  exact toDigitsCore_no_paren _ _ _ (by simp)

theorem int_toString_no_paren (j : Int) : '(' ∉ (toString j).data := by
  cases j with
  | ofNat m => exact nat_repr_no_paren m
  | negSucc m =>
    show '(' ∉ ("-" ++ Nat.repr (m + 1)).data
    rw [String.data_append]
    intro hmem
    rcases List.mem_append.mp hmem with h1 | h1
    · revert h1; decide
    · exact nat_repr_no_paren _ h1

theorem jobs_status_text_no_paren (st : job_status) : '(' ∉ (jobs_status_text st).data := by
  cases st <;> decide

theorem builtin_jobs_job_stdout (w : World) (job : esh_pipeline) :
    stdout (builtin_jobs_job w job).trace =
      stdout w.trace ++ ("[" ++ toString job.jid ++ "] " ++ jobs_status_text job.status ++ "(" ++
        print_job_name job ++ ")" ++ "\n") := by
  simp only [builtin_jobs_job, printf, emit, stdout_append, stdout, String.append_assoc,
    String.append_empty]

theorem builtin_jobs_job_data (w : World) (job : esh_pipeline) (c : esh_command)
    (h : job.commands = [c]) :
    (stdout (builtin_jobs_job w job).trace).data =
      (stdout w.trace).data ++
        (('[' :: (toString job.jid).data ++ [']', ' '] ++ (jobs_status_text job.status).data) ++
          '(' :: (c.argv.flatMap (fun a => a.data ++ [' ']) ++ ['\n', ')', '\n'])) := by
  rw [builtin_jobs_job_stdout]
  simp only [print_job_name, h, print_commands, String.data_append, print_argv_data]
  simp

theorem builtin_jobs_append (pre post : List esh_pipeline) :
    ∀ w : World, builtin_jobs w (pre ++ post) = builtin_jobs (builtin_jobs w pre) post := by
  induction pre with
  | nil => intro w; rfl
  | cons j pre ih =>
    intro w
    simp only [List.cons_append, builtin_jobs]
    exact ih _

theorem builtin_jobs_stdout (jobs : List esh_pipeline) :
    ∀ w : World, stdout (builtin_jobs w jobs).trace =
      stdout w.trace ++ stdout (builtin_jobs quiet jobs).trace := by
  induction jobs with
  | nil =>
    intro w
    simp [builtin_jobs, quiet, stdout]
  | cons j jobs ih =>
    intro w
    simp only [builtin_jobs]
    rw [ih (builtin_jobs_job w j), ih (builtin_jobs_job quiet j), builtin_jobs_job_stdout,
      builtin_jobs_job_stdout]
    simp [quiet, stdout, String.append_assoc]

theorem main_dispatch_jobs (ctx : Ctx) (pipe : esh_pipeline) (command : esh_command)
    (s : Shell) (hp : pipe.commands.head? = some command)
    (hc : command.argv.head? = some "jobs") :
    main_dispatch ctx (Line.command pipe) s =
      some { s with world := builtin_jobs s.world s.jobsList } := by
  have hb : is_builtin_command "jobs" = true := by decide
  simp [main_dispatch, hp, hc, hb, main_builtin]

/-- C9, as the code has it: when the first word of the command line is `jobs`,
the shell goes on with the same table and has printed, after the text for the
jobs before it in the table and before the text for the jobs after it, for a
job with the single command `c`: `[`, the jid, `] `, then `Running` and five
spaces for Foreground and Background, `Stopped` and eight spaces for Stopped,
`Stopped` and two spaces for NeedsTerminal, then `(`, each argv string followed
by one space, a newline, `)` and a newline.  When no argv string contains a
space, the argv sequence is determined by the text printed for the job. -/
theorem jobs_listing_format (ctx : Ctx) (pipe : esh_pipeline) (command : esh_command)
    (s : Shell) (pre : List esh_pipeline) (job : esh_pipeline) (post : List esh_pipeline)
    (c : esh_command) (hp : pipe.commands.head? = some command)
    (hc : command.argv.head? = some "jobs") (hs : s.jobsList = pre ++ job :: post)
    (h : job.commands = [c]) :
    (∃ s1, main_dispatch ctx (Line.command pipe) s = some s1 ∧
      s1.jobsList = s.jobsList ∧ s1.jobNum = s.jobNum ∧
      stdout s1.world.trace =
        stdout s.world.trace ++ stdout (builtin_jobs quiet pre).trace ++
          ("[" ++ toString job.jid ++ "] " ++
            (match job.status with
              | job_status.FOREGROUND => "Running     "
              | job_status.BACKGROUND => "Running     "
              | job_status.STOPPED => "Stopped        "
              | job_status.NEEDSTERMINAL => "Stopped  ") ++
            "(" ++ String.mk (c.argv.flatMap (fun a => a.data ++ [' '])) ++ "\n" ++ ")" ++
            "\n") ++
          stdout (builtin_jobs quiet post).trace) ∧
    ∀ (job2 : esh_pipeline) (c2 : esh_command), job2.commands = [c2] →
      (∀ a ∈ c.argv, ' ' ∉ a.data) → (∀ a ∈ c2.argv, ' ' ∉ a.data) →
      stdout (builtin_jobs quiet [job2]).trace = stdout (builtin_jobs quiet [job]).trace →
      c2.argv = c.argv := by
  constructor
  · refine ⟨_, main_dispatch_jobs ctx pipe command s hp hc, rfl, rfl, ?_⟩
    have hname : print_job_name job =
        String.mk (c.argv.flatMap (fun a => a.data ++ [' '])) ++ "\n" := by
      apply String.ext
      simp [print_job_name, h, print_commands, String.data_append, print_argv_data]
    simp only [hs, builtin_jobs_append, builtin_jobs]
    rw [builtin_jobs_stdout post, builtin_jobs_job_stdout, builtin_jobs_stdout pre, hname]
    cases job.status <;> simp [jobs_status_text, String.append_assoc]
  · intro job2 c2 h2 hsp hsp2 heq
    simp only [builtin_jobs] at heq
    have hd := congrArg String.data heq
    rw [builtin_jobs_job_data quiet job2 c2 h2, builtin_jobs_job_data quiet job c h] at hd
    have hd1 := List.append_cancel_left hd
    have hpre : ∀ (j : esh_pipeline),
        '(' ∉ ('[' :: (toString j.jid).data ++ [']', ' '] ++ (jobs_status_text j.status).data) := by
      intro j hmem
      simp only [List.cons_append, List.mem_cons, List.mem_append] at hmem
      rcases hmem with h1 | (h1 | h1) | h1
      · revert h1; decide
      · exact int_toString_no_paren _ h1
      · revert h1; simp
      · exact jobs_status_text_no_paren _ h1
    obtain ⟨_, hbody⟩ := split_at_first '(' _ _ _ _ (hpre job2) (hpre job) hd1
    exact argv_data_injective _ _ hsp2 hsp (List.append_cancel_right hbody)

/-- Instance of C9: with the table of `sleep` (running), `cat` (stopped) and `wc`
(running), the command line `jobs` prints three lines, the second with eight
spaces after `Stopped` and a newline before `)`; and a job listed with the same
line as `cat -n` has the same argv. -/
theorem jobs_listing_format_witness :
    (∃ s1, main_dispatch interactive (parsed ["jobs"] false)
        { world := quiet, jobsList := three_jobs, jobNum := 3 } = some s1 ∧
      s1.jobsList = three_jobs ∧ s1.jobNum = 3 ∧
      stdout s1.world.trace =
        "[1] Running     (sleep \n)\n[2] Stopped        (cat \n)\n[3] Running     (wc \n)\n") ∧
    (running ["cat", "-n"] 9).argv = (running ["cat", "-n"] 5).argv := by
  constructor
  · obtain ⟨s1, h1, h2, h3, h4⟩ := (jobs_listing_format interactive
      (command_line ["jobs"] false) (running ["jobs"] 0)
      { world := quiet, jobsList := three_jobs, jobNum := 3 }
      [single 1 ["sleep"] 10 job_status.BACKGROUND] (single 2 ["cat"] 20 job_status.STOPPED)
      [single 3 ["wc"] 30 job_status.BACKGROUND] (running ["cat"] 20) rfl rfl rfl rfl).1
    exact ⟨s1, h1, h2, h3, h4.trans (by decide)⟩
  · exact (jobs_listing_format interactive (command_line ["jobs"] false) (running ["jobs"] 0)
      { world := quiet, jobsList := [single 1 ["cat", "-n"] 5 job_status.STOPPED], jobNum := 1 }
      [] (single 1 ["cat", "-n"] 5 job_status.STOPPED) [] (running ["cat", "-n"] 5)
      rfl rfl rfl rfl).2
      (single 1 ["cat", "-n"] 9 job_status.STOPPED) (running ["cat", "-n"] 9) rfl
      (by decide) (by decide) (by decide)

/-- C9 fails as stated: for the background job `cat` the command line `jobs`
prints a newline between the argv text and `)`, for a stopped job eight spaces
follow the status word, for one that needs the terminal two; and the commands
with argv `a b` (one string) and `a`, `b` (two strings) are listed with the
same text, so the argv sequence cannot be recovered from it. -/
theorem jobs_listing_differs :
    (main_dispatch interactive (parsed ["jobs"] false)
        { world := quiet, jobsList := [single 1 ["cat"] 5 job_status.BACKGROUND],
          jobNum := 1 }).map (fun s => stdout s.world.trace) =
      some "[1] Running     (cat \n)\n" ∧
    "[1] Running     (cat \n)\n" ≠ "[1] Running     (cat )\n" ∧
    (main_dispatch interactive (parsed ["jobs"] false)
        { world := quiet, jobsList := [single 1 ["cat"] 5 job_status.STOPPED],
          jobNum := 1 }).map (fun s => stdout s.world.trace) =
      some "[1] Stopped        (cat \n)\n" ∧
    (main_dispatch interactive (parsed ["jobs"] false)
        { world := quiet, jobsList := [single 1 ["cat"] 5 job_status.NEEDSTERMINAL],
          jobNum := 1 }).map (fun s => stdout s.world.trace) =
      some "[1] Stopped  (cat \n)\n" ∧
    (main_dispatch interactive (parsed ["jobs"] false)
        { world := quiet, jobsList := [single 1 ["a b"] 5 job_status.BACKGROUND],
          jobNum := 1 }).map (fun s => stdout s.world.trace) =
      some "[1] Running     (a b \n)\n" ∧
    (main_dispatch interactive (parsed ["jobs"] false)
        { world := quiet, jobsList := [single 1 ["a", "b"] 5 job_status.BACKGROUND],
          jobNum := 1 }).map (fun s => stdout s.world.trace) =
      some "[1] Running     (a b \n)\n" ∧
    (running ["a b"] 5).argv ≠ (running ["a", "b"] 5).argv := by
  refine ⟨?_, ?_, ?_, ?_, ?_, ?_, ?_⟩ <;> decide

/-! ## How the operations change the jobs table -/

theorem tracks_refl (job : esh_pipeline) : Tracks job job := ⟨rfl, rfl, id⟩

theorem tracks_trans {a b c : esh_pipeline} (h1 : Tracks a b) (h2 : Tracks b c) : Tracks a c :=
  ⟨h2.1.trans h1.1, h2.2.1.trans h1.2.1, fun h => h1.2.2 (h2.2.2 h)⟩

theorem upd_refl (l : List esh_pipeline) : Upd l l := by
  induction l with
  | nil => exact Upd.nil
  | cons j l ih => exact Upd.keep j j l l (tracks_refl j) ih

theorem upd_trans {a b : List esh_pipeline} (h1 : Upd a b) :
    ∀ {c : List esh_pipeline}, Upd b c → Upd a c := by
  induction h1 with
  | nil => intro c h2; exact h2
  | keep j j1 l l1 ht _ ih =>
    intro c h2
    cases h2 with
    | keep _ j2 _ l2 ht2 hu2 => exact Upd.keep j j2 l l2 (tracks_trans ht ht2) (ih hu2)
    | drop _ _ l2 hu2 => exact Upd.drop j l c (ih hu2)
  | drop j l l1 _ ih =>
    intro c h2
    exact Upd.drop j l c (ih h2)

theorem upd_mem {a b : List esh_pipeline} (h : Upd a b) :
    ∀ job1 ∈ b, ∃ job ∈ a, Tracks job job1 := by
  induction h with
  | nil => intro j hj; cases hj
  | keep j j1 l l1 ht _ ih =>
    intro x hx
    rcases List.mem_cons.mp hx with rfl | hx
    · exact ⟨j, List.mem_cons_self _ _, ht⟩
    · obtain ⟨y, hy, hty⟩ := ih x hx
      exact ⟨y, List.mem_cons_of_mem _ hy, hty⟩
  | drop j l l1 _ ih =>
    intro x hx
    obtain ⟨y, hy, hty⟩ := ih x hx
    exact ⟨y, List.mem_cons_of_mem _ hy, hty⟩

theorem upd_jids {a b : List esh_pipeline} (h : Upd a b) :
    (b.map (fun job => job.jid)).Sublist (a.map (fun job => job.jid)) := by
  induction h with
  | nil => exact List.Sublist.slnil
  | keep j j1 l l1 ht _ ih =>
    simp only [List.map_cons, ht.1]
    exact ih.cons₂ _
  | drop j l l1 _ ih =>
    simp only [List.map_cons]
    exact ih.cons _

theorem count_foreground_eq_zero (l : List esh_pipeline) :
    count_foreground l = 0 ↔ ∀ job ∈ l, job.status ≠ job_status.FOREGROUND := by
  simp [count_foreground, List.filter_eq_nil_iff]

theorem upd_count_foreground {a b : List esh_pipeline} (h : Upd a b)
    (h0 : count_foreground a = 0) : count_foreground b = 0 := by
  rw [count_foreground_eq_zero] at h0 ⊢
  intro j1 hj1 hfg
  obtain ⟨j, hj, ht⟩ := upd_mem h j1 hj1
  exact h0 j hj (ht.2.2 hfg)

theorem jid_inv_upd {n : Int} {l l1 : List esh_pipeline} (h : JidInv n l) (hu : Upd l l1) :
    JidInv n l1 := by
  obtain ⟨h0, hb, hn⟩ := h
  refine ⟨h0, ?_, hn.sublist (upd_jids hu)⟩
  intro j1 hj1
  obtain ⟨j, hj, ht⟩ := upd_mem hu j1 hj1
  rw [ht.1]
  exact hb j hj

theorem for_each_job_upd (f : World → esh_pipeline → Option (World × Option esh_pipeline))
    (hf : ∀ w job w1 job1, f w job = some (w1, some job1) → Tracks job job1)
    (l : List esh_pipeline) :
    ∀ (w w1 : World) (l1 : List esh_pipeline), for_each_job f w l = some (w1, l1) → Upd l l1 := by
  induction l with
  | nil =>
    intro w w1 l1 h
    simp only [for_each_job, Option.some.injEq, Prod.mk.injEq] at h
    rw [← h.2]
    exact Upd.nil
  | cons j l ih =>
    intro w w1 l1 h
    simp only [for_each_job] at h
    cases hfj : f w j with
    | none => simp [hfj] at h
    | some t =>
      obtain ⟨w2, r⟩ := t
      simp only [hfj] at h
      cases hrec : for_each_job f w2 l with
      | none => simp [hrec] at h
      | some t2 =>
        obtain ⟨w3, l2⟩ := t2
        simp only [hrec] at h
        cases r with
        | none =>
          simp only [Option.some.injEq, Prod.mk.injEq] at h
          rw [← h.2]
          exact Upd.drop j l l2 (ih _ _ _ hrec)
        | some j1 =>
          simp only [Option.some.injEq, Prod.mk.injEq] at h
          rw [← h.2]
          exact Upd.keep j j1 l l2 (hf _ _ _ _ hfj) (ih _ _ _ hrec)

theorem mark_process_status_fields (pid status : Int) (job : esh_pipeline) :
    (mark_process_status pid status job).2.jid = job.jid ∧
    (mark_process_status pid status job).2.status = job.status ∧
    (mark_process_status pid status job).2.pgrp = job.pgrp := by
  unfold mark_process_status
  split
  · split <;> exact ⟨rfl, rfl, rfl⟩
  · split <;> exact ⟨rfl, rfl, rfl⟩

theorem wait_for_job_loop_fields (ws : List (Int × Int)) :
    ∀ (job : esh_pipeline) (evs : List Event) (rest : List (Int × Int)) (job1 : esh_pipeline),
      wait_for_job_loop ws job = some (evs, rest, job1) →
      job1.jid = job.jid ∧ job1.status = job.status ∧ job1.pgrp = job.pgrp := by
  induction ws with
  | nil => intro job evs rest job1 h; simp [wait_for_job_loop] at h
  | cons r ws ih =>
    intro job evs rest job1 h
    obtain ⟨pid, status⟩ := r
    have hm := mark_process_status_fields pid status job
    simp only [wait_for_job_loop] at h
    split at h
    · cases hrec : wait_for_job_loop ws (mark_process_status pid status job).2 with
      | none => simp [hrec] at h
      | some t =>
        obtain ⟨evs1, rest1, job2⟩ := t
        simp only [hrec, Option.some.injEq, Prod.mk.injEq] at h
        obtain ⟨_, _, hjob⟩ := h
        subst hjob
        have := ih _ _ _ _ hrec
        exact ⟨this.1.trans hm.1, this.2.1.trans hm.2.1, this.2.2.trans hm.2.2⟩
    · simp only [Option.some.injEq, Prod.mk.injEq] at h
      obtain ⟨_, _, hjob⟩ := h
      subst hjob
      exact hm

theorem wait_for_job_fields (w w1 : World) (job job1 : esh_pipeline)
    (h : wait_for_job w job = some (w1, job1)) :
    job1.jid = job.jid ∧ job1.status = job.status ∧ job1.pgrp = job.pgrp := by
  unfold wait_for_job at h
  cases hloop : wait_for_job_loop w.waits job with
  | none => simp [hloop] at h
  | some t =>
    obtain ⟨evs, rest, job2⟩ := t
    simp only [hloop, Option.some.injEq, Prod.mk.injEq] at h
    rw [← h.2]
    exact wait_for_job_loop_fields _ _ _ _ _ hloop

theorem poll_loop_fields (ps : List (Int × Int)) :
    ∀ (job : esh_pipeline),
      (poll_loop ps job).2.2.jid = job.jid ∧ (poll_loop ps job).2.2.status = job.status ∧
        (poll_loop ps job).2.2.pgrp = job.pgrp := by
  induction ps with
  | nil =>
    intro job
    simp only [poll_loop]
    exact mark_process_status_fields 0 0 job
  | cons r ps ih =>
    intro job
    obtain ⟨pid, status⟩ := r
    have hm := mark_process_status_fields pid status job
    simp only [poll_loop]
    split
    · have := ih (mark_process_status pid status job).2
      exact ⟨this.1.trans hm.1, this.2.1.trans hm.2.1, this.2.2.trans hm.2.2⟩
    · exact hm

theorem update_status_job_tracks (w : World) (job : esh_pipeline) :
    Tracks job (update_status_job w job).2 := by
  have hp := poll_loop_fields w.polls job
  unfold update_status_job
  rcases hpl : poll_loop w.polls job with ⟨evs, rest, job1⟩
  rw [hpl] at hp
  simp only
  split
  · exact ⟨hp.1, hp.2.2, fun h => by simp at h⟩
  · exact ⟨hp.1, hp.2.2, fun h => hp.2.1 ▸ h⟩

theorem update_status_upd (l : List esh_pipeline) :
    ∀ w : World, Upd l (update_status w l).2 := by
  induction l with
  | nil => intro w; exact Upd.nil
  | cons j l ih =>
    intro w
    simp only [update_status]
    exact Upd.keep _ _ _ _ (update_status_job_tracks w j) (ih _)

theorem notify_loop_upd (l : List esh_pipeline) :
    ∀ w : World, Upd l (notify_loop w l).2 := by
  induction l with
  | nil => intro w; exact Upd.nil
  | cons j l ih =>
    intro w
    simp only [notify_loop]
    split
    · exact Upd.drop _ _ _ (ih _)
    · split
      · exact Upd.keep _ _ _ _ ⟨rfl, rfl, id⟩ (ih _)
      · exact Upd.keep _ _ _ _ (tracks_refl j) (ih _)

theorem do_job_notification_upd (w : World) (l : List esh_pipeline) :
    Upd l (do_job_notification w l).2 := by
  unfold do_job_notification
  exact upd_trans (update_status_upd l w) (notify_loop_upd _ _)

theorem kill_call_eq (pid : Int) (sig : Signal) (w : World) :
    kill_call pid sig w =
      (w.kills.headD 0,
       { w with trace := w.trace ++ [Event.kill pid sig], kills := w.kills.tail }) := by
  unfold kill_call
  cases hk : w.kills <;> simp [emit, hk]

theorem sys_kill_alive (pid : Int) (sig : Signal) (w : World) (h : sig ≠ Signal.SIGKILL) :
    sys_kill pid sig w = some (kill_call pid sig w) := by
  simp [sys_kill, h]

theorem send_continue_eq (pipe : esh_pipeline) (w : World) :
    send_continue pipe w =
      some (if (kill_call (-pipe.pgrp) Signal.SIGCONT
                (emit (Event.tty_restore pipe.saved_tty_state) w)).1 < 0 then
              emit (Event.perror "kill (SIGCONT)")
                (kill_call (-pipe.pgrp) Signal.SIGCONT
                  (emit (Event.tty_restore pipe.saved_tty_state) w)).2
            else
              (kill_call (-pipe.pgrp) Signal.SIGCONT
                (emit (Event.tty_restore pipe.saved_tty_state) w)).2) := by
  unfold send_continue
  rw [sys_kill_alive _ _ _ (by decide)]

theorem put_job_in_foreground_some (pipe : esh_pipeline) (cont : Bool) (shellGroup : Int)
    (shellState : Option Nat) (w w1 : World) (job1 : esh_pipeline) (removed : Bool)
    (h : put_job_in_foreground pipe cont shellGroup shellState w = some (w1, job1, removed)) :
    ∃ (w2 w3 w4 : World) (pipe2 : esh_pipeline),
      give_terminal_to pipe.pgrp (some pipe.saved_tty_state) (printf (print_job_name pipe) w) =
        some w2 ∧
      (if cont then
          send_continue { pipe with status := job_status.FOREGROUND, bg_job := false } w2
        else some w2) = some w3 ∧
      wait_for_job w3 { pipe with status := job_status.FOREGROUND, bg_job := false } =
        some (w4, pipe2) ∧
      ((job_is_complete pipe2 = false ∧ removed = false ∧
          job1 = { pipe2 with status := job_status.STOPPED,
                              saved_tty_state := (esh_sys_tty_save w4).1 } ∧
          give_terminal_to shellGroup shellState (esh_sys_tty_save w4).2 = some w1) ∨
       (job_is_complete pipe2 = true ∧ removed = true ∧ job1 = pipe2 ∧
          give_terminal_to shellGroup shellState w4 = some w1)) := by
  unfold put_job_in_foreground at h
  simp only at h
  cases hg : give_terminal_to pipe.pgrp (some pipe.saved_tty_state)
      (printf (print_job_name pipe) w) with
  | none => simp [hg] at h
  | some w2 =>
    simp only [hg] at h
    cases hs : (if cont then
          send_continue { pipe with status := job_status.FOREGROUND, bg_job := false } w2
        else some w2) with
    | none => simp [hs] at h
    | some w3 =>
      simp only [hs] at h
      cases hw : wait_for_job w3 { pipe with status := job_status.FOREGROUND, bg_job := false } with
      | none => simp [hw] at h
      | some t =>
        obtain ⟨w4, pipe2⟩ := t
        refine ⟨w2, w3, w4, pipe2, rfl, hs, hw, ?_⟩
        simp only [hw] at h
        cases hcomp : job_is_complete pipe2 with
        | false =>
          left
          simp only [hcomp, Bool.not_false, if_true] at h
          cases hg2 : give_terminal_to shellGroup shellState (esh_sys_tty_save w4).2 with
          | none => simp [hg2] at h
          | some w6 =>
            simp only [hg2, Option.some.injEq, Prod.mk.injEq] at h
            obtain ⟨h1, h2, h3⟩ := h
            exact ⟨rfl, h3.symm, h2.symm, by rw [h1]⟩
        | true =>
          right
          simp only [hcomp, Bool.not_true] at h
          cases hg2 : give_terminal_to shellGroup shellState w4 with
          | none => simp [hg2] at h
          | some w6 =>
            simp only [hg2] at h
            simp only [Bool.false_eq_true, if_false, Option.some.injEq, Prod.mk.injEq] at h
            obtain ⟨h1, h2, h3⟩ := h
            exact ⟨rfl, h3.symm, h2.symm, by rw [h1]⟩

theorem put_job_in_foreground_tracks (pipe : esh_pipeline) (cont : Bool) (shellGroup : Int)
    (shellState : Option Nat) (w w1 : World) (job1 : esh_pipeline) (removed : Bool)
    (h : put_job_in_foreground pipe cont shellGroup shellState w = some (w1, job1, removed)) :
    job1.jid = pipe.jid ∧ job1.pgrp = pipe.pgrp ∧
      (removed = false → job1.status = job_status.STOPPED) := by
  obtain ⟨w2, w3, w4, pipe2, _, _, hw, hcase⟩ := put_job_in_foreground_some _ _ _ _ _ _ _ _ h
  have hf := wait_for_job_fields _ _ _ _ hw
  rcases hcase with ⟨_, hr, hj, _⟩ | ⟨_, hr, hj, _⟩
  · subst hj
    exact ⟨hf.1, hf.2.2, fun _ => rfl⟩
  · subst hj
    exact ⟨hf.1, hf.2.2, fun hf2 => by rw [hr] at hf2; cases hf2⟩

theorem put_job_in_background_eq (pipe : esh_pipeline) (cont : Bool) (w : World) :
    put_job_in_background pipe cont w =
      some (if cont then
          (if (kill_call (-pipe.pgrp) Signal.SIGCONT w).1 < 0 then
            (emit (Event.perror "kill (SIGCONT)") (kill_call (-pipe.pgrp) Signal.SIGCONT w).2,
              { pipe with bg_job := true })
          else
            ((kill_call (-pipe.pgrp) Signal.SIGCONT w).2,
              { mark_job_as_running { pipe with bg_job := true } with
                status := job_status.BACKGROUND }))
        else (w, { pipe with bg_job := true })) := by
  unfold put_job_in_background
  cases cont with
  | false => simp
  | true =>
    simp only [if_true]
    rw [sys_kill_alive _ _ _ (by decide)]
    simp only
    split <;> rfl

theorem put_job_in_background_fields (pipe : esh_pipeline) (cont : Bool) (w w1 : World)
    (pipe1 : esh_pipeline) (h : put_job_in_background pipe cont w = some (w1, pipe1)) :
    pipe1.jid = pipe.jid ∧ pipe1.pgrp = pipe.pgrp ∧
    (pipe1.status = pipe.status ∨ pipe1.status = job_status.BACKGROUND) ∧
    (cont = false → pipe1.status = pipe.status) := by
  rw [put_job_in_background_eq] at h
  simp only [Option.some.injEq] at h
  cases cont with
  | false =>
    simp only [Bool.false_eq_true, if_false, Prod.mk.injEq] at h
    rw [← h.2]
    exact ⟨rfl, rfl, Or.inl rfl, fun _ => rfl⟩
  | true =>
    simp only [if_true] at h
    split at h
    · simp only [Prod.mk.injEq] at h
      rw [← h.2]
      exact ⟨rfl, rfl, Or.inl rfl, fun hc => by cases hc⟩
    · simp only [Prod.mk.injEq] at h
      rw [← h.2]
      exact ⟨rfl, rfl, Or.inr rfl, fun hc => by cases hc⟩

theorem keep_unless_removed_some (x : Option (World × esh_pipeline × Bool)) (w1 : World)
    (job1 : esh_pipeline) (h : keep_unless_removed x = some (w1, some job1)) :
    x = some (w1, job1, false) := by
  cases x with
  | none => simp [keep_unless_removed] at h
  | some t =>
    obtain ⟨w, j, removed⟩ := t
    cases removed <;> simp_all [keep_unless_removed]

theorem continue_job_tracks (pipe : esh_pipeline) (bg : Bool) (shell_group : Int)
    (shell_state : Option Nat) (w w1 : World) (job1 : esh_pipeline)
    (h : continue_job pipe bg shell_group shell_state w = some (w1, job1, false)) :
    Tracks pipe job1 := by
  unfold continue_job at h
  cases bg with
  | false =>
    simp only [Bool.not_false, if_true] at h
    have := put_job_in_foreground_tracks _ _ _ _ _ _ _ _ h
    exact ⟨this.1, this.2.1, fun hfg => by rw [this.2.2 rfl] at hfg; cases hfg⟩
  | true =>
    simp only [Bool.not_true, Bool.false_eq_true, if_false] at h
    cases hp : put_job_in_background (mark_job_as_running pipe) true w with
    | none => simp [hp] at h
    | some t =>
      obtain ⟨w2, pipe2⟩ := t
      have hb := put_job_in_background_fields _ _ _ _ _ hp
      simp only [hp, Option.some.injEq, Prod.mk.injEq] at h
      obtain ⟨_, hj, _⟩ := h
      subst hj
      refine ⟨hb.1, hb.2.1, ?_⟩
      intro hfg
      rcases hb.2.2.1 with hs | hs
      · rw [hs] at hfg
        exact hfg
      · rw [hs] at hfg
        cases hfg

theorem foreground_job_tracks (jid : Int) (shell_group : Int) (shell_state : Option Nat)
    (w : World) (job : esh_pipeline) (w1 : World) (job1 : esh_pipeline)
    (h : foreground_job jid shell_group shell_state w job = some (w1, some job1)) :
    Tracks job job1 := by
  unfold foreground_job at h
  split at h
  · split at h
    · simp only [Option.some.injEq, Prod.mk.injEq] at h
      rw [← h.2]
      exact tracks_refl job
    · have := put_job_in_foreground_tracks _ _ _ _ _ _ _ _ (keep_unless_removed_some _ _ _ h)
      exact ⟨this.1, this.2.1, fun hfg => by rw [this.2.2 rfl] at hfg; cases hfg⟩
    · exact continue_job_tracks _ _ _ _ _ _ _ (keep_unless_removed_some _ _ _ h)
    · exact continue_job_tracks _ _ _ _ _ _ _ (keep_unless_removed_some _ _ _ h)
  · simp only [Option.some.injEq, Prod.mk.injEq] at h
    rw [← h.2]
    exact tracks_refl job

theorem builtin_bg_job_tracks (jid : Int) (shell_pgrp : Int) (shell_state : Option Nat)
    (w : World) (job : esh_pipeline) (w1 : World) (job1 : esh_pipeline)
    (h : builtin_bg_job jid shell_pgrp shell_state w job = some (w1, some job1)) :
    Tracks job job1 := by
  unfold builtin_bg_job at h
  split at h
  · exact continue_job_tracks _ _ _ _ _ _ _ (keep_unless_removed_some _ _ _ h)
  · simp only [Option.some.injEq, Prod.mk.injEq] at h
    rw [← h.2]
    exact tracks_refl job

theorem builtin_kill_job_tracks (jid : Int) (w : World) (job : esh_pipeline) (w1 : World)
    (job1 : esh_pipeline) (h : builtin_kill_job jid w job = some (w1, some job1)) :
    Tracks job job1 := by
  unfold builtin_kill_job at h
  split at h
  · split at h <;> simp at h
  · simp only [Option.some.injEq, Prod.mk.injEq] at h
    rw [← h.2]
    exact tracks_refl job

theorem builtin_stop_job_tracks (jid : Int) (w : World) (job : esh_pipeline) (w1 : World)
    (job1 : esh_pipeline) (h : builtin_stop_job jid w job = some (w1, some job1)) :
    Tracks job job1 := by
  unfold builtin_stop_job at h
  split at h
  · simp only at h
    split at h
    · cases h
    · simp only [Option.some.injEq, Prod.mk.injEq] at h
      rw [← h.2]
      exact ⟨rfl, rfl, fun hfg => by simp at hfg⟩
  · simp only [Option.some.injEq, Prod.mk.injEq] at h
    rw [← h.2]
    exact tracks_refl job

theorem foreground_upd (jid : Int) (jobList : List esh_pipeline) (shell_group : Int)
    (shell_state : Option Nat) (w w1 : World) (jobs1 : List esh_pipeline)
    (h : foreground jid jobList shell_group shell_state w = some (w1, jobs1)) :
    Upd jobList jobs1 := by
  unfold foreground at h
  cases hf : for_each_job (foreground_job jid shell_group shell_state) w jobList with
  | none => simp [hf] at h
  | some t =>
    obtain ⟨w2, jobs2⟩ := t
    have hu := for_each_job_upd _ (foreground_job_tracks jid shell_group shell_state) _ _ _ _ hf
    simp only [hf] at h
    split at h <;>
    · simp only [Option.some.injEq, Prod.mk.injEq] at h
      rw [← h.2]
      exact hu

theorem builtin_bg_upd (jid : Int) (shell_pgrp : Int) (shell_state : Option Nat) (w w1 : World)
    (jobsList jobs1 : List esh_pipeline)
    (h : builtin_bg jid shell_pgrp shell_state w jobsList = some (w1, jobs1)) :
    Upd jobsList jobs1 := by
  unfold builtin_bg at h
  cases hf : for_each_job (builtin_bg_job jid shell_pgrp shell_state) w jobsList with
  | none => simp [hf] at h
  | some t =>
    obtain ⟨w2, jobs2⟩ := t
    have hu := for_each_job_upd _ (builtin_bg_job_tracks jid shell_pgrp shell_state) _ _ _ _ hf
    simp only [hf] at h
    split at h <;>
    · simp only [Option.some.injEq, Prod.mk.injEq] at h
      rw [← h.2]
      exact hu

theorem builtin_kill_upd (jid : Int) (w w1 : World) (jobsList jobs1 : List esh_pipeline)
    (h : builtin_kill jid w jobsList = some (w1, jobs1)) : Upd jobsList jobs1 := by
  unfold builtin_kill at h
  cases hf : for_each_job (builtin_kill_job jid) w jobsList with
  | none => simp [hf] at h
  | some t =>
    obtain ⟨w2, jobs2⟩ := t
    have hu := for_each_job_upd _ (builtin_kill_job_tracks jid) _ _ _ _ hf
    simp only [hf] at h
    split at h <;>
    · simp only [Option.some.injEq, Prod.mk.injEq] at h
      rw [← h.2]
      exact hu

theorem builtin_stop_upd (jid : Int) (w w1 : World) (jobsList jobs1 : List esh_pipeline)
    (h : builtin_stop jid w jobsList = some (w1, jobs1)) : Upd jobsList jobs1 := by
  unfold builtin_stop at h
  cases hf : for_each_job (builtin_stop_job jid) w jobsList with
  | none => simp [hf] at h
  | some t =>
    obtain ⟨w2, jobs2⟩ := t
    have hu := for_each_job_upd _ (builtin_stop_job_tracks jid) _ _ _ _ hf
    simp only [hf] at h
    split at h <;>
    · simp only [Option.some.injEq, Prod.mk.injEq] at h
      rw [← h.2]
      exact hu

theorem put_job_in_background_false (pipe : esh_pipeline) (w : World) :
    put_job_in_background pipe false w = some (w, { pipe with bg_job := true }) := by
  rw [put_job_in_background_eq]
  rfl

theorem launch_job_loop_jid (bg interactive : Bool) (shell_pgrp : Int)
    (shell_state : Option Nat) (n : Nat) :
    ∀ (i : Nat) (w : World) (job : esh_pipeline) (removed : Bool) (w1 : World)
      (job1 : esh_pipeline) (r1 : Bool),
      launch_job_loop bg interactive shell_pgrp shell_state n i w job removed =
        some (w1, job1, r1) → job1.jid = job.jid := by
  induction n with
  | zero =>
    intro i w job removed w1 job1 r1 h
    simp only [launch_job_loop, Option.some.injEq, Prod.mk.injEq] at h
    rw [← h.2.1]
  | succ n ih =>
    intro i w job removed w1 job1 r1 h
    simp only [launch_job_loop, put_job_in_background_false] at h
    rcases hfk : sys_fork w with ⟨pid, wf⟩
    simp only [hfk] at h
    split at h
    · cases h
    · split at h
      · cases h
      · split at h
        · split at h
          · cases h
          · rename_i w4 job4 hw
            have h1 := ih _ _ _ _ _ _ _ h
            have h2 := (wait_for_job_fields _ _ _ _ hw).1
            rw [h1, h2]
            split <;> [split; skip] <;> rfl
        · split at h
          · split at h
            · cases h
            · rename_i w4 job4 removed1 hp
              have h1 := ih _ _ _ _ _ _ _ h
              have h2 := (put_job_in_foreground_tracks _ _ _ _ _ _ _ _ hp).1
              rw [h1, h2]
              split <;> [split; skip] <;> rfl
          · have h1 := ih _ _ _ _ _ _ _ h
            rw [h1]
            simp only
            split <;> [split; skip] <;> rfl

theorem launch_job_loop_foreground (shell_pgrp : Int) (shell_state : Option Nat) (n : Nat) :
    ∀ (i : Nat) (w : World) (job : esh_pipeline) (removed : Bool) (w1 : World)
      (job1 : esh_pipeline) (r1 : Bool),
      launch_job_loop false true shell_pgrp shell_state n i w job removed = some (w1, job1, r1) →
      (n = 0 → removed = true ∨ job.status ≠ job_status.FOREGROUND) →
      r1 = true ∨ job1.status ≠ job_status.FOREGROUND := by
  induction n with
  | zero =>
    intro i w job removed w1 job1 r1 h h0
    simp only [launch_job_loop, Option.some.injEq, Prod.mk.injEq] at h
    rw [← h.2.1, ← h.2.2]
    exact h0 rfl
  | succ n ih =>
    intro i w job removed w1 job1 r1 h _
    simp only [launch_job_loop, put_job_in_background_false] at h
    rcases hfk : sys_fork w with ⟨pid, wf⟩
    simp only [hfk] at h
    split at h
    · cases h
    · split at h
      · cases h
      · simp only [Bool.not_true, Bool.false_eq_true, if_false, Bool.not_false, if_true] at h
        split at h
        · cases h
        · rename_i w4 job4 removed1 hp
          refine ih _ _ _ _ _ _ _ h ?_
          intro _
          have h2 := (put_job_in_foreground_tracks _ _ _ _ _ _ _ _ hp).2.2
          cases removed1 with
          | true => left; simp
          | false =>
            right
            rw [h2 rfl]
            decide

theorem launch_job_loop_background (shell_pgrp : Int) (shell_state : Option Nat) (n : Nat) :
    ∀ (i : Nat) (w : World) (job : esh_pipeline) (removed : Bool) (w1 : World)
      (job1 : esh_pipeline) (r1 : Bool),
      launch_job_loop true true shell_pgrp shell_state n i w job removed = some (w1, job1, r1) →
      job1.status = job.status := by
  induction n with
  | zero =>
    intro i w job removed w1 job1 r1 h
    simp only [launch_job_loop, Option.some.injEq, Prod.mk.injEq] at h
    rw [← h.2.1]
  | succ n ih =>
    intro i w job removed w1 job1 r1 h
    simp only [launch_job_loop, put_job_in_background_false] at h
    rcases hfk : sys_fork w with ⟨pid, wf⟩
    simp only [hfk] at h
    split at h
    · cases h
    · split at h
      · cases h
      · simp only [Bool.not_true, Bool.false_eq_true, if_false, if_true] at h
        have h1 := ih _ _ _ _ _ _ _ h
        rw [h1]
        simp only
        split <;> rfl

theorem launch_job_loop_batch (bg : Bool) (shell_pgrp : Int) (shell_state : Option Nat)
    (n : Nat) :
    ∀ (i : Nat) (w : World) (job : esh_pipeline) (removed : Bool) (w1 : World)
      (job1 : esh_pipeline) (r1 : Bool),
      launch_job_loop bg false shell_pgrp shell_state n i w job removed = some (w1, job1, r1) →
      job1.status = job.status ∧ job1.pgrp = job.pgrp ∧ r1 = removed := by
  induction n with
  | zero =>
    intro i w job removed w1 job1 r1 h
    simp only [launch_job_loop, Option.some.injEq, Prod.mk.injEq] at h
    rw [← h.2.1, ← h.2.2]
    exact ⟨rfl, rfl, rfl⟩
  | succ n ih =>
    intro i w job removed w1 job1 r1 h
    simp only [launch_job_loop] at h
    rcases hfk : sys_fork w with ⟨pid, wf⟩
    simp only [hfk] at h
    split at h
    · cases h
    · split at h
      · cases h
      · simp only [Bool.not_false, if_true, Bool.false_eq_true, if_false] at h
        split at h
        · cases h
        · rename_i w4 job4 hw
          have h1 := ih _ _ _ _ _ _ _ h
          have h2 := wait_for_job_fields _ _ _ _ hw
          exact ⟨h1.1.trans h2.2.1, h1.2.1.trans h2.2.2, h1.2.2⟩

theorem launch_job_loop_pgrp (bg : Bool) (shell_pgrp : Int) (shell_state : Option Nat)
    (n : Nat) :
    ∀ (i : Nat) (w : World) (job : esh_pipeline) (removed : Bool) (w1 : World)
      (job1 : esh_pipeline) (r1 : Bool),
      launch_job_loop bg true shell_pgrp shell_state n i w job removed = some (w1, job1, r1) →
      (n = 0 → job.pgrp ≠ 0) → job1.pgrp ≠ 0 := by
  induction n with
  | zero =>
    intro i w job removed w1 job1 r1 h h0
    simp only [launch_job_loop, Option.some.injEq, Prod.mk.injEq] at h
    rw [← h.2.1]
    exact h0 rfl
  | succ n ih =>
    intro i w job removed w1 job1 r1 h _
    simp only [launch_job_loop, put_job_in_background_false] at h
    rcases hfk : sys_fork w with ⟨pid, wf⟩
    simp only [hfk] at h
    split at h
    · cases h
    · rename_i hpid0
      split at h
      · cases h
      · simp only [Bool.not_true, Bool.false_eq_true, if_false, if_true] at h
        split at h
        · split at h
          · cases h
          · rename_i w4 job4 removed1 hp
            refine ih _ _ _ _ _ _ _ h ?_
            intro _
            rw [(put_job_in_foreground_tracks _ _ _ _ _ _ _ _ hp).2.1]
            split
            · exact hpid0
            · assumption
        · refine ih _ _ _ _ _ _ _ h ?_
          intro _
          simp only
          split
          · exact hpid0
          · assumption

/-- What the launch path of `main` does to the state: `jobNum` is incremented,
and the table is unchanged (the job completed in the foreground) or has the new
job, with jid `next_jid`, appended; in interactive mode the new job is not left
in the foreground and has a process group other than 0. -/
theorem main_launch_table (ctx : Ctx) (pipe : esh_pipeline) (s s1 : Shell)
    (hne : pipe.commands ≠ []) (h : main_launch ctx pipe s = some s1) :
    s1.jobNum = next_jid s ∧
    (s1.jobsList = s.jobsList ∨
      ∃ job, s1.jobsList = s.jobsList ++ [job] ∧ job.jid = next_jid s ∧
        (ctx.shell_is_interactive = true →
          job.status ≠ job_status.FOREGROUND ∧ job.pgrp ≠ 0)) := by
  unfold main_launch at h
  simp only at h
  split at h
  · cases h
  · rename_i w2 job removed hl
    simp only [Option.some.injEq] at h
    subst h
    refine ⟨rfl, ?_⟩
    cases hrem : removed with
    | true => left; simp
    | false =>
      right
      refine ⟨job, by simp, ?_, ?_⟩
      · unfold launch_job at hl
        exact launch_job_loop_jid _ _ _ _ _ _ _ _ _ _ _ _ hl
      · intro hi
        unfold launch_job at hl
        rw [hi] at hl
        have hlen : pipe.commands.length = 0 → False :=
          fun h0 => hne (List.length_eq_zero.mp h0)
        refine ⟨?_, launch_job_loop_pgrp _ _ _ _ _ _ _ _ _ _ _ hl (fun h0 => (hlen h0).elim)⟩
        cases hbg : pipe.bg_job with
        | true =>
          simp only [hbg, if_true] at hl
          rw [launch_job_loop_background _ _ _ _ _ _ _ _ _ _ hl]
          simp
        | false =>
          simp only [hbg, Bool.false_eq_true, if_false] at hl
          have := launch_job_loop_foreground _ _ _ _ _ _ _ _ _ _ hl
            (fun h0 => (hlen h0).elim)
          rcases this with h1 | h1
          · rw [hrem] at h1; cases h1
          · exact h1

/-- In batch mode the launch path of `main` always leaves the new job in the
table, with the status `main` gave it and process group 0. -/
theorem main_launch_batch (ctx : Ctx) (pipe : esh_pipeline) (s s1 : Shell)
    (hb : ctx.shell_is_interactive = false) (h : main_launch ctx pipe s = some s1) :
    ∃ job, s1.jobsList = s.jobsList ++ [job] ∧ job.jid = next_jid s ∧ job.pgrp = 0 ∧
      job.status = (if pipe.bg_job then job_status.BACKGROUND else job_status.FOREGROUND) := by
  unfold main_launch at h
  simp only at h
  split at h
  · cases h
  · rename_i w2 job removed hl
    simp only [Option.some.injEq] at h
    subst h
    unfold launch_job at hl
    have hjid := launch_job_loop_jid _ _ _ _ _ _ _ _ _ _ _ _ hl
    rw [hb] at hl
    obtain ⟨hst, hpg, hrem⟩ := launch_job_loop_batch _ _ _ _ _ _ _ _ _ _ _ hl
    refine ⟨job, by simp [hrem], hjid, hpg, hst⟩

theorem main_builtin_table (ctx : Ctx) (cmd : String) (command : esh_command) (s s1 : Shell)
    (h : main_builtin ctx cmd command s = some s1) :
    s1.jobNum = s.jobNum ∧ Upd s.jobsList s1.jobsList := by
  unfold main_builtin at h
  split at h
  · simp only [Option.some.injEq] at h
    subst h
    exact ⟨rfl, upd_refl _⟩
  · split at h
    · split at h
      · cases h
      · split at h
        · cases h
        · rename_i w1 jobs1 hf
          simp only [Option.some.injEq] at h
          subst h
          exact ⟨rfl, foreground_upd _ _ _ _ _ _ _ hf⟩
    · split at h
      · split at h
        · cases h
        · split at h
          · cases h
          · rename_i w1 jobs1 hf
            simp only [Option.some.injEq] at h
            subst h
            exact ⟨rfl, builtin_bg_upd _ _ _ _ _ _ _ hf⟩
      · split at h
        · split at h
          · cases h
          · split at h
            · cases h
            · rename_i w1 jobs1 hf
              simp only [Option.some.injEq] at h
              subst h
              exact ⟨rfl, builtin_kill_upd _ _ _ _ _ hf⟩
        · split at h
          · split at h
            · cases h
            · split at h
              · cases h
              · rename_i w1 jobs1 hf
                simp only [Option.some.injEq] at h
                subst h
                exact ⟨rfl, builtin_stop_upd _ _ _ _ _ hf⟩
          · split at h
            · cases h
            · simp only [Option.some.injEq] at h
              subst h
              exact ⟨rfl, upd_refl _⟩

theorem main_top_table (ctx : Ctx) (s s1 : Shell) (h : main_top ctx s = some s1) :
    Upd s.jobsList s1.jobsList ∧ s1.jobNum = (if s1.jobsList = [] then 0 else s.jobNum) := by
  unfold main_top at h
  split at h
  · cases h
  · rename_i w1 hg
    rcases hd : do_job_notification w1 s.jobsList with ⟨w2, jobs2⟩
    have hu := do_job_notification_upd w1 s.jobsList
    rw [hd] at hu h
    simp only [Option.some.injEq] at h
    subst h
    exact ⟨hu, rfl⟩

/-- What the rest of an iteration does to the state: either a launch, which
increments `jobNum` and may append the new job with jid `next_jid`, or a step
that keeps `jobNum` and lets the table evolve. -/
theorem main_dispatch_table (ctx : Ctx) (line : Line) (s s1 : Shell)
    (h : main_dispatch ctx line s = some s1) :
    (s1.jobNum = s.jobNum ∧ Upd s.jobsList s1.jobsList) ∨
    (s1.jobNum = next_jid s ∧
      (s1.jobsList = s.jobsList ∨
        ∃ job, s1.jobsList = s.jobsList ++ [job] ∧ job.jid = next_jid s ∧
          (ctx.shell_is_interactive = true →
            job.status ≠ job_status.FOREGROUND ∧ job.pgrp ≠ 0))) := by
  unfold main_dispatch at h
  split at h
  · cases h
  · simp only [Option.some.injEq] at h
    subst h
    exact Or.inl ⟨rfl, upd_refl _⟩
  · simp only [Option.some.injEq] at h
    subst h
    exact Or.inl ⟨rfl, upd_refl _⟩
  · rename_i pipe
    split at h
    · cases h
    · rename_i command hcmd
      split at h
      · cases h
      · split at h
        · right
          refine main_launch_table ctx pipe s s1 ?_ h
          intro hnil
          rw [hnil] at hcmd
          cases hcmd
        · exact Or.inl (main_builtin_table _ _ _ _ _ h)

theorem handler_job_tracks (pid status : Int) (job job1 : esh_pipeline)
    (h : handler_job pid status job = some job1) : Tracks job job1 := by
  unfold handler_job at h
  split at h
  · split at h
    · cases h
    · split at h
      · simp only [Option.some.injEq] at h
        rw [← h]
        exact ⟨rfl, rfl, fun hfg => by simp at hfg⟩
      · simp only [Option.some.injEq] at h
        rw [← h]
        exact tracks_refl job
  · simp only [Option.some.injEq] at h
    rw [← h]
    exact tracks_refl job

theorem filterMap_handler_job_upd (pid status : Int) (l : List esh_pipeline) :
    Upd l (l.filterMap (handler_job pid status)) := by
  induction l with
  | nil => exact Upd.nil
  | cons j l ih =>
    cases hj : handler_job pid status j with
    | none =>
      rw [List.filterMap_cons_none hj]
      exact Upd.drop _ _ _ ih
    | some j1 =>
      rw [List.filterMap_cons_some hj]
      exact Upd.keep _ _ _ _ (handler_job_tracks pid status j j1 hj) ih

theorem handler_loop_upd (fuel : Nat) :
    ∀ (w : World) (l : List esh_pipeline), Upd l (handler_loop fuel w l).2 := by
  induction fuel with
  | zero => intro w l; exact upd_refl l
  | succ fuel ih =>
    intro w l
    simp only [handler_loop]
    split
    · exact upd_refl l
    · rename_i pid status rest _
      split
      · exact upd_trans (update_status_upd l _)
          (upd_trans (filterMap_handler_job_upd pid status _) (ih _ _))
      · exact upd_refl l

theorem handler_table (ctx : Ctx) (s s1 : Shell) (h : handler ctx s = some s1) :
    s1.jobNum = s.jobNum ∧ Upd s.jobsList s1.jobsList := by
  unfold handler at h
  simp only at h
  have hu := handler_loop_upd ((printf "DErp" s.world).polls.length + 1)
    (printf "DErp" s.world) s.jobsList
  rcases hl : handler_loop ((printf "DErp" s.world).polls.length + 1)
    (printf "DErp" s.world) s.jobsList with ⟨w2, jobs2⟩
  rw [hl] at hu h
  simp only at h
  split at h
  · cases h
  · simp only [Option.some.injEq] at h
    subst h
    exact ⟨rfl, hu⟩

theorem handler_runs_table (ctx : Ctx) (n : Nat) :
    ∀ s s1 : Shell, handler_runs ctx n s = some s1 →
      s1.jobNum = s.jobNum ∧ Upd s.jobsList s1.jobsList := by
  induction n with
  | zero =>
    intro s s1 h
    simp only [handler_runs, Option.some.injEq] at h
    rw [← h]
    exact ⟨rfl, upd_refl _⟩
  | succ n ih =>
    intro s s1 h
    simp only [handler_runs] at h
    split at h
    · cases h
    · rename_i s2 hh
      have h1 := handler_table ctx s s2 hh
      have h2 := ih s2 s1 h
      exact ⟨h2.1.trans h1.1, upd_trans h1.2 h2.2⟩

theorem poll_loop_length (ps : List (Int × Int)) :
    ∀ job : esh_pipeline, (poll_loop ps job).2.1.length ≤ ps.length := by
  induction ps with
  | nil => intro job; simp [poll_loop]
  | cons r ps ih =>
    intro job
    obtain ⟨pid, status⟩ := r
    have h := ih (mark_process_status pid status job).2
    rcases hpl : poll_loop ps (mark_process_status pid status job).2 with ⟨evs, rest1, job1⟩
    rw [hpl] at h
    simp only at h
    simp only [poll_loop]
    split
    · rw [hpl]
      simp only [List.length_cons]
      omega
    · simp

theorem update_status_job_polls (w : World) (job : esh_pipeline) :
    (update_status_job w job).1.polls.length ≤ w.polls.length := by
  have h := poll_loop_length w.polls job
  unfold update_status_job
  rcases hpl : poll_loop w.polls job with ⟨evs, rest, job1⟩
  rw [hpl] at h
  simp only at h ⊢
  split <;> simpa [printf, emit] using h

theorem update_status_polls (l : List esh_pipeline) :
    ∀ w : World, (update_status w l).1.polls.length ≤ w.polls.length := by
  induction l with
  | nil => intro w; simp [update_status]
  | cons j l ih =>
    intro w
    simp only [update_status]
    exact le_trans (ih _) (update_status_job_polls w j)

/-- The fuel given to `handler_loop` by `handler` is enough: with more fuel than
results of `waitpid` the loop ends by itself, and more fuel changes nothing. -/
theorem handler_loop_fuel (fuel : Nat) :
    ∀ (w : World) (jobs : List esh_pipeline), w.polls.length < fuel →
      handler_loop (fuel + 1) w jobs = handler_loop fuel w jobs := by
  induction fuel with
  | zero => intro w jobs h; omega
  | succ fuel ih =>
    intro w jobs h
    simp only [handler_loop]
    cases hp : w.polls with
    | nil => rfl
    | cons r rest =>
      obtain ⟨pid, status⟩ := r
      simp only
      split
      · apply ih
        have h1 := update_status_polls jobs
          (emit (Event.waitpid true pid status) { w with polls := rest })
        rw [hp] at h
        simp only [List.length_cons] at h
        simp only [emit] at h1 ⊢
        omega
      · rfl

/-! ## C4, C5, C6: invariants of the loop of `main` -/

theorem main_iter_some (ctx : Ctx) (sigchld : Nat) (line : Line) (s s1 : Shell)
    (h : main_iter ctx sigchld line s = some s1) :
    ∃ s2 s3, main_top ctx s = some s2 ∧ handler_runs ctx sigchld s2 = some s3 ∧
      main_dispatch ctx line s3 = some s1 := by
  unfold main_iter at h
  split at h
  · cases h
  · rename_i s2 ht
    split at h
    · cases h
    · rename_i s3 hh
      exact ⟨s2, s3, ht, hh, h⟩

theorem main_loop_reachable (ctx : Ctx) (lines : List (Nat × Line)) :
    ∀ s s1 : Shell, Reachable ctx s → main_loop ctx lines s = some s1 → Reachable ctx s1 := by
  induction lines with
  | nil =>
    intro s s1 hr h
    simp only [main_loop, Option.some.injEq] at h
    rw [← h]
    exact hr
  | cons p rest ih =>
    intro s s1 hr h
    obtain ⟨sigchld, line⟩ := p
    simp only [main_loop] at h
    split at h
    · cases h
    · rename_i s2 hit
      exact ih s2 s1 (Reachable.iter sigchld line s s2 hr hit) h

theorem wrap_int_of_range (n : Int) (h1 : -2147483648 ≤ n) (h2 : n ≤ 2147483647) :
    wrap_int n = n := by
  unfold wrap_int
  rw [Int.emod_eq_of_lt (by omega) (by omega)]
  omega

theorem jid_inv_top (ctx : Ctx) (s s1 : Shell) (h : JidInv s.jobNum s.jobsList)
    (ht : main_top ctx s = some s1) : JidInv s1.jobNum s1.jobsList := by
  obtain ⟨hu, hn⟩ := main_top_table ctx s s1 ht
  have h1 := jid_inv_upd h hu
  rw [hn]
  split
  · rename_i hnil
    rw [hnil]
    exact ⟨le_refl 0, by simp, by simp⟩
  · exact h1

theorem main_top_jobNum_le (ctx : Ctx) (s s1 : Shell) (h0 : 0 ≤ s.jobNum)
    (ht : main_top ctx s = some s1) : s1.jobNum ≤ s.jobNum := by
  rw [(main_top_table ctx s s1 ht).2]
  split
  · exact h0
  · exact le_refl _

theorem jid_inv_dispatch (ctx : Ctx) (line : Line) (s s1 : Shell)
    (h : JidInv s.jobNum s.jobsList) (hmax : s.jobNum < INT_MAX)
    (hd : main_dispatch ctx line s = some s1) :
    JidInv s1.jobNum s1.jobsList := by
  have hnext : next_jid s = s.jobNum + 1 := by
    unfold next_jid
    unfold INT_MAX at hmax
    exact wrap_int_of_range _ (by have := h.1; omega) (by omega)
  rcases main_dispatch_table ctx line s s1 hd with ⟨hn, hu⟩ | ⟨hn, hl⟩
  · rw [hn]
    exact jid_inv_upd h hu
  · obtain ⟨h0, hb, hnd⟩ := h
    rw [hn, hnext]
    rcases hl with hl | ⟨job, hl, hjid, _⟩
    · rw [hl]
      refine ⟨by omega, ?_, hnd⟩
      intro j hj
      have := hb j hj
      exact ⟨this.1, by omega⟩
    · rw [hl]
      rw [hnext] at hjid
      refine ⟨by omega, ?_, ?_⟩
      · intro j hj
        rcases List.mem_append.mp hj with hj | hj
        · have := hb j hj
          exact ⟨this.1, by omega⟩
        · rw [List.mem_singleton.mp hj, hjid]
          exact ⟨by omega, le_refl _⟩
      · rw [List.map_append, List.nodup_append]
        refine ⟨hnd, by simp, ?_⟩
        intro a ha1 ha2
        simp only [List.map_cons, List.map_nil, List.mem_singleton] at ha2
        obtain ⟨j, hj, hja⟩ := List.mem_map.mp ha1
        have := (hb j hj).2
        rw [hja, ha2, hjid] at this
        omega

theorem jid_inv_prompt (ctx : Ctx) (sigchld : Nat) (s s1 s2 : Shell)
    (h : JidInv s.jobNum s.jobsList) (ht : main_top ctx s = some s1)
    (hh : handler_runs ctx sigchld s1 = some s2) :
    JidInv s2.jobNum s2.jobsList ∧ s2.jobNum = s1.jobNum ∧ s2.jobNum ≤ s.jobNum := by
  have h1 := jid_inv_top ctx s s1 h ht
  obtain ⟨hn, hu⟩ := handler_runs_table ctx sigchld s1 s2 hh
  refine ⟨?_, hn, ?_⟩
  · rw [hn]
    exact jid_inv_upd h1 hu
  · rw [hn]
    exact main_top_jobNum_le ctx s s1 h.1 ht

theorem bounded_reachable_jid_inv {ctx : Ctx} {s : Shell} (h : BoundedReachable ctx s) :
    JidInv s.jobNum s.jobsList := by
  induction h with
  | start w => exact ⟨le_refl 0, by simp [initial], by simp [initial]⟩
  | iter sigchld line s s1 _ hmax hit ih =>
    obtain ⟨s2, s3, ht, hh, hd⟩ := main_iter_some ctx sigchld line s s1 hit
    obtain ⟨hinv, _, hle⟩ := jid_inv_prompt ctx sigchld s s2 s3 ih ht hh
    exact jid_inv_dispatch ctx line s3 s1 hinv (lt_of_le_of_lt hle hmax) hd

theorem reachable_no_foreground {ctx : Ctx} {s : Shell} (h : Reachable ctx s)
    (hi : ctx.shell_is_interactive = true) :
    count_foreground s.jobsList = 0 ∧ ∀ job ∈ s.jobsList, job.pgrp ≠ 0 := by
  induction h with
  | start w => exact ⟨rfl, by simp [initial]⟩
  | iter sigchld line s s1 _ hit ih =>
    obtain ⟨s2, s3, ht, hh, hd⟩ := main_iter_some ctx sigchld line s s1 hit
    have hu : Upd s.jobsList s3.jobsList :=
      upd_trans (main_top_table ctx s s2 ht).1 (handler_runs_table ctx sigchld s2 s3 hh).2
    have h3 : count_foreground s3.jobsList = 0 := upd_count_foreground hu ih.1
    have hp3 : ∀ job ∈ s3.jobsList, job.pgrp ≠ 0 := by
      intro j1 hj1
      obtain ⟨j, hj, ht1⟩ := upd_mem hu j1 hj1
      rw [ht1.2.1]
      exact ih.2 j hj
    rcases main_dispatch_table ctx line s3 s1 hd with ⟨_, hu1⟩ | ⟨_, hl⟩
    · refine ⟨upd_count_foreground hu1 h3, ?_⟩
      intro j1 hj1
      obtain ⟨j, hj, ht1⟩ := upd_mem hu1 j1 hj1
      rw [ht1.2.1]
      exact hp3 j hj
    · rcases hl with hl | ⟨job, hl, _, hfg⟩
      · rw [hl]; exact ⟨h3, hp3⟩
      · rw [hl]
        constructor
        · rw [count_foreground_eq_zero] at h3 ⊢
          intro j hj
          rcases List.mem_append.mp hj with hj | hj
          · exact h3 j hj
          · rw [List.mem_singleton.mp hj]
            exact (hfg hi).1
        · intro j hj
          rcases List.mem_append.mp hj with hj | hj
          · exact hp3 j hj
          · rw [List.mem_singleton.mp hj]
            exact (hfg hi).2

theorem max_jid_le (n : Int) (l : List esh_pipeline) (h0 : 0 ≤ n)
    (h : ∀ job ∈ l, job.jid ≤ n) : max_jid l ≤ n := by
  induction l with
  | nil => exact h0
  | cons j l ih =>
    simp only [max_jid]
    exact max_le (h j (List.mem_cons_self _ _)) (ih (fun x hx => h x (List.mem_cons_of_mem _ hx)))

theorem mark_commands_flags (pid status : Int) (cs : List esh_command) :
    ∀ cs1, mark_commands pid status cs = some cs1 →
      ∀ c1 ∈ cs1, c1 ∈ cs ∨ (c1.complete = true ∨ c1.stop = true) := by
  induction cs with
  | nil => intro cs1 h; simp [mark_commands] at h
  | cons c cs ih =>
    intro cs1 h c1 hc1
    by_cases hc : c.pid = pid
    · simp only [mark_commands, hc, if_true, Option.some.injEq] at h
      subst h
      rcases List.mem_cons.mp hc1 with rfl | hc1
      · right
        cases hs : WIFSTOPPED status <;> simp [mark_command, hs]
      · exact Or.inl (List.mem_cons_of_mem _ hc1)
    · simp only [mark_commands, hc, if_false] at h
      cases hm : mark_commands pid status cs with
      | none => simp [hm] at h
      | some rest =>
        simp only [hm, Option.some.injEq] at h
        subst h
        rcases List.mem_cons.mp hc1 with rfl | hc1
        · exact Or.inl (List.mem_cons_self _ _)
        · rcases ih rest hm c1 hc1 with h1 | h1
          · exact Or.inl (List.mem_cons_of_mem _ h1)
          · exact Or.inr h1

theorem mark_process_status_stopped (pid status : Int) (job : esh_pipeline)
    (h : job_is_stopped job = true) : job_is_stopped (mark_process_status pid status job).2 = true := by
  rw [job_is_stopped_iff] at h ⊢
  unfold mark_process_status
  split
  · cases hm : mark_commands pid status job.commands with
    | none => exact h
    | some cs =>
      intro c hc
      rcases mark_commands_flags pid status _ cs hm c hc with h1 | h1
      · exact h c h1
      · exact h1
  · split <;> exact h

theorem poll_loop_stopped (ps : List (Int × Int)) :
    ∀ job : esh_pipeline, job_is_stopped job = true →
      job_is_stopped (poll_loop ps job).2.2 = true := by
  induction ps with
  | nil =>
    intro job h
    simp only [poll_loop]
    exact mark_process_status_stopped 0 0 job h
  | cons r ps ih =>
    intro job h
    obtain ⟨pid, status⟩ := r
    have hm := mark_process_status_stopped pid status job h
    simp only [poll_loop]
    split
    · exact ih _ hm
    · exact hm

theorem update_status_job_settled (w : World) (job : esh_pipeline)
    (h : job.status = job_status.FOREGROUND → job_is_stopped job = true) :
    (update_status_job w job).2.status = job_status.FOREGROUND →
      job_is_complete (update_status_job w job).2 = true := by
  have hp := poll_loop_fields w.polls job
  have hs := poll_loop_stopped w.polls job
  unfold update_status_job
  rcases hpl : poll_loop w.polls job with ⟨evs, rest, job1⟩
  rw [hpl] at hp hs
  simp only at hp hs ⊢
  split
  · intro hfg
    simp at hfg
  · rename_i hcond
    intro hfg
    have hst := hs (h (hp.2.1 ▸ hfg))
    cases hco : job_is_complete job1 with
    | true => rfl
    | false => simp [hst, hco] at hcond

theorem update_status_settled (l : List esh_pipeline) :
    ∀ w : World, settled l = true →
      ∀ job1 ∈ (update_status w l).2, job1.status = job_status.FOREGROUND →
        job_is_complete job1 = true := by
  induction l with
  | nil => intro w _ j hj; simp [update_status] at hj
  | cons j l ih =>
    intro w hs j1 hj1
    simp only [settled, List.all_cons, Bool.and_eq_true] at hs
    simp only [update_status] at hj1
    rcases List.mem_cons.mp hj1 with rfl | hj1
    · refine update_status_job_settled w j ?_
      intro hfg
      have := hs.1
      simpa [hfg] using this
    · exact ih _ hs.2 j1 hj1

theorem notify_loop_keeps (l : List esh_pipeline) :
    ∀ w : World, ∀ job1 ∈ (notify_loop w l).2,
      ∃ job ∈ l, job_is_complete job = false ∧ job1.status = job.status := by
  induction l with
  | nil => intro w j hj; simp [notify_loop] at hj
  | cons j l ih =>
    intro w j1 hj1
    simp only [notify_loop] at hj1
    split at hj1
    · obtain ⟨x, hx, hx2⟩ := ih _ j1 hj1
      exact ⟨x, List.mem_cons_of_mem _ hx, hx2⟩
    · rename_i hco
      have hco1 : job_is_complete j = false := by simpa using hco
      split at hj1
      · rcases List.mem_cons.mp hj1 with rfl | hj1
        · exact ⟨j, List.mem_cons_self _ _, hco1, rfl⟩
        · obtain ⟨x, hx, hx2⟩ := ih _ j1 hj1
          exact ⟨x, List.mem_cons_of_mem _ hx, hx2⟩
      · rcases List.mem_cons.mp hj1 with rfl | hj1
        · exact ⟨j1, List.mem_cons_self _ _, hco1, rfl⟩
        · obtain ⟨x, hx, hx2⟩ := ih _ j1 hj1
          exact ⟨x, List.mem_cons_of_mem _ hx, hx2⟩

theorem main_top_settled (ctx : Ctx) (s s1 : Shell) (hs : settled s.jobsList = true)
    (h : main_top ctx s = some s1) : count_foreground s1.jobsList = 0 := by
  unfold main_top at h
  split at h
  · cases h
  · rename_i w1 hg
    rcases hd : do_job_notification w1 s.jobsList with ⟨w2, jobs2⟩
    rw [hd] at h
    simp only [Option.some.injEq] at h
    subst h
    rw [count_foreground_eq_zero]
    intro j1 hj1 hfg
    have hmem : j1 ∈ (do_job_notification w1 s.jobsList).2 := by rw [hd]; exact hj1
    unfold do_job_notification at hmem
    obtain ⟨x, hx, hco, hstat⟩ := notify_loop_keeps _ _ j1 hmem
    have := update_status_settled s.jobsList w1 hs x hx (hstat ▸ hfg)
    rw [this] at hco
    cases hco

theorem count_foreground_append_one (l : List esh_pipeline) (job : esh_pipeline) :
    count_foreground (l ++ [job]) ≤ count_foreground l + 1 := by
  unfold count_foreground
  rw [List.filter_append, List.length_append]
  have : (List.filter (fun j => j.status == job_status.FOREGROUND) [job]).length ≤ 1 :=
    (List.length_filter_le _ _).trans (by simp)
  omega

theorem main_dispatch_count (ctx : Ctx) (line : Line) (s s1 : Shell)
    (h0 : count_foreground s.jobsList = 0) (h : main_dispatch ctx line s = some s1) :
    count_foreground s1.jobsList ≤ 1 := by
  rcases main_dispatch_table ctx line s s1 h with ⟨_, hu⟩ | ⟨_, hl⟩
  · rw [upd_count_foreground hu h0]
    exact Nat.zero_le 1
  · rcases hl with hl | ⟨job, hl, _, _⟩
    · rw [hl, h0]
      exact Nat.zero_le 1
    · rw [hl]
      have := count_foreground_append_one s.jobsList job
      omega

theorem settled_loop_reachable (ctx : Ctx) (lines : List (Nat × Line)) :
    ∀ s s1 : Shell, SettledReachable ctx s → settled_loop ctx lines s = some s1 →
      SettledReachable ctx s1 := by
  induction lines with
  | nil =>
    intro s s1 hr h
    simp only [settled_loop, Option.some.injEq] at h
    rw [← h]
    exact hr
  | cons p rest ih =>
    intro s s1 hr h
    obtain ⟨sigchld, line⟩ := p
    simp only [settled_loop] at h
    split at h
    · rename_i hs
      split at h
      · cases h
      · rename_i s2 hit
        exact ih s2 s1 (SettledReachable.iter sigchld line s s2 hr hs hit) h
    · cases h

theorem bounded_loop_reachable (ctx : Ctx) (lines : List (Nat × Line)) :
    ∀ s s1 : Shell, BoundedReachable ctx s → bounded_loop ctx lines s = some s1 →
      BoundedReachable ctx s1 := by
  induction lines with
  | nil =>
    intro s s1 hr h
    simp only [bounded_loop, Option.some.injEq] at h
    rw [← h]
    exact hr
  | cons p rest ih =>
    intro s s1 hr h
    obtain ⟨sigchld, line⟩ := p
    simp only [bounded_loop] at h
    split at h
    · rename_i hs
      split at h
      · cases h
      · rename_i s2 hit
        exact ih s2 s1 (BoundedReachable.iter sigchld line s s2 hr hs hit) h
    · cases h

/-- C4, as the code has it: in interactive mode, in every state reached at the
top of a loop iteration of `main` no job has status `FOREGROUND`, since a job
put in the foreground is waited for and then marked `STOPPED` or removed before
the loop goes on.  In either mode, when every iteration starts from a table in
which each job marked `FOREGROUND` has all its commands completed or stopped,
at most one job has status `FOREGROUND` at the top of an iteration.  In batch
mode a launched job is appended to the table whenever its launch returns,
whatever its wait returned, with status `FOREGROUND` when it was launched
without `&` and `BACKGROUND` when it was launched with `&`. -/
theorem foreground_count_at_top (ctx : Ctx) (s : Shell) :
    (ctx.shell_is_interactive = true → Reachable ctx s → count_foreground s.jobsList = 0) ∧
    (SettledReachable ctx s → count_foreground s.jobsList ≤ 1) ∧
    (ctx.shell_is_interactive = false → ∀ (pipe : esh_pipeline) (s1 : Shell),
      main_launch ctx pipe s = some s1 →
      ∃ job, s1.jobsList = s.jobsList ++ [job] ∧
        job.status =
          (if pipe.bg_job then job_status.BACKGROUND else job_status.FOREGROUND)) := by
  refine ⟨?_, ?_, ?_⟩
  · intro hi h
    exact (reachable_no_foreground h hi).1
  · intro h
    cases h with
    | start w => exact Nat.zero_le 1
    | iter sigchld line s0 _ _ hs hit =>
      obtain ⟨s2, s3, ht, hh, hd⟩ := main_iter_some ctx sigchld line s0 s hit
      have h2 := main_top_settled ctx s0 s2 hs ht
      have h3 := upd_count_foreground (handler_runs_table ctx sigchld s2 s3 hh).2 h2
      exact main_dispatch_count ctx line s3 s h3 hd
  · intro hb pipe s1 hl
    obtain ⟨job, h1, _, _, h4⟩ := main_launch_batch ctx pipe s s1 hb hl
    exact ⟨job, h1, h4⟩

theorem main_loop_append (ctx : Ctx) (l1 l2 : List (Nat × Line)) :
    ∀ s s1 : Shell, main_loop ctx l1 s = some s1 →
      main_loop ctx (l1 ++ l2) s = main_loop ctx l2 s1 := by
  induction l1 with
  | nil =>
    intro s s1 h
    simp only [main_loop, Option.some.injEq] at h
    rw [h]
    rfl
  | cons p rest ih =>
    intro s s1 h
    obtain ⟨sigchld, line⟩ := p
    simp only [main_loop, List.cons_append] at h ⊢
    split at h
    · cases h
    · rename_i s2 hit
      exact ih s2 s1 h

set_option maxRecDepth 4000
theorem long_run_first (m : Nat) :
    ∃ t, main_iter interactive 0 (parsed ["sleep"] true) (initial (long_start m)) =
      some { world := busy t m, jobsList := [anchor], jobNum := 1 } :=
  ⟨_, rfl⟩

theorem long_run_step (t : List Event) (m : Nat) (n : Int) :
    ∃ t1, main_iter interactive 0 (parsed ["true"] false)
        { world := busy t (m + 1), jobsList := [anchor], jobNum := n } =
      some { world := busy t1 m, jobsList := [anchor], jobNum := wrap_int (n + 1) } :=
  ⟨_, rfl⟩

theorem long_run_climb (k : Nat) :
    ∀ (t : List Event) (m : Nat) (n : Int), 0 ≤ n → n + k ≤ 2147483647 →
      ∃ t1, main_loop interactive (List.replicate k (0, parsed ["true"] false))
          { world := busy t (m + k), jobsList := [anchor], jobNum := n } =
        some { world := busy t1 m, jobsList := [anchor], jobNum := n + k } := by
  induction k with
  | zero =>
    intro t m n _ _
    exact ⟨t, by simp [main_loop]⟩
  | succ k ih =>
    intro t m n h0 hk
    obtain ⟨t1, h1⟩ := long_run_step t (m + k) n
    rw [wrap_int_of_range (n + 1) (by omega) (by push_cast at hk; omega)] at h1
    obtain ⟨t2, h2⟩ := ih t1 m (n + 1) (by omega) (by push_cast at hk ⊢; omega)
    refine ⟨t2, ?_⟩
    have hm : m + (k + 1) = m + k + 1 := rfl
    rw [List.replicate_succ, main_loop, hm, h1]
    simp only
    rw [h2]
    push_cast
    congr 2
    omega

/-- After `sleep &` and 2147483646 times `true`, each with its own process,
`jobNum` is `INT_MAX` and the table holds the job of `sleep`. -/
theorem long_run :
    ∃ t, main_loop interactive
        ((0, parsed ["sleep"] true) :: List.replicate 2147483646 (0, parsed ["true"] false))
        (initial (long_start 2147483647)) =
      some { world := busy t 1, jobsList := [anchor], jobNum := 2147483647 } := by
  obtain ⟨t, h1⟩ := long_run_first 2147483647
  obtain ⟨t1, h2⟩ := long_run_climb 2147483646 t 1 1 (by decide) (by decide)
  refine ⟨t1, ?_⟩
  rw [main_loop, h1]
  simp only
  have hm : (2147483647 : Nat) = 1 + 2147483646 := by norm_num
  rw [hm, h2]
  norm_num

/-- Instance of C4: interactively, after `sleep 100 &` and a `cat` that is
stopped, the table holds a background and a stopped job; in batch mode, after a
`sleep 100` that ran to its end and a `cat` that is stopped, the table holds one
job marked `FOREGROUND`; in batch mode the launch of `sleep 100` whose wait
returns the error `-1` appends the job with status `FOREGROUND`. -/
theorem foreground_count_at_top_witness :
    (∃ s, stop_run = some s ∧
      summary s = [(1, job_status.BACKGROUND), (2, job_status.STOPPED)] ∧
      count_foreground s.jobsList = 0) ∧
    (∃ s, settled_run = some s ∧ summary s = [(1, job_status.FOREGROUND)] ∧
      count_foreground s.jobsList ≤ 1) ∧
    (∃ s1, main_launch batch (command_line ["sleep", "100"] false)
        (initial { quiet with forks := [100], waits := [(-1, 0)] }) = some s1 ∧
      ∃ job, s1.jobsList = [] ++ [job] ∧ job.status = job_status.FOREGROUND) := by
  refine ⟨?_, ?_, ?_⟩
  · have hsum : stop_run.map summary =
        some [(1, job_status.BACKGROUND), (2, job_status.STOPPED)] := by decide
    cases hrun : stop_run with
    | none => rw [hrun] at hsum; cases hsum
    | some s =>
      rw [hrun] at hsum
      exact ⟨s, rfl, by simpa using hsum,
        (foreground_count_at_top interactive s).1 rfl
          (main_loop_reachable _ _ _ _ (Reachable.start _) hrun)⟩
  · have hsum : settled_run.map summary = some [(1, job_status.FOREGROUND)] := by decide
    cases hrun : settled_run with
    | none => rw [hrun] at hsum; cases hsum
    | some s =>
      rw [hrun] at hsum
      exact ⟨s, rfl, by simpa using hsum,
        (foreground_count_at_top batch s).2.1
          (settled_loop_reachable _ _ _ _ (SettledReachable.start _) hrun)⟩
  · have hsome : (main_launch batch (command_line ["sleep", "100"] false)
        (initial { quiet with forks := [100], waits := [(-1, 0)] })).isSome = true := by decide
    cases hrun : main_launch batch (command_line ["sleep", "100"] false)
        (initial { quiet with forks := [100], waits := [(-1, 0)] }) with
    | none => rw [hrun] at hsome; cases hsome
    | some s1 =>
      exact ⟨s1, rfl,
        (foreground_count_at_top batch
          (initial { quiet with forks := [100], waits := [(-1, 0)] })).2.2 rfl
          (command_line ["sleep", "100"] false) s1 hrun⟩

/-- C4 fails as stated: when standard input is not a terminal, two commands
whose blocking wait returns the error `-1` are both left in the table with
status `FOREGROUND`. -/
theorem two_foreground_jobs_in_batch_mode :
    ∃ s, main_loop batch [(0, parsed ["sleep", "100"] false), (0, parsed ["sleep", "200"] false)]
          (initial { quiet with forks := [100, 101], waits := [(-1, 0), (-1, 0)] }) = some s ∧
      Reachable batch s ∧
      summary s = [(1, job_status.FOREGROUND), (2, job_status.FOREGROUND)] ∧
      count_foreground s.jobsList = 2 := by
  have hsum : batch_run.map summary =
      some [(1, job_status.FOREGROUND), (2, job_status.FOREGROUND)] := by decide
  have hcount : batch_run.map (fun s => count_foreground s.jobsList) = some 2 := by decide
  cases hrun : batch_run with
  | none => rw [hrun] at hsum; cases hsum
  | some s =>
    rw [hrun] at hsum hcount
    exact ⟨s, hrun, main_loop_reachable _ _ _ _ (Reachable.start _) hrun,
      by simpa using hsum, by simpa using hcount⟩

theorem jid_inv_claim {n : Int} {l : List esh_pipeline} (h : JidInv n l) :
    (∀ job ∈ l, 1 ≤ job.jid) ∧ l.Pairwise (fun a b => a.jid ≠ b.jid) := by
  refine ⟨fun j hj => (h.2.1 j hj).1, ?_⟩
  have := h.2.2
  unfold List.Nodup at this
  rw [List.pairwise_map] at this
  exact this

/-- C5, as the code has it: in every state the loop of `main` reaches from the
empty table with `jobNum = 0` through iterations that each start with `jobNum`
below `INT_MAX`, the jids in the jobs table are all at least 1 and pairwise
distinct: at the top of an iteration, after the notification pass, and after
any number of runs of the `SIGCHLD` handler at the prompt. -/
theorem jids_distinct_and_positive (ctx : Ctx) (s : Shell) (h : BoundedReachable ctx s) :
    ((∀ job ∈ s.jobsList, 1 ≤ job.jid) ∧ s.jobsList.Pairwise (fun a b => a.jid ≠ b.jid)) ∧
    ∀ s1, main_top ctx s = some s1 →
      ((∀ job ∈ s1.jobsList, 1 ≤ job.jid) ∧
        s1.jobsList.Pairwise (fun a b => a.jid ≠ b.jid)) ∧
      ∀ sigchld s2, handler_runs ctx sigchld s1 = some s2 →
        (∀ job ∈ s2.jobsList, 1 ≤ job.jid) ∧
          s2.jobsList.Pairwise (fun a b => a.jid ≠ b.jid) :=
  ⟨jid_inv_claim (bounded_reachable_jid_inv h),
   fun s1 ht => ⟨jid_inv_claim (jid_inv_top ctx s s1 (bounded_reachable_jid_inv h) ht),
     fun sigchld s2 hh =>
       jid_inv_claim (jid_inv_prompt ctx sigchld s s1 s2 (bounded_reachable_jid_inv h) ht hh).1⟩⟩

/-- Instance of C5: three background jobs get the jids 1, 2 and 3. -/
theorem jids_distinct_and_positive_witness :
    ∃ s, bounded_run = some s ∧ s.jobsList.map (fun job => job.jid) = [1, 2, 3] ∧
      (∀ job ∈ s.jobsList, 1 ≤ job.jid) ∧ s.jobsList.Pairwise (fun a b => a.jid ≠ b.jid) := by
  have hjids : bounded_run.map (fun s => s.jobsList.map (fun job => job.jid)) =
      some [1, 2, 3] := by
    decide
  cases hrun : bounded_run with
  | none => rw [hrun] at hjids; cases hjids
  | some s =>
    rw [hrun] at hjids
    exact ⟨s, rfl, by simpa using hjids,
      (jids_distinct_and_positive interactive s
        (bounded_loop_reachable _ _ _ _ (BoundedReachable.start _) hrun)).1⟩

/-- C5 fails as stated: interactively, after `sleep &`, 2147483646 times `true`
and one more `sleep &`, `jobNum` has been incremented from `INT_MAX`, and the
table, reached from the empty table with `jobNum = 0`, holds the jids 1 and
-2147483648. -/
theorem jid_wraps_around :
    ∃ s, main_loop interactive
          (((0, parsed ["sleep"] true) ::
              List.replicate 2147483646 (0, parsed ["true"] false)) ++
            [(0, parsed ["sleep"] true)])
          (initial (long_start 2147483647)) = some s ∧
      Reachable interactive s ∧
      s.jobsList.map (fun job => job.jid) = [1, -2147483648] ∧
      ∃ job ∈ s.jobsList, job.jid < 1 := by
  obtain ⟨t, h⟩ := long_run
  have hlast : (main_loop interactive [(0, parsed ["sleep"] true)]
      { world := busy t 1, jobsList := [anchor], jobNum := 2147483647 }).map
        (fun s => s.jobsList.map (fun job => job.jid)) = some [1, -2147483648] := rfl
  have happ := main_loop_append interactive _ [(0, parsed ["sleep"] true)] _ _ h
  cases hrun : main_loop interactive [(0, parsed ["sleep"] true)]
      { world := busy t 1, jobsList := [anchor], jobNum := 2147483647 } with
  | none => rw [hrun] at hlast; cases hlast
  | some s =>
    rw [hrun] at hlast happ
    simp only [Option.map_some', Option.some.injEq] at hlast
    refine ⟨s, happ, main_loop_reachable _ _ _ _ (Reachable.start _) happ, hlast, ?_⟩
    have hmem : ∃ jid ∈ s.jobsList.map (fun job => job.jid), jid < 1 := by
      rw [hlast]
      exact ⟨-2147483648, by simp, by decide⟩
    obtain ⟨jid, hjid, hlt⟩ := hmem
    obtain ⟨job, hjob, rfl⟩ := List.mem_map.mp hjid
    exact ⟨job, hjob, hlt⟩

/-- C6, as the code has it: in every state reached through iterations that each
start with `jobNum` below `INT_MAX`, after the notification pass and any number
of runs of the `SIGCHLD` handler at the prompt, the jid given to a newly launched
job is `jobNum + 1`; it is greater than every jid in the table (at least the
greatest jid plus one), it is 1 when the notification pass left the table empty,
and a launched job that stays in the table is appended with exactly this jid. -/
theorem next_jid_above_table (ctx : Ctx) (sigchld : Nat) (s s1 s2 : Shell)
    (h : BoundedReachable ctx s) (hmax : s.jobNum < INT_MAX)
    (ht : main_top ctx s = some s1) (hh : handler_runs ctx sigchld s1 = some s2) :
    next_jid s2 = s2.jobNum + 1 ∧
    (∀ job ∈ s2.jobsList, job.jid < next_jid s2) ∧
    max_jid s2.jobsList + 1 ≤ next_jid s2 ∧
    (s1.jobsList = [] → next_jid s2 = 1) ∧
    ∀ pipe s3, pipe.commands ≠ [] → main_launch ctx pipe s2 = some s3 →
      s3.jobsList = s2.jobsList ∨
        ∃ job, s3.jobsList = s2.jobsList ++ [job] ∧ job.jid = next_jid s2 := by
  obtain ⟨hinv, hn, hle⟩ := jid_inv_prompt ctx sigchld s s1 s2 (bounded_reachable_jid_inv h) ht hh
  obtain ⟨h0, hb, _⟩ := hinv
  have hnext : next_jid s2 = s2.jobNum + 1 := by
    unfold next_jid
    unfold INT_MAX at hmax
    exact wrap_int_of_range _ (by omega) (by omega)
  refine ⟨hnext, ?_, ?_, ?_, ?_⟩
  · intro j hj
    have := (hb j hj).2
    omega
  · have := max_jid_le s2.jobNum s2.jobsList h0 (fun j hj => (hb j hj).2)
    omega
  · intro hnil
    have hn1 := (main_top_table ctx s s1 ht).2
    rw [if_pos hnil] at hn1
    rw [hnext, hn, hn1]
    rfl
  · intro pipe s3 hne hl
    rcases (main_launch_table ctx pipe s2 s3 hne hl).2 with h1 | ⟨job, h1, h2, _⟩
    · exact Or.inl h1
    · exact Or.inr ⟨job, h1, h2⟩

/-- Instance of C6: with the jobs 1, 2 and 3 in the table the next jid is 4. -/
theorem next_jid_above_table_witness :
    ∃ s s1, bounded_run = some s ∧ main_top interactive s = some s1 ∧
      s1.jobsList.map (fun job => job.jid) = [1, 2, 3] ∧ next_jid s1 = 4 ∧
      (∀ job ∈ s1.jobsList, job.jid < next_jid s1) ∧ max_jid s1.jobsList + 1 ≤ next_jid s1 := by
  have hjids : (bounded_run.bind (main_top interactive)).map
      (fun s => (s.jobsList.map (fun job => job.jid), next_jid s, decide (s.jobNum < INT_MAX))) =
        some ([1, 2, 3], 4, true) := by
    decide
  have hbound : bounded_run.map (fun s => decide (s.jobNum < INT_MAX)) = some true := by decide
  cases hrun : bounded_run with
  | none => rw [hrun] at hjids; cases hjids
  | some s =>
    rw [hrun] at hjids hbound
    cases htop : main_top interactive s with
    | none => simp [htop] at hjids
    | some s1 =>
      simp only [Option.some_bind, htop, Option.map_some', Option.some.injEq,
        Prod.mk.injEq, decide_eq_true_eq] at hjids hbound
      have hthm := next_jid_above_table interactive 0 s s1 s1
        (bounded_loop_reachable _ _ _ _ (BoundedReachable.start _) hrun) hbound htop rfl
      exact ⟨s, s1, rfl, htop, hjids.1, hjids.2.1, hthm.2.1, hthm.2.2.1⟩

/-- C6 fails as stated: after `sleep 100 &`, `sleep 200 &` and `kill 2` the
table holds only job 1, and the next launched job gets jid 3, not 2; after
`sleep 100 &` and a handler run at the prompt that removes the killed job, the
table is empty and the next launched job gets jid 2, not 1; and after `sleep &`
and 2147483646 times `true` the table holds job 1 and the next launched job
gets jid -2147483648. -/
theorem next_jid_after_kill :
    (∃ s s1, main_loop interactive
          [(0, parsed ["sleep", "100"] true), (0, parsed ["sleep", "200"] true),
           (0, parsed ["kill", "2"] false)]
          (initial { quiet with forks := [100, 101] }) = some s ∧
      Reachable interactive s ∧ main_top interactive s = some s1 ∧
      s1.jobsList.map (fun job => job.jid) = [1] ∧ max_jid s1.jobsList + 1 = 2 ∧
      next_jid s1 = 3) ∧
    (∃ s s1 s2, main_loop interactive [(0, parsed ["sleep", "100"] true)]
          (initial { quiet with forks := [100], polls := [(0, 0), (100, 9)] }) = some s ∧
      Reachable interactive s ∧ main_top interactive s = some s1 ∧
      handler_runs interactive 1 s1 = some s2 ∧
      s1.jobsList.map (fun job => job.jid) = [1] ∧ s2.jobsList = [] ∧ next_jid s2 = 2) ∧
    (∃ s s1, main_loop interactive
          ((0, parsed ["sleep"] true) :: List.replicate 2147483646 (0, parsed ["true"] false))
          (initial (long_start 2147483647)) = some s ∧
      Reachable interactive s ∧ main_top interactive s = some s1 ∧
      s1.jobsList.map (fun job => job.jid) = [1] ∧ next_jid s1 = -2147483648) := by
  refine ⟨?_, ?_, ?_⟩
  · have hjids : (kill_run.bind (main_top interactive)).map
        (fun s => (s.jobsList.map (fun job => job.jid), max_jid s.jobsList + 1, next_jid s)) =
          some ([1], 2, 3) := by
      decide
    cases hrun : kill_run with
    | none => rw [hrun] at hjids; cases hjids
    | some s =>
      rw [hrun] at hjids
      cases htop : main_top interactive s with
      | none => simp [htop] at hjids
      | some s1 =>
        simp only [Option.some_bind, htop, Option.map_some', Option.some.injEq,
          Prod.mk.injEq] at hjids
        exact ⟨s, s1, hrun, main_loop_reachable _ _ _ _ (Reachable.start _) hrun, htop,
          hjids.1, hjids.2.1, hjids.2.2⟩
  · have hsum : (((main_loop interactive [(0, parsed ["sleep", "100"] true)]
          (initial { quiet with forks := [100], polls := [(0, 0), (100, 9)] })).bind
            (main_top interactive)).map
          (fun s1 => (s1.jobsList.map (fun job => job.jid),
            (handler_runs interactive 1 s1).map (fun s2 => (s2.jobsList, next_jid s2)))) =
        some ([1], some ([], 2))) := by
      decide
    cases hrun : main_loop interactive [(0, parsed ["sleep", "100"] true)]
          (initial { quiet with forks := [100], polls := [(0, 0), (100, 9)] }) with
    | none => rw [hrun] at hsum; cases hsum
    | some s =>
      rw [hrun] at hsum
      cases htop : main_top interactive s with
      | none => simp [htop] at hsum
      | some s1 =>
        simp only [Option.some_bind, htop, Option.map_some', Option.some.injEq,
          Prod.mk.injEq] at hsum
        cases hh : handler_runs interactive 1 s1 with
        | none => simp [hh] at hsum
        | some s2 =>
          simp only [hh, Option.map_some', Option.some.injEq, Prod.mk.injEq] at hsum
          exact ⟨s, s1, s2, rfl, main_loop_reachable _ _ _ _ (Reachable.start _) hrun, htop,
            hh, hsum.1, hsum.2.1, hsum.2.2⟩
  · obtain ⟨t, h⟩ := long_run
    have htop : (main_top interactive
        { world := busy t 1, jobsList := [anchor], jobNum := 2147483647 }).map
          (fun s => (s.jobsList.map (fun job => job.jid), next_jid s)) =
        some ([1], -2147483648) := rfl
    cases hrun : main_top interactive
        { world := busy t 1, jobsList := [anchor], jobNum := 2147483647 } with
    | none => rw [hrun] at htop; cases htop
    | some s1 =>
      rw [hrun] at htop
      simp only [Option.map_some', Option.some.injEq, Prod.mk.injEq] at htop
      exact ⟨_, s1, h, main_loop_reachable _ _ _ _ (Reachable.start _) h, hrun,
        htop.1, htop.2⟩

/-! ## C7: a failing `kill` in `bg`, `stop` and `kill` -/

theorem for_each_job_skip (f : World → esh_pipeline → Option (World × Option esh_pipeline))
    (l : List esh_pipeline) (w : World)
    (h : ∀ job ∈ l, ∀ w0, f w0 job = some (w0, some job)) :
    for_each_job f w l = some (w, l) := by
  induction l with
  | nil => rfl
  | cons j l ih =>
    simp only [for_each_job, h j (List.mem_cons_self _ _) w,
      ih (fun x hx => h x (List.mem_cons_of_mem _ hx))]

theorem for_each_job_single (f : World → esh_pipeline → Option (World × Option esh_pipeline))
    (pre : List esh_pipeline) (job : esh_pipeline) (post : List esh_pipeline) (w : World)
    (hpre : ∀ j ∈ pre, ∀ w0, f w0 j = some (w0, some j))
    (hpost : ∀ j ∈ post, ∀ w0, f w0 j = some (w0, some j)) :
    for_each_job f w (pre ++ job :: post) =
      match f w job with
      | none => none
      | some (w1, some job1) => some (w1, pre ++ job1 :: post)
      | some (w1, none) => some (w1, pre ++ post) := by
  induction pre with
  | nil =>
    simp only [List.nil_append, for_each_job]
    cases hf : f w job with
    | none => rfl
    | some t =>
      obtain ⟨w1, r⟩ := t
      simp only [for_each_job_skip f post w1 hpost]
      cases r <;> rfl
  | cons j pre ih =>
    have hj := hpre j (List.mem_cons_self _ _) w
    have := ih (fun x hx => hpre x (List.mem_cons_of_mem _ hx))
    simp only [List.cons_append, for_each_job, hj, List.append_eq]
    rw [this]
    cases hf : f w job with
    | none => rfl
    | some t =>
      obtain ⟨w1, r⟩ := t
      cases r <;> rfl

theorem any_jid_single (jid : Int) (pre : List esh_pipeline) (job : esh_pipeline)
    (post : List esh_pipeline) (hjid : job.jid = jid) :
    (pre ++ job :: post).any (fun j => j.jid == jid) = true := by
  simp [hjid]

/-- C7, what the code does when `kill` returns `-1`: `bg 1` prints the
diagnostic but has cleared the stopped flag of the command and set the bg flag
of the job, `stop 1` sets the state of a background job to Stopped and
overwrites its saved terminal state, and `kill 1` removes the job from the
table; none of the three leaves the state unchanged. -/
theorem kill_failure_changes_state :
    builtin_bg 1 1 (some 0) { quiet with kills := [-1] } [stopped_cat true] =
      some ({ quiet with
              trace := [Event.kill (-5) Signal.SIGCONT, Event.perror "kill (SIGCONT)"] },
            [{ stopped_cat true with
               bg_job := true,
               commands := [{ argv := ["cat"], pid := 5, complete := false, stop := false,
                              status := 4991 }] }]) ∧
    builtin_stop 1 { quiet with kills := [-1], ttys := [7] }
        [single 1 ["cat"] 5 job_status.BACKGROUND] =
      some ({ quiet with trace := [Event.tty_save 7, Event.kill (-5) Signal.SIGTSTP] },
            [{ single 1 ["cat"] 5 job_status.BACKGROUND with
               status := job_status.STOPPED, saved_tty_state := 7 }]) ∧
    builtin_kill 1 { quiet with kills := [-1] } [single 1 ["cat"] 5 job_status.BACKGROUND] =
      some ({ quiet with trace := [Event.kill (-5) Signal.SIGKILL] }, []) := by
  refine ⟨?_, ?_, ?_⟩
  · decide
  · decide
  · decide

/-! ## C10: `foreground` -/

theorem give_terminal_to_some (pgrp : Int) (st : Option Nat) (w w1 : World)
    (h : give_terminal_to pgrp st w = some w1) :
    w1.trace = w.trace ++ Event.tcsetpgrp pgrp ::
        st.toList.map Event.tty_restore ∧
      w1.waits = w.waits := by
  unfold give_terminal_to at h
  simp only at h
  split at h
  · cases h
  · cases st with
    | none =>
      simp only [Option.some.injEq] at h
      subst h
      simp [emit]
    | some x =>
      simp only [Option.some.injEq] at h
      subst h
      simp [emit]

theorem send_continue_trace (pipe : esh_pipeline) (w : World) :
    ∃ w3, send_continue pipe w = some w3 ∧
      (∃ diag, (diag = [] ∨ diag = [Event.perror "kill (SIGCONT)"]) ∧
        w3.trace = w.trace ++
          Event.tty_restore pipe.saved_tty_state ::
            Event.kill (-pipe.pgrp) Signal.SIGCONT :: diag) ∧
      w3.waits = w.waits ∧ w3.tcsets = w.tcsets := by
  refine ⟨_, send_continue_eq pipe w, ?_⟩
  rw [kill_call_eq]
  simp only [emit]
  split
  · refine ⟨⟨[Event.perror "kill (SIGCONT)"], Or.inr rfl, ?_⟩, rfl, rfl⟩
    simp
  · refine ⟨⟨[], Or.inl rfl, ?_⟩, rfl, rfl⟩
    simp

theorem wait_for_job_loop_events (ws : List (Int × Int)) :
    ∀ (job : esh_pipeline) (evs : List Event) (rest : List (Int × Int)) (job1 : esh_pipeline),
      wait_for_job_loop ws job = some (evs, rest, job1) →
      ∀ e ∈ evs, ∃ pid status, e = Event.waitpid false pid status := by
  induction ws with
  | nil => intro job evs rest job1 h; simp [wait_for_job_loop] at h
  | cons r ws ih =>
    intro job evs rest job1 h
    obtain ⟨pid, status⟩ := r
    simp only [wait_for_job_loop] at h
    split at h
    · cases hrec : wait_for_job_loop ws (mark_process_status pid status job).2 with
      | none => simp [hrec] at h
      | some t =>
        obtain ⟨evs1, rest1, job2⟩ := t
        simp only [hrec, Option.some.injEq, Prod.mk.injEq] at h
        obtain ⟨hevs, _, _⟩ := h
        subst hevs
        intro e he
        rcases List.mem_cons.mp he with rfl | he
        · exact ⟨pid, status, rfl⟩
        · exact ih _ _ _ _ hrec e he
    · simp only [Option.some.injEq, Prod.mk.injEq] at h
      obtain ⟨hevs, _, _⟩ := h
      subst hevs
      intro e he
      rw [List.mem_singleton.mp he]
      exact ⟨pid, status, rfl⟩

theorem wait_for_job_trace (w w1 : World) (job job1 : esh_pipeline)
    (h : wait_for_job w job = some (w1, job1)) :
    ∃ waits, w1.trace = w.trace ++ waits ∧
      ∀ e ∈ waits, ∃ pid status, e = Event.waitpid false pid status := by
  unfold wait_for_job at h
  cases hloop : wait_for_job_loop w.waits job with
  | none => simp [hloop] at h
  | some t =>
    obtain ⟨evs, rest, job2⟩ := t
    simp only [hloop, Option.some.injEq, Prod.mk.injEq] at h
    refine ⟨evs, by rw [← h.1], wait_for_job_loop_events _ _ _ _ _ hloop⟩

theorem esh_sys_tty_save_trace (w : World) :
    (esh_sys_tty_save w).2.trace = w.trace ++ [Event.tty_save (esh_sys_tty_save w).1] := by
  unfold esh_sys_tty_save
  cases w.ttys <;> rfl

theorem print_commands_argv (f : esh_command → esh_command) (hf : ∀ c, (f c).argv = c.argv)
    (cs : List esh_command) : print_commands (cs.map f) = print_commands cs := by
  induction cs with
  | nil => rfl
  | cons c cs ih =>
    cases cs with
    | nil => simp [print_commands, hf]
    | cons d ds =>
      simp only [List.map_cons, print_commands, hf] at ih ⊢
      rw [ih]

theorem print_job_name_mark (job : esh_pipeline) :
    print_job_name (mark_job_as_running job) = print_job_name job := by
  show print_commands (job.commands.map (fun c => { c with stop := false })) ++ "\n" =
    print_commands job.commands ++ "\n"
  rw [print_commands_argv (fun c => { c with stop := false }) (fun _ => rfl)]

theorem put_job_in_foreground_spec (pipe : esh_pipeline) (cont : Bool) (shellGroup : Int)
    (shellState : Option Nat) (w w1 : World) (job1 : esh_pipeline) (removed : Bool)
    (h : put_job_in_foreground pipe cont shellGroup shellState w = some (w1, job1, removed)) :
    ∃ (w2 w4 : World) (waited : esh_pipeline) (signal waits : List Event),
      (cont = false → signal = []) ∧
      (cont = true → ∃ diag, (diag = [] ∨ diag = [Event.perror "kill (SIGCONT)"]) ∧
        signal = Event.tty_restore pipe.saved_tty_state ::
          Event.kill (-pipe.pgrp) Signal.SIGCONT :: diag) ∧
      w2.trace = w.trace ++ [Event.print (print_job_name pipe), Event.tcsetpgrp pipe.pgrp,
        Event.tty_restore pipe.saved_tty_state] ++ signal ∧
      w2.waits = w.waits ∧
      wait_for_job w2 { pipe with status := job_status.FOREGROUND, bg_job := false } =
        some (w4, waited) ∧
      w4.trace = w2.trace ++ waits ∧
      (∀ e ∈ waits, ∃ pid status, e = Event.waitpid false pid status) ∧
      removed = job_is_complete waited ∧
      job1 = (if job_is_complete waited then waited
        else { waited with status := job_status.STOPPED,
                           saved_tty_state := (esh_sys_tty_save w4).1 }) ∧
      w1.trace = w4.trace ++
        (if job_is_complete waited then [] else [Event.tty_save (esh_sys_tty_save w4).1]) ++
        Event.tcsetpgrp shellGroup ::
          shellState.toList.map Event.tty_restore := by
  obtain ⟨w2, w3, w4, pipe2, hg, hs, hw, hcase⟩ := put_job_in_foreground_some _ _ _ _ _ _ _ _ h
  obtain ⟨hg1, hg2⟩ := give_terminal_to_some _ _ _ _ hg
  have htail : ∀ w5 : World, give_terminal_to shellGroup shellState w5 = some w1 →
      w1.trace = w5.trace ++ Event.tcsetpgrp shellGroup ::
          shellState.toList.map Event.tty_restore := fun w5 h5 => (give_terminal_to_some _ _ _ _ h5).1
  obtain ⟨waits, hwt, hwe⟩ := wait_for_job_trace _ _ _ _ hw
  cases cont with
  | false =>
    simp only [Bool.false_eq_true, if_false, Option.some.injEq] at hs
    subst hs
    refine ⟨w2, w4, pipe2, [], waits, fun _ => rfl, fun hc => (by cases hc), ?_, hg2, hw, hwt, hwe, ?_⟩
    · rw [hg1]; simp [printf, emit]
    · rcases hcase with ⟨hc, hr, hj, hgt⟩ | ⟨hc, hr, hj, hgt⟩
      · refine ⟨by rw [hr, hc], by rw [hj, hc]; simp, ?_⟩
        rw [htail _ hgt, esh_sys_tty_save_trace, hc]
        simp
      · refine ⟨by rw [hr, hc], by rw [hj, hc]; simp, ?_⟩
        rw [htail _ hgt, hc]
        simp
  | true =>
    simp only [if_true] at hs
    obtain ⟨w3a, hs1, ⟨diag, hdiag, hst⟩, hsw, _⟩ :=
      send_continue_trace { pipe with status := job_status.FOREGROUND, bg_job := false } w2
    rw [hs, Option.some.injEq] at hs1
    subst hs1
    refine ⟨w3, w4, pipe2, _, waits, fun hc => (by cases hc), fun _ => ⟨diag, hdiag, rfl⟩, ?_,
      (by rw [hsw, hg2]; rfl), hw, hwt, hwe, ?_⟩
    · rw [hst, hg1]; simp [printf, emit]
    · rcases hcase with ⟨hc, hr, hj, hgt⟩ | ⟨hc, hr, hj, hgt⟩
      · refine ⟨by rw [hr, hc], by rw [hj, hc]; simp, ?_⟩
        rw [htail _ hgt, esh_sys_tty_save_trace, hc]
        simp
      · refine ⟨by rw [hr, hc], by rw [hj, hc]; simp, ?_⟩
        rw [htail _ hgt, hc]
        simp

theorem give_terminal_to_eq (pgrp : Int) (st : Option Nat) (w : World)
    (h : w.tcsets.headD 0 ≠ -1) :
    give_terminal_to pgrp st w =
      some { w with
             trace := w.trace ++ Event.tcsetpgrp pgrp :: st.toList.map Event.tty_restore
             tcsets := w.tcsets.tail } := by
  unfold give_terminal_to
  cases ht : w.tcsets with
  | nil => cases st <;> simp [emit]
  | cons r rest =>
    rw [ht] at h
    simp only [List.headD_cons] at h
    cases st <;> simp [emit, h]

theorem put_job_in_foreground_returns (pipe : esh_pipeline) (cont : Bool) (shellGroup : Int)
    (shellState : Option Nat) (w : World)
    (h1 : w.tcsets.headD 0 ≠ -1) (h2 : w.tcsets.tail.headD 0 ≠ -1)
    (hw : (wait_for_job_loop w.waits
      { pipe with status := job_status.FOREGROUND, bg_job := false }).isSome = true) :
    (put_job_in_foreground pipe cont shellGroup shellState w).isSome = true := by
  obtain ⟨⟨evs, rest, waited⟩, hloop⟩ := Option.isSome_iff_exists.mp hw
  unfold put_job_in_foreground
  simp only
  rw [give_terminal_to_eq _ _ (printf (print_job_name pipe) w) (by simpa [printf, emit] using h1)]
  simp only
  have hsend : ∀ w2 : World, w2.waits = w.waits → w2.tcsets = w.tcsets.tail →
      ∃ w3, (if cont then
          send_continue { pipe with status := job_status.FOREGROUND, bg_job := false } w2
        else some w2) = some w3 ∧ w3.waits = w.waits ∧ w3.tcsets = w.tcsets.tail := by
    intro w2 hwa htc
    cases cont with
    | false => exact ⟨w2, rfl, hwa, htc⟩
    | true =>
      obtain ⟨w3, hs, _, hsw, hst⟩ :=
        send_continue_trace { pipe with status := job_status.FOREGROUND, bg_job := false } w2
      exact ⟨w3, hs, by rw [hsw, hwa], by rw [hst, htc]⟩
  generalize hw2 : World.mk _ _ _ _ _ _ _ = w2
  have hwa2 : w2.waits = w.waits := by rw [← hw2]; rfl
  have htc2 : w2.tcsets = w.tcsets.tail := by rw [← hw2]; rfl
  obtain ⟨w3, hs, hwa, htc⟩ := hsend w2 hwa2 htc2
  rw [hs]
  simp only [wait_for_job, hwa, hloop]
  split
  · rw [give_terminal_to_eq _ _ _ (by
      unfold esh_sys_tty_save
      cases w3.ttys <;> simpa [emit, htc] using h2)]
    rfl
  · rw [give_terminal_to_eq _ _ _ (by simpa [htc] using h2)]
    rfl

theorem put_job_in_foreground_hangs (pipe : esh_pipeline) (cont : Bool) (shellGroup : Int)
    (shellState : Option Nat) (w : World)
    (hw : wait_for_job_loop w.waits
      { pipe with status := job_status.FOREGROUND, bg_job := false } = none) :
    put_job_in_foreground pipe cont shellGroup shellState w = none := by
  cases h : put_job_in_foreground pipe cont shellGroup shellState w with
  | none => rfl
  | some r =>
    obtain ⟨w1, job1, removed⟩ := r
    obtain ⟨w2, _, _, _, _, _, _, _, hw2, hwait, _⟩ := put_job_in_foreground_spec _ _ _ _ _ _ _ _ h
    unfold wait_for_job at hwait
    rw [hw2, hw] at hwait
    cases hwait

theorem foreground_single (jid shell_group : Int) (shell_state : Option Nat) (w : World)
    (pre : List esh_pipeline) (job : esh_pipeline) (post : List esh_pipeline)
    (hjid : job.jid = jid) (hpre : ∀ j ∈ pre, j.jid ≠ jid) (hpost : ∀ j ∈ post, j.jid ≠ jid) :
    foreground jid (pre ++ job :: post) shell_group shell_state w =
      match foreground_job jid shell_group shell_state w job with
      | none => none
      | some (w1, some job1) => some (w1, pre ++ job1 :: post)
      | some (w1, none) => some (w1, pre ++ post) := by
  have hskip : ∀ l : List esh_pipeline, (∀ j ∈ l, j.jid ≠ jid) →
      ∀ j ∈ l, ∀ w0, foreground_job jid shell_group shell_state w0 j = some (w0, some j) := by
    intro l hl j hj w0
    simp [foreground_job, hl j hj]
  unfold foreground
  rw [for_each_job_single _ pre job post w (hskip pre hpre) (hskip post hpost),
    any_jid_single jid pre job post hjid]
  cases hf : foreground_job jid shell_group shell_state w job with
  | none => rfl
  | some t =>
    obtain ⟨w1, r⟩ := t
    cases r <;> rfl

theorem keep_unless_removed_table (x : Option (World × esh_pipeline × Bool))
    (pre post : List esh_pipeline) (w1 : World) (table1 : List esh_pipeline)
    (h : (match keep_unless_removed x with
          | none => none
          | some (w1, some job1) => some (w1, pre ++ job1 :: post)
          | some (w1, none) => some (w1, pre ++ post)) = some (w1, table1)) :
    ∃ job1 removed, x = some (w1, job1, removed) ∧
      table1 = pre ++ (if removed then [] else [job1]) ++ post := by
  cases x with
  | none => simp [keep_unless_removed] at h
  | some t =>
    obtain ⟨w2, job1, removed⟩ := t
    cases removed with
    | true =>
      simp only [keep_unless_removed, if_true, Option.some.injEq, Prod.mk.injEq] at h
      exact ⟨job1, true, by rw [h.1], by simp [h.2]⟩
    | false =>
      simp only [keep_unless_removed, Bool.false_eq_true, if_false, Option.some.injEq,
        Prod.mk.injEq] at h
      exact ⟨job1, false, by rw [h.1], by simp [h.2]⟩

/-- C10: `foreground(jid)` on a table in which exactly one job has the jid.
Foreground: nothing changes and nothing is logged.  Otherwise `foreground`
returns when the two terminal transfers do not fail and the blocking wait
returns for the job, and it does not return when the wait never does.
Whenever it returns: the name is printed and the terminal is given to the
job's process group; for Background nothing more happens before the wait, for
Stopped and NeedsTerminal the stopped flag of every command is cleared and
`SIGCONT` is sent to the negated process group before the wait; the job is
waited for; afterwards it is removed from the table when all its commands
completed and otherwise has state Stopped; and the trace ends with the terminal
given to the shell's process group. -/
theorem foreground_transitions (jid shell_group : Int) (shell_state : Option Nat) (w : World)
    (pre : List esh_pipeline) (job : esh_pipeline) (post : List esh_pipeline)
    (hjid : job.jid = jid) (hpre : ∀ j ∈ pre, j.jid ≠ jid) (hpost : ∀ j ∈ post, j.jid ≠ jid) :
    (job.status = job_status.FOREGROUND →
      foreground jid (pre ++ job :: post) shell_group shell_state w =
        some (w, pre ++ job :: post)) ∧
    (job.status ≠ job_status.FOREGROUND →
      w.tcsets.headD 0 ≠ -1 → w.tcsets.tail.headD 0 ≠ -1 →
      (wait_for_job_loop w.waits
          { job with
            status := job_status.FOREGROUND
            bg_job := false
            commands := if job.status = job_status.BACKGROUND then job.commands
              else job.commands.map (fun c => { c with stop := false }) }).isSome = true →
      ∃ (w1 : World) (table1 : List esh_pipeline),
        foreground jid (pre ++ job :: post) shell_group shell_state w = some (w1, table1)) ∧
    (job.status ≠ job_status.FOREGROUND →
      wait_for_job_loop w.waits
          { job with
            status := job_status.FOREGROUND
            bg_job := false
            commands := if job.status = job_status.BACKGROUND then job.commands
              else job.commands.map (fun c => { c with stop := false }) } = none →
      foreground jid (pre ++ job :: post) shell_group shell_state w = none) ∧
    (job.status ≠ job_status.FOREGROUND → ∀ (w1 : World) (table1 : List esh_pipeline),
      foreground jid (pre ++ job :: post) shell_group shell_state w = some (w1, table1) →
      ∃ (w2 w4 : World) (waited : esh_pipeline) (signal waits : List Event),
        (job.status = job_status.BACKGROUND → signal = []) ∧
        (job.status ≠ job_status.BACKGROUND →
          ∃ diag, (diag = [] ∨ diag = [Event.perror "kill (SIGCONT)"]) ∧
            signal = Event.tty_restore job.saved_tty_state ::
              Event.kill (-job.pgrp) Signal.SIGCONT :: diag) ∧
        w2.trace = w.trace ++ [Event.print (print_job_name job), Event.tcsetpgrp job.pgrp,
          Event.tty_restore job.saved_tty_state] ++ signal ∧
        w2.waits = w.waits ∧
        wait_for_job w2
            { job with
              status := job_status.FOREGROUND
              bg_job := false
              commands := if job.status = job_status.BACKGROUND then job.commands
                else job.commands.map (fun c => { c with stop := false }) } =
          some (w4, waited) ∧
        w4.trace = w2.trace ++ waits ∧
        (∀ e ∈ waits, ∃ pid status, e = Event.waitpid false pid status) ∧
        table1 = pre ++
          (if job_is_complete waited then []
            else [{ waited with status := job_status.STOPPED,
                                saved_tty_state := (esh_sys_tty_save w4).1 }]) ++ post ∧
        w1.trace = w4.trace ++
          (if job_is_complete waited then [] else [Event.tty_save (esh_sys_tty_save w4).1]) ++
          Event.tcsetpgrp shell_group :: shell_state.toList.map Event.tty_restore) := by
  rw [foreground_single jid shell_group shell_state w pre job post hjid hpre hpost]
  refine ⟨?_, ?_, ?_, ?_⟩
  · intro hfg
    simp [foreground_job, hjid, hfg]
  · intro hfg ht1 ht2 hw
    have hprod : ∀ x : Option (World × esh_pipeline × Bool), x.isSome = true →
        foreground_job jid shell_group shell_state w job = keep_unless_removed x →
        ∃ (w1 : World) (table1 : List esh_pipeline),
          (match foreground_job jid shell_group shell_state w job with
            | none => none
            | some (w1, some job1) => some (w1, pre ++ job1 :: post)
            | some (w1, none) => some (w1, pre ++ post)) = some (w1, table1) := by
      intro x hx hf
      obtain ⟨⟨w1, job1, removed⟩, rfl⟩ := Option.isSome_iff_exists.mp hx
      rw [hf]
      cases removed with
      | true => exact ⟨w1, pre ++ post, by simp [keep_unless_removed]⟩
      | false => exact ⟨w1, pre ++ job1 :: post, by simp [keep_unless_removed]⟩
    cases hst : job.status with
    | FOREGROUND => exact absurd hst hfg
    | BACKGROUND =>
      rw [hst] at hw
      simp only [if_true] at hw
      exact hprod _ (put_job_in_foreground_returns job false shell_group shell_state w ht1 ht2 hw)
        (by simp [foreground_job, hjid, hst])
    | STOPPED =>
      rw [hst] at hw
      simp only [reduceCtorEq, if_false] at hw
      exact hprod _
        (put_job_in_foreground_returns (mark_job_as_running job) true shell_group shell_state w
          ht1 ht2 hw)
        (by simp [foreground_job, hjid, hst, continue_job])
    | NEEDSTERMINAL =>
      rw [hst] at hw
      simp only [reduceCtorEq, if_false] at hw
      exact hprod _
        (put_job_in_foreground_returns (mark_job_as_running job) true shell_group shell_state w
          ht1 ht2 hw)
        (by simp [foreground_job, hjid, hst, continue_job])
  · intro hfg hw
    cases hst : job.status with
    | FOREGROUND => exact absurd hst hfg
    | BACKGROUND =>
      rw [hst] at hw
      simp only [if_true] at hw
      simp [foreground_job, hjid, hst, keep_unless_removed,
        put_job_in_foreground_hangs job false shell_group shell_state w hw]
    | STOPPED =>
      rw [hst] at hw
      simp only [reduceCtorEq, if_false] at hw
      simp [foreground_job, hjid, hst, keep_unless_removed, continue_job,
        put_job_in_foreground_hangs (mark_job_as_running job) true shell_group shell_state w hw]
    | NEEDSTERMINAL =>
      rw [hst] at hw
      simp only [reduceCtorEq, if_false] at hw
      simp [foreground_job, hjid, hst, keep_unless_removed, continue_job,
        put_job_in_foreground_hangs (mark_job_as_running job) true shell_group shell_state w hw]
  · intro hfg w1 table1 h
    have hcont : ∀ x : Option (World × esh_pipeline × Bool),
        foreground_job jid shell_group shell_state w job = keep_unless_removed x →
        ∃ job1 removed, x = some (w1, job1, removed) ∧
          table1 = pre ++ (if removed then [] else [job1]) ++ post := by
      intro x hx
      rw [hx] at h
      exact keep_unless_removed_table x pre post w1 table1 h
    cases hst : job.status with
    | FOREGROUND => exact absurd hst hfg
    | BACKGROUND =>
      obtain ⟨job1, removed, hp, htab⟩ :=
        hcont (put_job_in_foreground job false shell_group shell_state w)
          (by simp [foreground_job, hjid, hst])
      obtain ⟨w2, w4, waited, signal, waits, h1, _, h3, h4, h5, h6, h7, h8, h9, h10⟩ :=
        put_job_in_foreground_spec _ _ _ _ _ _ _ _ hp
      refine ⟨w2, w4, waited, signal, waits, fun _ => h1 rfl, fun hne => absurd rfl hne, h3, h4,
        ?_, h6, h7, ?_, h10⟩
      · simpa using h5
      · rw [htab, h8, h9]
        cases job_is_complete waited <;> simp
    | STOPPED =>
      obtain ⟨job1, removed, hp, htab⟩ :=
        hcont (continue_job job false shell_group shell_state w)
          (by simp [foreground_job, hjid, hst])
      simp only [continue_job, Bool.not_false, if_true] at hp
      obtain ⟨w2, w4, waited, signal, waits, _, h2, h3, h4, h5, h6, h7, h8, h9, h10⟩ :=
        put_job_in_foreground_spec _ _ _ _ _ _ _ _ hp
      rw [print_job_name_mark] at h3
      refine ⟨w2, w4, waited, signal, waits, (fun hb => by cases hb), fun _ => h2 rfl, h3, h4,
        ?_, h6, h7, ?_, h10⟩
      · simpa [mark_job_as_running] using h5
      · rw [htab, h8, h9]
        cases job_is_complete waited <;> simp
    | NEEDSTERMINAL =>
      obtain ⟨job1, removed, hp, htab⟩ :=
        hcont (continue_job job false shell_group shell_state w)
          (by simp [foreground_job, hjid, hst])
      simp only [continue_job, Bool.not_false, if_true] at hp
      obtain ⟨w2, w4, waited, signal, waits, _, h2, h3, h4, h5, h6, h7, h8, h9, h10⟩ :=
        put_job_in_foreground_spec _ _ _ _ _ _ _ _ hp
      rw [print_job_name_mark] at h3
      refine ⟨w2, w4, waited, signal, waits, (fun hb => by cases hb), fun _ => h2 rfl, h3, h4,
        ?_, h6, h7, ?_, h10⟩
      · simpa [mark_job_as_running] using h5
      · rw [htab, h8, h9]
        cases job_is_complete waited <;> simp

/-- Instance of C10: `fg 1` on a background `sleep` (pid 10) that then exits;
`fg 1` on a `vi` (pid 30) that needs the terminal and is then stopped again;
`fg 1` on the stopped job `cat` (pid 5), which then exits, with a background
job 2 in the table; `fg 1` on a background job whose wait never returns; and
`fg 1` on a job that is already in the foreground. -/
theorem foreground_transitions_witness :
    (foreground 1 ([] ++ single 1 ["sleep"] 10 job_status.BACKGROUND :: []) 1 (some 0)
        { quiet with waits := [(10, 0)] } =
      some ({ quiet with
              trace := [Event.print "sleep \n", Event.tcsetpgrp 10, Event.tty_restore 0,
                        Event.waitpid false 10 0, Event.tcsetpgrp 1, Event.tty_restore 0] },
            []) ∧
      ∃ (w1 : World) (table1 : List esh_pipeline),
        foreground 1 ([] ++ single 1 ["sleep"] 10 job_status.BACKGROUND :: []) 1 (some 0)
          { quiet with waits := [(10, 0)] } = some (w1, table1)) ∧
    (foreground 1 ([] ++ single 1 ["vi"] 30 job_status.NEEDSTERMINAL :: []) 1 (some 0)
        { quiet with waits := [(30, 4991)] } =
      some ({ quiet with
              trace := [Event.print "vi \n", Event.tcsetpgrp 30, Event.tty_restore 0,
                        Event.tty_restore 0, Event.kill (-30) Signal.SIGCONT,
                        Event.waitpid false 30 4991, Event.tty_save 0, Event.tcsetpgrp 1,
                        Event.tty_restore 0] },
            [{ single 1 ["vi"] 30 job_status.STOPPED with
               commands := [{ running ["vi"] 30 with stop := true, status := 4991 }] }]) ∧
      ∃ (w1 : World) (table1 : List esh_pipeline),
        foreground 1 ([] ++ single 1 ["vi"] 30 job_status.NEEDSTERMINAL :: []) 1 (some 0)
          { quiet with waits := [(30, 4991)] } = some (w1, table1)) ∧
    (foreground 1 ([] ++ stopped_cat true :: [single 2 ["sleep"] 10 job_status.BACKGROUND]) 1
        (some 0) fg_before =
      some (fg_after, [single 2 ["sleep"] 10 job_status.BACKGROUND]) ∧
      (∃ (w1 : World) (table1 : List esh_pipeline),
        foreground 1 ([] ++ stopped_cat true :: [single 2 ["sleep"] 10 job_status.BACKGROUND]) 1
          (some 0) fg_before = some (w1, table1)) ∧
      ∃ (w2 w4 : World) (waited : esh_pipeline) (signal waits : List Event),
        ((stopped_cat true).status = job_status.BACKGROUND → signal = []) ∧
        ((stopped_cat true).status ≠ job_status.BACKGROUND →
          ∃ diag, (diag = [] ∨ diag = [Event.perror "kill (SIGCONT)"]) ∧
            signal = Event.tty_restore (stopped_cat true).saved_tty_state ::
              Event.kill (-(stopped_cat true).pgrp) Signal.SIGCONT :: diag) ∧
        w2.trace = fg_before.trace ++ [Event.print (print_job_name (stopped_cat true)),
          Event.tcsetpgrp (stopped_cat true).pgrp,
          Event.tty_restore (stopped_cat true).saved_tty_state] ++ signal ∧
        w2.waits = fg_before.waits ∧
        wait_for_job w2
            { stopped_cat true with
              status := job_status.FOREGROUND
              bg_job := false
              commands := if (stopped_cat true).status = job_status.BACKGROUND then
                  (stopped_cat true).commands
                else (stopped_cat true).commands.map (fun c => { c with stop := false }) } =
          some (w4, waited) ∧
        w4.trace = w2.trace ++ waits ∧
        (∀ e ∈ waits, ∃ pid status, e = Event.waitpid false pid status) ∧
        [single 2 ["sleep"] 10 job_status.BACKGROUND] = [] ++
          (if job_is_complete waited then []
            else [{ waited with status := job_status.STOPPED,
                                saved_tty_state := (esh_sys_tty_save w4).1 }]) ++
          [single 2 ["sleep"] 10 job_status.BACKGROUND] ∧
        fg_after.trace = w4.trace ++
          (if job_is_complete waited then [] else [Event.tty_save (esh_sys_tty_save w4).1]) ++
          Event.tcsetpgrp 1 :: (some 0).toList.map Event.tty_restore) ∧
    foreground 1 ([] ++ single 1 ["sleep"] 10 job_status.BACKGROUND :: []) 1 (some 0) quiet =
      none ∧
    foreground 1 ([] ++ single 1 ["cat"] 5 job_status.FOREGROUND :: []) 1 (some 0) quiet =
      some (quiet, [] ++ single 1 ["cat"] 5 job_status.FOREGROUND :: []) :=
  ⟨⟨by decide,
    (foreground_transitions 1 1 (some 0) { quiet with waits := [(10, 0)] } []
      (single 1 ["sleep"] 10 job_status.BACKGROUND) [] rfl (by decide) (by decide)).2.1
      (by decide) (by decide) (by decide) (by decide)⟩,
   ⟨by decide,
    (foreground_transitions 1 1 (some 0) { quiet with waits := [(30, 4991)] } []
      (single 1 ["vi"] 30 job_status.NEEDSTERMINAL) [] rfl (by decide) (by decide)).2.1
      (by decide) (by decide) (by decide) (by decide)⟩,
   ⟨by decide,
    (foreground_transitions 1 1 (some 0) fg_before [] (stopped_cat true)
      [single 2 ["sleep"] 10 job_status.BACKGROUND] rfl (by decide) (by decide)).2.1
      (by decide) (by decide) (by decide) (by decide),
    (foreground_transitions 1 1 (some 0) fg_before [] (stopped_cat true)
      [single 2 ["sleep"] 10 job_status.BACKGROUND] rfl (by decide) (by decide)).2.2.2 (by decide)
      fg_after [single 2 ["sleep"] 10 job_status.BACKGROUND] (by decide)⟩,
   (foreground_transitions 1 1 (some 0) quiet [] (single 1 ["sleep"] 10 job_status.BACKGROUND) []
      rfl (by decide) (by decide)).2.2.1 (by decide) (by decide),
   (foreground_transitions 1 1 (some 0) quiet [] (single 1 ["cat"] 5 job_status.FOREGROUND) []
      rfl (by decide) (by decide)).1 rfl⟩

/-! ## C11: the `kill` built-in -/

theorem sys_kill_group (pgrp : Int) (w : World) (h : pgrp ≠ 0) :
    sys_kill (-pgrp) Signal.SIGKILL w =
      some (w.kills.headD 0,
        { w with
          trace := w.trace ++ [Event.kill (-pgrp) Signal.SIGKILL], kills := w.kills.tail }) := by
  have hne : ¬ (-pgrp = 0) := by omega
  simp only [sys_kill, hne, false_and, if_false, kill_call_eq]

theorem for_each_job_kill (jid : Int) (l : List esh_pipeline) :
    (∀ j ∈ l, j.jid = jid → j.pgrp ≠ 0) →
    ∀ w : World, for_each_job (builtin_kill_job jid) w l =
      some ({ w with
              trace := w.trace ++ (l.filter (fun job => job.jid == jid)).map
                (fun job => Event.kill (-job.pgrp) Signal.SIGKILL),
              kills := w.kills.drop (l.filter (fun job => job.jid == jid)).length },
            l.filter (fun job => !(job.jid == jid))) := by
  induction l with
  | nil => intro _ w; simp [for_each_job]
  | cons j l ih =>
    intro hp w
    have ih1 := ih (fun x hx => hp x (List.mem_cons_of_mem _ hx))
    by_cases hj : j.jid = jid
    · simp only [for_each_job, builtin_kill_job, hj, if_true, ih1,
        sys_kill_group j.pgrp w (hp j (List.mem_cons_self _ _) hj)]
      simp [List.drop_tail, List.filter_cons, hj]
    · simp only [for_each_job, builtin_kill_job, hj, if_false, ih1]
      simp [List.filter_cons, hj]

theorem for_each_job_kill_shell (jid : Int) (job : esh_pipeline) (post : List esh_pipeline)
    (hjid : job.jid = jid) (hp : job.pgrp = 0) (pre : List esh_pipeline) :
    (∀ j ∈ pre, j.jid ≠ jid) →
    ∀ w : World, for_each_job (builtin_kill_job jid) w (pre ++ job :: post) = none := by
  induction pre with
  | nil =>
    intro _ w
    simp [for_each_job, builtin_kill_job, hjid, hp, sys_kill]
  | cons j pre ih =>
    intro hpre w
    have hj : j.jid ≠ jid := hpre j (List.mem_cons_self _ _)
    simp only [List.cons_append, for_each_job, builtin_kill_job, hj, if_false, List.append_eq]
    rw [ih (fun x hx => hpre x (List.mem_cons_of_mem _ hx))]

theorem reachable_prompt_pgrp (ctx : Ctx) (sigchld : Nat) (s s1 s2 : Shell)
    (hi : ctx.shell_is_interactive = true) (h : Reachable ctx s)
    (ht : main_top ctx s = some s1) (hh : handler_runs ctx sigchld s1 = some s2) :
    ∀ job ∈ s2.jobsList, job.pgrp ≠ 0 := by
  have hu : Upd s.jobsList s2.jobsList :=
    upd_trans (main_top_table ctx s s1 ht).1 (handler_runs_table ctx sigchld s1 s2 hh).2
  intro j1 hj1
  obtain ⟨j, hj, ht1⟩ := upd_mem hu j1 hj1
  rw [ht1.2.1]
  exact (reachable_no_foreground h hi).2 j hj

theorem filter_jid_single (jid : Int) (pre : List esh_pipeline) (job : esh_pipeline)
    (post : List esh_pipeline) (hjid : job.jid = jid) (hpre : ∀ j ∈ pre, j.jid ≠ jid)
    (hpost : ∀ j ∈ post, j.jid ≠ jid) :
    (pre ++ job :: post).filter (fun j => j.jid == jid) = [job] ∧
    (pre ++ job :: post).filter (fun j => !(j.jid == jid)) = pre ++ post := by
  have h1 : ∀ l : List esh_pipeline, (∀ j ∈ l, j.jid ≠ jid) →
      l.filter (fun j => j.jid == jid) = [] := by
    intro l hl
    rw [List.filter_eq_nil_iff]
    intro j hj
    simp [hl j hj]
  have h2 : ∀ l : List esh_pipeline, (∀ j ∈ l, j.jid ≠ jid) →
      l.filter (fun j => !(j.jid == jid)) = l := by
    intro l hl
    rw [List.filter_eq_self]
    intro j hj
    simp [hl j hj]
  constructor
  · rw [List.filter_append, List.filter_cons, h1 pre hpre, h1 post hpost]
    simp [hjid]
  · rw [List.filter_append, List.filter_cons, h2 pre hpre, h2 post hpost]
    simp [hjid]

theorem filter_jid_none (jid : Int) (l : List esh_pipeline) (h : ∀ j ∈ l, j.jid ≠ jid) :
    l.any (fun j => j.jid == jid) = false ∧
    l.filter (fun j => j.jid == jid) = [] ∧
    l.filter (fun j => !(j.jid == jid)) = l := by
  refine ⟨?_, ?_, ?_⟩
  · rw [List.any_eq_false]
    intro j hj
    simp [h j hj]
  · rw [List.filter_eq_nil_iff]
    intro j hj
    simp [h j hj]
  · rw [List.filter_eq_self]
    intro j hj
    simp [h j hj]

/-- C11, as the code has it: the `kill` built-in on a jobs table and a jid.
When no job of that jid has process group 0, the table afterwards is the
previous table without the jobs of that jid, the other jobs in their order and
unchanged, and `SIGKILL` has been sent to the negated process group of each
removed job, in table order; nothing else is logged.  When exactly one job has
the jid and its process group is not 0, the table is the rest of the table and
one `SIGKILL` goes to its negated process group.  When no job has the jid, the
table is unchanged, no signal is sent and `No job with matching ID` is printed.
The command line `kill <jid>` runs the built-in with `atoi` of its argument and
keeps `jobNum`.  In interactive mode no job of the table has process group 0
when the line is dispatched.  When the first job of that jid has process group
0, the signal goes to the process group of the shell and the shell is killed. -/
theorem builtin_kill_frame (jid : Int) (w : World) (jobsList : List esh_pipeline) :
    ((∀ j ∈ jobsList, j.jid = jid → j.pgrp ≠ 0) →
      builtin_kill jid w jobsList =
        some ({ w with
                trace := w.trace ++
                  (if jobsList.any (fun job => job.jid == jid) then
                    (jobsList.filter (fun job => job.jid == jid)).map
                      (fun job => Event.kill (-job.pgrp) Signal.SIGKILL)
                  else [Event.print "No job with matching ID \n"]),
                kills := w.kills.drop (jobsList.filter (fun job => job.jid == jid)).length },
              jobsList.filter (fun job => !(job.jid == jid)))) ∧
    (∀ (pre : List esh_pipeline) (job : esh_pipeline) (post : List esh_pipeline),
      jobsList = pre ++ job :: post → job.jid = jid → job.pgrp ≠ 0 →
      (∀ j ∈ pre, j.jid ≠ jid) → (∀ j ∈ post, j.jid ≠ jid) →
      builtin_kill jid w jobsList =
        some ({ w with
                trace := w.trace ++ [Event.kill (-job.pgrp) Signal.SIGKILL],
                kills := w.kills.tail },
              pre ++ post)) ∧
    ((∀ j ∈ jobsList, j.jid ≠ jid) →
      builtin_kill jid w jobsList =
        some ({ w with trace := w.trace ++ [Event.print "No job with matching ID \n"] },
              jobsList)) ∧
    (∀ (ctx : Ctx) (command : esh_command) (arg : String) (jobNum : Int),
      command.argv.tail.head? = some arg → atoi arg = jid →
      main_builtin ctx "kill" command { world := w, jobsList := jobsList, jobNum := jobNum } =
        (builtin_kill jid w jobsList).map
          (fun r => { world := r.1, jobsList := r.2, jobNum := jobNum })) ∧
    (∀ (ctx : Ctx) (sigchld : Nat) (s s1 s2 : Shell), ctx.shell_is_interactive = true →
      Reachable ctx s → main_top ctx s = some s1 → handler_runs ctx sigchld s1 = some s2 →
      s2.jobsList = jobsList → ∀ j ∈ jobsList, j.pgrp ≠ 0) ∧
    (∀ (pre : List esh_pipeline) (job : esh_pipeline) (post : List esh_pipeline),
      jobsList = pre ++ job :: post → job.jid = jid → job.pgrp = 0 →
      (∀ j ∈ pre, j.jid ≠ jid) → builtin_kill jid w jobsList = none) := by
  have hgen : (∀ j ∈ jobsList, j.jid = jid → j.pgrp ≠ 0) →
      builtin_kill jid w jobsList =
      some ({ w with
              trace := w.trace ++
                (if jobsList.any (fun job => job.jid == jid) then
                  (jobsList.filter (fun job => job.jid == jid)).map
                    (fun job => Event.kill (-job.pgrp) Signal.SIGKILL)
                else [Event.print "No job with matching ID \n"]),
              kills := w.kills.drop (jobsList.filter (fun job => job.jid == jid)).length },
            jobsList.filter (fun job => !(job.jid == jid))) := by
    intro hp
    unfold builtin_kill
    rw [for_each_job_kill jid jobsList hp]
    cases hany : jobsList.any (fun job => job.jid == jid) with
    | true => simp
    | false =>
      have hnil : jobsList.filter (fun job => job.jid == jid) = [] := by
        rw [List.filter_eq_nil_iff]
        intro j hj
        have := (List.any_eq_false.mp hany) j hj
        simpa using this
      simp [hnil, printf, emit]
  refine ⟨hgen, ?_, ?_, ?_, ?_, ?_⟩
  · intro pre job post hl hjid hpg hpre hpost
    have hp : ∀ j ∈ jobsList, j.jid = jid → j.pgrp ≠ 0 := by
      intro j hj hjj
      rw [hl] at hj
      rcases List.mem_append.mp hj with h1 | h1
      · exact absurd hjj (hpre j h1)
      · rcases List.mem_cons.mp h1 with h2 | h2
        · rw [h2]; exact hpg
        · exact absurd hjj (hpost j h2)
    rw [hgen hp, hl, any_jid_single jid pre job post hjid,
      (filter_jid_single jid pre job post hjid hpre hpost).1,
      (filter_jid_single jid pre job post hjid hpre hpost).2]
    cases hk : w.kills <;> simp
  · intro hno
    obtain ⟨h1, h2, h3⟩ := filter_jid_none jid jobsList hno
    rw [hgen (fun j hj hjj => absurd hjj (hno j hj)), h1, h2, h3]
    simp
  · intro ctx command arg jobNum harg hatoi
    cases hb : builtin_kill jid w jobsList with
    | none => simp [main_builtin, loop_jid, harg, hatoi, hb]
    | some r =>
      obtain ⟨w1, jobs1⟩ := r
      simp [main_builtin, loop_jid, harg, hatoi, hb]
  · intro ctx sigchld s s1 s2 hi hr ht hh hs
    rw [← hs]
    exact reachable_prompt_pgrp ctx sigchld s s1 s2 hi hr ht hh
  · intro pre job post hl hjid hpg hpre
    unfold builtin_kill
    rw [hl, for_each_job_kill_shell jid job post hjid hpg pre hpre w]

/-- Instance of C11: `kill 2` on the table with the jobs 1, 2 and 3 removes
job 2 and signals the group 20; `kill 7` leaves the table and prints the
message; the command line `kill 2` does what the built-in does; after the
interactive launch of `sleep 100 &` the job has process group 100; and `kill 1`
on a job with process group 0 ends the shell. -/
theorem builtin_kill_frame_witness :
    builtin_kill 2 quiet three_jobs =
      some ({ quiet with trace := [Event.kill (-20) Signal.SIGKILL] },
            [single 1 ["sleep"] 10 job_status.BACKGROUND,
             single 3 ["wc"] 30 job_status.BACKGROUND]) ∧
    builtin_kill 2 quiet three_jobs =
      some ({ quiet with
              trace := quiet.trace ++
                [Event.kill (-(single 2 ["cat"] 20 job_status.STOPPED).pgrp) Signal.SIGKILL],
              kills := quiet.kills.tail },
            [single 1 ["sleep"] 10 job_status.BACKGROUND] ++
              [single 3 ["wc"] 30 job_status.BACKGROUND]) ∧
    builtin_kill 7 quiet three_jobs =
      some ({ quiet with trace := quiet.trace ++ [Event.print "No job with matching ID \n"] },
            three_jobs) ∧
    main_builtin interactive "kill" (running ["kill", "2"] 0)
        { world := quiet, jobsList := three_jobs, jobNum := 3 } =
      (builtin_kill 2 quiet three_jobs).map
        (fun r => { world := r.1, jobsList := r.2, jobNum := 3 }) ∧
    (∃ s s1, main_loop interactive [(0, parsed ["sleep"] true)]
        (initial { quiet with forks := [100] }) = some s ∧
      main_top interactive s = some s1 ∧ s1.jobsList = [anchor] ∧
      ∀ j ∈ [anchor], j.pgrp ≠ 0) ∧
    builtin_kill 1 quiet ([] ++ { anchor with pgrp := 0 } :: []) = none := by
  have hsum : ((main_loop interactive [(0, parsed ["sleep"] true)]
      (initial { quiet with forks := [100] })).bind (main_top interactive)).map
        (fun s => s.jobsList) = some [anchor] := by decide
  refine ⟨((builtin_kill_frame 2 quiet three_jobs).1 (by decide)).trans (by decide),
   (builtin_kill_frame 2 quiet three_jobs).2.1 [single 1 ["sleep"] 10 job_status.BACKGROUND]
     (single 2 ["cat"] 20 job_status.STOPPED) [single 3 ["wc"] 30 job_status.BACKGROUND]
     rfl rfl (by decide) (by decide) (by decide),
   (builtin_kill_frame 7 quiet three_jobs).2.2.1 (by decide),
   (builtin_kill_frame 2 quiet three_jobs).2.2.2.1 interactive (running ["kill", "2"] 0) "2" 3
     rfl (by decide),
   ?_,
   (builtin_kill_frame 1 quiet ([] ++ { anchor with pgrp := 0 } :: [])).2.2.2.2.2
     [] { anchor with pgrp := 0 } [] rfl rfl rfl (by decide)⟩
  cases hrun : main_loop interactive [(0, parsed ["sleep"] true)]
      (initial { quiet with forks := [100] }) with
  | none => rw [hrun] at hsum; cases hsum
  | some s =>
    rw [hrun] at hsum
    cases htop : main_top interactive s with
    | none => simp [htop] at hsum
    | some s1 =>
      simp only [Option.some_bind, htop, Option.map_some', Option.some.injEq] at hsum
      exact ⟨s, s1, rfl, htop, hsum,
        (builtin_kill_frame 1 quiet [anchor]).2.2.2.2.1 interactive 0 s s1 s1 rfl
          (main_loop_reachable _ _ _ _ (Reachable.start _) hrun) htop rfl hsum⟩

/-- C11 fails as stated: when standard input is not a terminal, a `sleep 100`
that is stopped from outside is left in the table with jid 1 and process group
0, and `kill 1` then sends `SIGKILL` to the process group of the shell: the
shell is killed and no table is left, whereas `kill 2` lets the shell go on.
The built-in on a table with such a job does the same. -/
theorem kill_ends_the_shell :
    (main_loop batch [(0, parsed ["sleep", "100"] false)]
        (initial { quiet with forks := [100], waits := [(100, 4991)] })).map
      (fun s => s.jobsList.map (fun job => (job.jid, job.pgrp))) = some [(1, 0)] ∧
    main_loop batch [(0, parsed ["sleep", "100"] false), (0, parsed ["kill", "1"] false)]
      (initial { quiet with forks := [100], waits := [(100, 4991)] }) = none ∧
    (main_loop batch [(0, parsed ["sleep", "100"] false), (0, parsed ["kill", "2"] false)]
      (initial { quiet with forks := [100], waits := [(100, 4991)] })).isSome = true ∧
    builtin_kill 1 quiet [{ anchor with pgrp := 0 }] = none := by
  refine ⟨?_, ?_, ?_, ?_⟩ <;> decide

end Esh
